import Mathlib

/-!
# The vnote exporter (`src/export/exporter.cpp`) and its dialog driver

A shallow embedding of `vnotex::Exporter` and of `ExportDialog::doExport`.

* Qt signals become lists carried by `ExportState`: `logRequested` appends to
  `log`, `progressUpdated` appends to `progress`.
* Every call into a utility class that is not part of `exporter.cpp`
  (`FileUtils`, `PathUtils`, `QDir`, `ContentMediaUtils`) goes through a
  `Platform` record and is appended to `calls`, so that the order of the
  filesystem operations of a run can be inspected.
* `QString` is `String`; `QString::isEmpty` is equality with `""`.
* `Q_ASSERT` on a flag (`isContainer`, `isLoaded`) is the release-build no-op.
  A pointer that is asserted and then dereferenced is carried as its pointee
  (`m_htmlOption`) or, for the sources of the dialog, makes the call return
  `none` when it is null.
* `Node::load` is the identity: the tree carries its children.
-/

namespace Vnotex

/-! ## Data model -/

/-- Usage kind of a node, `Node::Use`. Modelled from the spec: the enumeration
is declared in `notebook/node.h`; the spec distinguishes `Normal` from the
special, internal kinds (recycle bin and the like), numbered here. -/
inductive Use where
  | Normal
  | Special (kind : Nat)
  deriving DecidableEq, Repr

/-- Target formats offered by the dialog (`ExportFormat`). -/
inductive ExportFormat where
  | Markdown
  | HTML
  | PDF
  | Custom
  deriving DecidableEq, Repr

/-- Scope selector of the dialog (`ExportSource`). -/
inductive ExportSource where
  | CurrentBuffer
  | CurrentFolder
  | CurrentNotebook
  deriving DecidableEq, Repr

/-- HTML sub-options (`ExportHtmlOption`), the fields the dialog saves. -/
structure ExportHtmlOption where
  m_embedStyles : Bool
  m_embedImages : Bool
  m_completePage : Bool
  m_useMimeHtmlFormat : Bool
  m_addOutlinePanel : Bool
  deriving DecidableEq, Repr

/-- Export options (`ExportOption`). Modelled from the spec: the struct is
declared in a header outside the sources; the fields are those read by
`exporter.cpp` and written by `ExportDialog::saveFields`. `m_htmlOption` is a
shared pointer in the code; `doExportHtml` asserts it is set before reading
it, so the embedding carries the pointee. -/
structure ExportOption where
  m_source : ExportSource
  m_targetFormat : ExportFormat
  m_outputDir : String
  m_recursive : Bool
  m_exportAttachments : Bool
  m_htmlOption : ExportHtmlOption
  deriving DecidableEq, Repr

/-- What `exportAttachments` reads from the node owning a file:
`Node::getAttachmentFolder` and `Node::fetchAttachmentFolderPath`. -/
structure OwnerNode where
  attachmentFolder : String
  attachmentFolderPath : String
  deriving DecidableEq, Repr

/-- A content file (`File`): `getName`, `getFilePath`,
`getContentType().isMarkdown()`, `getContentType().m_displayName`, `getNode`. -/
structure File where
  name : String
  filePath : String
  isMarkdown : Bool
  displayName : String
  node : OwnerNode
  deriving DecidableEq, Repr

/-- A node of the notebook tree (`Node`): `getName`, `isContainer`, `getUse`,
the content file (`hasContent` holds when there is one) and `getChildren`. -/
inductive Node where
  | mk (name : String) (isContainer : Bool) (use : Use)
      (contentFile : Option File) (children : List Node)

namespace Node

/-- Name of a node, `Node::getName`. -/
def name : Node → String
  | mk n _ _ _ _ => n

/-- Container flag of a node, `Node::isContainer`. -/
def isContainer : Node → Bool
  | mk _ c _ _ _ => c

/-- Usage kind of a node, `Node::getUse`. -/
def use : Node → Use
  | mk _ _ u _ _ => u

/-- Content file of a node, `Node::getContentFile`; `none` when `hasContent` is false. -/
def contentFile : Node → Option File
  | mk _ _ _ f _ => f

/-- Children of a node in their native order, `Node::getChildren`. -/
def children : Node → List Node
  | mk _ _ _ _ cs => cs

end Node

/-- A buffer (`Buffer`): `getName` and `getFile`, which may be null. -/
structure Buffer where
  name : String
  file : Option File

/-- A notebook (`Notebook`): `getName` and `getRootNode`. -/
structure Notebook where
  name : String
  rootNode : Node

/-! ## Observable effects -/

/-- The log lines `exporter.cpp` emits, one constructor per `tr(...)` template. -/
inductive LogMsg where
  | skippedBuffer (bufferName : String)
  | createFolderFailed (folder : String)
  | markdownUnsupported (displayName : String)
  | htmlUnsupported (displayName : String)
  | unknownFormat (format : String)
  | exported (src dest : String)
  | exportFailed (src : String)
  deriving DecidableEq, Repr

/-- The text of a log line, the `tr(...).arg(...)` of the source. -/
def LogMsg.text : LogMsg → String
  | .skippedBuffer b => "Skipped buffer (" ++ b ++ ") without file base."
  | .createFolderFailed d => "Failed to create output folder " ++ d ++ "."
  | .markdownUnsupported t => "Format " ++ t ++ " is not supported to export as Markdown."
  | .htmlUnsupported t => "Format " ++ t ++ " is not supported to export as HTML."
  | .unknownFormat f => "Unknown target format " ++ f ++ "."
  | .exported a b => "File (" ++ a ++ ") exported to (" ++ b ++ ")"
  | .exportFailed a => "Failed to export file (" ++ a ++ ")"

/-- One call from `exporter.cpp` into the filesystem utilities. -/
inductive FsCall where
  | generateFileNameWithSequence (folder baseName suffix : String)
  | mkpath (path : String) (ok : Bool)
  | copyFile (src dest : String) (move : Bool)
  | copyMediaFiles (src dest : String)
  | renameIfExistsCaseInsensitive (path : String)
  | copyAttachment (destFile destFolder : String)
  deriving DecidableEq, Repr

/-- The utilities `exporter.cpp` calls and whose sources are elsewhere, as
functions of a filesystem state `σ`. -/
structure Platform (σ : Type) where
  /-- The function `FileUtils::generateFileNameWithSequence(folder, baseName, suffix)`. -/
  generateFileNameWithSequence : σ → String → String → String → String
  /-- The function `PathUtils::concatenateFilePath(dir, name)`. -/
  concatenateFilePath : String → String → String
  /-- The call `QDir::mkpath(path)`: success flag and the new filesystem. -/
  mkpath : String → σ → Bool × σ
  /-- The call `QDir(dir).filePath(name)`. -/
  filePath : String → String → String
  /-- The function `FileUtils::copyFile(src, dest, move)`. -/
  copyFile : String → String → Bool → σ → σ
  /-- The function `ContentMediaUtils::copyMediaFiles(file, destFilePath)`. -/
  copyMediaFiles : File → String → σ → σ
  /-- The function `PathUtils::parentDirPath(path)`. -/
  parentDirPath : String → String
  /-- The function `PathUtils::relativePath(dir, path)`. -/
  relativePath : String → String → String
  /-- The function `FileUtils::renameIfExistsCaseInsensitive(path)`. -/
  renameIfExistsCaseInsensitive : σ → String → String
  /-- The function `ContentMediaUtils::copyAttachment(node, nullptr, destFilePath, destFolder)`. -/
  copyAttachment : OwnerNode → String → String → σ → σ
  /-- The call `QFileInfo(name).completeBaseName()`. -/
  completeBaseName : String → String
  /-- The function `exportFormatString(format)`. -/
  exportFormatString : ExportFormat → String

/-- Everything a run of the exporter can change or emit. -/
structure ExportState (σ : Type) where
  fs : σ
  log : List LogMsg
  progress : List (Nat × Nat)
  calls : List FsCall

namespace ExportState

variable {σ : Type}

/-- A fresh run on filesystem `fs`: nothing logged, reported or called yet. -/
def init (fs : σ) : ExportState σ :=
  { fs := fs, log := [], progress := [], calls := [] }

/-- The statement `emit logRequested(msg)`. -/
def logRequested (s : ExportState σ) (msg : LogMsg) : ExportState σ :=
  { s with log := s.log ++ [msg] }

/-- The statement `emit progressUpdated(val, maximum)`. -/
def progressUpdated (s : ExportState σ) (val maximum : Nat) : ExportState σ :=
  { s with progress := s.progress ++ [(val, maximum)] }

/-- A utility call that leaves the filesystem as `fs'`. -/
def called (s : ExportState σ) (call : FsCall) (fs' : σ) : ExportState σ :=
  { s with fs := fs', calls := s.calls ++ [call] }

end ExportState

/-! ## `Exporter` -/

namespace Exporter

variable {σ : Type}

/-- The method `Exporter::exportAttachments` (exporter.cpp:71). -/
def exportAttachments (pf : Platform σ) (p_node : OwnerNode)
    (p_srcFilePath p_outputFolder p_destFilePath : String)
    (s : ExportState σ) : ExportState σ :=
  if p_node.attachmentFolder = "" then s
  else
    let relativePath :=
      pf.relativePath (pf.parentDirPath p_srcFilePath) p_node.attachmentFolderPath
    let destAttachmentFolderPath0 := pf.filePath p_outputFolder relativePath
    let destAttachmentFolderPath :=
      pf.renameIfExistsCaseInsensitive s.fs destAttachmentFolderPath0
    let s1 := s.called (.renameIfExistsCaseInsensitive destAttachmentFolderPath0) s.fs
    s1.called (.copyAttachment p_destFilePath destAttachmentFolderPath)
      (pf.copyAttachment p_node p_destFilePath destAttachmentFolderPath s1.fs)

/-- The method `Exporter::doExportMarkdown` (exporter.cpp:38). -/
def doExportMarkdown (pf : Platform σ) (p_option : ExportOption) (p_outputDir : String)
    (p_file : File) (s : ExportState σ) : String × ExportState σ :=
  if p_file.isMarkdown = false then
    ("", s.logRequested (.markdownUnsupported p_file.displayName))
  else
    let name := pf.generateFileNameWithSequence s.fs p_outputDir p_file.name ""
    let s1 := s.called (.generateFileNameWithSequence p_outputDir p_file.name "") s.fs
    let outputFolder := pf.concatenateFilePath p_outputDir name
    let made := pf.mkpath outputFolder s1.fs
    let s2 := s1.called (.mkpath outputFolder made.1) made.2
    if made.1 = false then
      ("", s2.logRequested (.createFolderFailed outputFolder))
    else
      let srcFilePath := p_file.filePath
      let destFilePath := pf.filePath outputFolder p_file.name
      let s3 := s2.called (.copyFile srcFilePath destFilePath false)
        (pf.copyFile srcFilePath destFilePath false s2.fs)
      let s4 := s3.called (.copyMediaFiles srcFilePath destFilePath)
        (pf.copyMediaFiles p_file destFilePath s3.fs)
      let s5 :=
        if p_option.m_exportAttachments = true then
          exportAttachments pf p_file.node srcFilePath outputFolder destFilePath s4
        else s4
      (destFilePath, s5)

/-- The method `Exporter::doExportHtml` (exporter.cpp:189): the destination
name is computed and dropped, `outputFile` is returned as it was declared. -/
def doExportHtml (pf : Platform σ) (p_option : ExportOption) (p_outputDir : String)
    (p_file : File) (s : ExportState σ) : String × ExportState σ :=
  if p_file.isMarkdown = false then
    ("", s.logRequested (.htmlUnsupported p_file.displayName))
  else
    let suffix := if p_option.m_htmlOption.m_useMimeHtmlFormat = true then ".mht" else ".html"
    let baseName := pf.completeBaseName p_file.name
    let fileName := pf.generateFileNameWithSequence s.fs p_outputDir baseName suffix
    let s1 := s.called (.generateFileNameWithSequence p_outputDir baseName suffix) s.fs
    let _destFilePath := pf.concatenateFilePath p_outputDir fileName
    ("", s1)

/-- The switch of exporter.cpp:130-142: the per-format handler, or the
unknown-format log line for the formats without one. -/
def dispatchFormat (pf : Platform σ) (p_option : ExportOption) (p_outputDir : String)
    (p_file : File) (s : ExportState σ) : String × ExportState σ :=
  match p_option.m_targetFormat with
  | .Markdown => doExportMarkdown pf p_option p_outputDir p_file s
  | .HTML => doExportHtml pf p_option p_outputDir p_file s
  | fmt => ("", s.logRequested (.unknownFormat (pf.exportFormatString fmt)))

/-- The overload `Exporter::doExport(option, outputDir, const File *)` (exporter.cpp:126). -/
def doExportFile (pf : Platform σ) (p_option : ExportOption) (p_outputDir : String)
    (p_file : File) (s : ExportState σ) : String × ExportState σ :=
  let r := dispatchFormat pf p_option p_outputDir p_file s
  if r.1 ≠ "" then
    (r.1, r.2.logRequested (.exported p_file.filePath r.1))
  else
    (r.1, r.2.logRequested (.exportFailed p_file.filePath))

/-- The content-file part of a loop iteration (exporter.cpp:110-115 and 173-178):
export the child's file when it has one and append a non-empty result to
`outputFiles`. -/
def exportChildContent (pf : Platform σ) (p_option : ExportOption) (outputFolder : String)
    (child : Node) (outputFiles : List String) (s : ExportState σ) :
    List String × ExportState σ :=
  match child.contentFile with
  | none => (outputFiles, s)
  | some file =>
    let r := doExportFile pf p_option outputFolder file s
    if r.1 ≠ "" then (outputFiles ++ [r.1], r.2) else (outputFiles, r.2)

mutual
/-- The overload `Exporter::doExport(option, outputDir, Node *)` (exporter.cpp:91).
The name is generated with the default, empty suffix. -/
def doExportFolderIn (pf : Platform σ) (p_option : ExportOption) (p_outputDir : String) :
    Node → ExportState σ → List String × ExportState σ
  | .mk name _ _ _ children, s =>
    let genName := pf.generateFileNameWithSequence s.fs p_outputDir name ""
    let s1 := s.called (.generateFileNameWithSequence p_outputDir name "") s.fs
    let outputFolder := pf.concatenateFilePath p_outputDir genName
    let made := pf.mkpath outputFolder s1.fs
    let s2 := s1.called (.mkpath outputFolder made.1) made.2
    if made.1 = false then
      ([], s2.logRequested (.createFolderFailed outputFolder))
    else
      folderLoop pf p_option outputFolder children.length 0 children []
        (s2.progressUpdated 0 children.length)
/-- The loop of exporter.cpp:108-121 from index `i` on, over the children left,
with the `outputFiles` accumulated so far. -/
def folderLoop (pf : Platform σ) (p_option : ExportOption) (outputFolder : String)
    (total : Nat) (i : Nat) :
    List Node → List String → ExportState σ → List String × ExportState σ
  | [], outputFiles, s => (outputFiles, s)
  | child :: rest, outputFiles, s =>
    let r1 := exportChildContent pf p_option outputFolder child outputFiles s
    let r2 :=
      if p_option.m_recursive = true ∧ child.isContainer = true ∧ child.use = Use.Normal then
        let sub := doExportFolderIn pf p_option outputFolder child r1.2
        (r1.1 ++ sub.1, sub.2)
      else r1
    folderLoop pf p_option outputFolder total (i + 1) rest r2.1
      (r2.2.progressUpdated (i + 1) total)
end

/-- The overload `Exporter::doExport(option, Node *)` (exporter.cpp:86). -/
def doExportFolder (pf : Platform σ) (p_option : ExportOption) (p_folder : Node)
    (s : ExportState σ) : List String × ExportState σ :=
  doExportFolderIn pf p_option p_option.m_outputDir p_folder s

/-- The loop of exporter.cpp:171-184 from index `i` on: as `folderLoop`, without
the test of `m_recursive`. -/
def notebookLoop (pf : Platform σ) (p_option : ExportOption) (outputFolder : String)
    (total : Nat) (i : Nat) :
    List Node → List String → ExportState σ → List String × ExportState σ
  | [], outputFiles, s => (outputFiles, s)
  | child :: rest, outputFiles, s =>
    let r1 := exportChildContent pf p_option outputFolder child outputFiles s
    let r2 :=
      if child.isContainer = true ∧ child.use = Use.Normal then
        let sub := doExportFolderIn pf p_option outputFolder child r1.2
        (r1.1 ++ sub.1, sub.2)
      else r1
    notebookLoop pf p_option outputFolder total (i + 1) rest r2.1
      (r2.2.progressUpdated (i + 1) total)

/-- The overload `Exporter::doExport(option, Notebook *)` (exporter.cpp:153). -/
def doExportNotebook (pf : Platform σ) (p_option : ExportOption) (p_notebook : Notebook)
    (s : ExportState σ) : List String × ExportState σ :=
  let baseName := "notebook_" ++ p_notebook.name
  let genName := pf.generateFileNameWithSequence s.fs p_option.m_outputDir baseName ""
  let s1 := s.called (.generateFileNameWithSequence p_option.m_outputDir baseName "") s.fs
  let outputFolder := pf.concatenateFilePath p_option.m_outputDir genName
  let made := pf.mkpath outputFolder s1.fs
  let s2 := s1.called (.mkpath outputFolder made.1) made.2
  if made.1 = false then
    ([], s2.logRequested (.createFolderFailed outputFolder))
  else
    let children := p_notebook.rootNode.children
    notebookLoop pf p_option outputFolder children.length 0 children []
      (s2.progressUpdated 0 children.length)

/-- The overload `Exporter::doExport(option, Buffer *)` (exporter.cpp:20). -/
def doExportBuffer (pf : Platform σ) (p_option : ExportOption) (p_buffer : Buffer)
    (s : ExportState σ) : String × ExportState σ :=
  match p_buffer.file with
  | none => ("", s.logRequested (.skippedBuffer p_buffer.name))
  | some file =>
    let made := pf.mkpath p_option.m_outputDir s.fs
    let s1 := s.called (.mkpath p_option.m_outputDir made.1) made.2
    if made.1 = false then
      ("", s1.logRequested (.createFolderFailed p_option.m_outputDir))
    else
      doExportFile pf p_option p_option.m_outputDir file s1

end Exporter

/-! ## `ExportDialog::doExport` -/

/-- The members of `ExportDialog` that `doExport` reads or writes. The three
sources are pointers handed to the constructor and may be null; `s_option` is
the static option record. -/
structure ExportDialog where
  m_notebook : Option Notebook
  m_folder : Option Node
  m_buffer : Option Buffer
  s_option : ExportOption
  m_exportedFile : String

/-- The method `ExportDialog::doExport` (exportdialog.cpp:395). The switch is on
`s_option.m_source`; each case asserts its source pointer and then uses it, so
a null source gives `none`. The result is the count, the dialog afterwards and
the exporter's effects. -/
def ExportDialog.doExport {σ : Type} (pf : Platform σ) (d : ExportDialog)
    (p_option : ExportOption) (s : ExportState σ) :
    Option (Nat × ExportDialog × ExportState σ) :=
  match d.s_option.m_source with
  | .CurrentBuffer =>
    match d.m_buffer with
    | none => none
    | some buffer =>
      let r := Exporter.doExportBuffer pf p_option buffer s
      let exportedFilesCount := if r.1 = "" then 0 else 1
      let d1 :=
        if exportedFilesCount = 1 ∧ p_option.m_targetFormat = ExportFormat.HTML then
          { d with m_exportedFile := r.1 }
        else d
      some (exportedFilesCount, d1, r.2)
  | .CurrentFolder =>
    match d.m_folder with
    | none => none
    | some folder =>
      let r := Exporter.doExportFolder pf p_option folder s
      some (r.1.length, d, r.2)
  | .CurrentNotebook =>
    match d.m_notebook with
    | none => none
    | some notebook =>
      let r := Exporter.doExportNotebook pf p_option notebook s
      some (r.1.length, d, r.2)

/-! ## A reference platform -/

/-- A filesystem for the reference platform: the paths that exist, and the
paths whose creation is refused. -/
structure Disk where
  entries : List String
  refused : List String
  deriving DecidableEq, Repr

namespace Disk

/-- Whether a path exists on the disk. -/
def has (d : Disk) (path : String) : Bool :=
  d.entries.contains path

/-- The disk with one more path; an existing path stays as it is. -/
def add (d : Disk) (path : String) : Disk :=
  if d.has path then d else { d with entries := d.entries ++ [path] }

/-- Whether a path exists up to letter case. -/
def hasCaseInsensitive (d : Disk) (path : String) : Bool :=
  d.entries.any fun e => e.data.map Char.toLower == path.data.map Char.toLower

end Disk

/-- The characters before the last occurrence of `sep`; all of them when `sep` does not occur. -/
def beforeLast (sep : Char) (cs : List Char) : List Char :=
  if cs.contains sep then ((cs.reverse.dropWhile fun c => c != sep).drop 1).reverse else cs

/-- Whether `cs` begins with `pre`. -/
def beginsWith : List Char → List Char → Bool
  | [], _ => true
  | _ :: _, [] => false
  | p :: ps, c :: cs => p == c && beginsWith ps cs

/-- The first of the names `base_1suffix`, `base_2suffix`, ... up to `fuel` tries
that `used` rejects; `fallback` when all are taken. -/
def firstFreeName (used : String → Bool) (base suffix fallback : String) :
    Nat → Nat → String
  | _, 0 => fallback
  | k, fuel + 1 =>
    let candidate := base ++ "_" ++ toString k ++ suffix
    if used candidate then firstFreeName used base suffix fallback (k + 1) fuel else candidate

/-- Modelled from the spec: the filesystem utilities (`FileUtils`, `PathUtils`,
`QDir`, `ContentMediaUtils`, `exportFormatString`) are not among the sources.
Names: "if no entry with that name exists, use it as-is; otherwise append a
numeric sequence suffix (starting at a small integer, incrementing) until an
unused name is found", case-insensitively for the attachment folder. Paths are
joined with a slash. Directory creation fails exactly on the refused paths.
Copies create their destination. The document model holds no embedded media,
so `copyMediaFiles` has nothing to copy. -/
def specPlatform : Platform Disk where
  generateFileNameWithSequence := fun d folder baseName suffix =>
    let used := fun n => d.has (folder ++ "/" ++ n)
    if used (baseName ++ suffix) then
      firstFreeName used baseName suffix (baseName ++ suffix) 1 (d.entries.length + 1)
    else baseName ++ suffix
  concatenateFilePath := fun dir name => dir ++ "/" ++ name
  mkpath := fun path d => if d.refused.contains path then (false, d) else (true, d.add path)
  filePath := fun dir name => dir ++ "/" ++ name
  copyFile := fun _ dest _ d => d.add dest
  copyMediaFiles := fun _ _ d => d
  parentDirPath := fun path => String.mk (beforeLast '/' path.data)
  relativePath := fun dir path =>
    if beginsWith (dir.data ++ ['/']) path.data then String.mk (path.data.drop (dir.data.length + 1))
    else path
  renameIfExistsCaseInsensitive := fun d path =>
    if d.hasCaseInsensitive path then
      firstFreeName d.hasCaseInsensitive path "" path 1 (d.entries.length + 1)
    else path
  copyAttachment := fun _ _ destFolder d => d.add destFolder
  completeBaseName := fun name => String.mk (beforeLast '.' name.data)
  exportFormatString := fun f =>
    match f with
    | .Markdown => "Markdown"
    | .HTML => "HTML"
    | .PDF => "PDF"
    | .Custom => "Custom"

/-! ## The scenario of the spec: folder Notes with a.md and sub-folder Sub with b.md -/

/-- A Markdown document of the given name stored under `dir`, without attachments. -/
def markdownFile (dir name : String) : File :=
  { name := name, filePath := dir ++ "/" ++ name, isMarkdown := true,
    displayName := "Markdown", node := { attachmentFolder := "", attachmentFolderPath := "" } }

/-- A leaf node holding the Markdown document `name`. -/
def markdownNode (dir name : String) : Node :=
  .mk name false .Normal (some (markdownFile dir name)) []

/-- The folder "Sub" holding "b.md". -/
def subFolder : Node :=
  .mk "Sub" true .Normal none [markdownNode "/nb/Notes/Sub" "b.md"]

/-- The folder "Notes" holding "a.md" and the Normal sub-folder "Sub". -/
def notesFolder : Node :=
  .mk "Notes" true .Normal none [markdownNode "/nb/Notes" "a.md", subFolder]

/-- The options of the scenario, with the recurse flag left open. -/
def markdownOption (recursive : Bool) : ExportOption :=
  { m_source := .CurrentFolder, m_targetFormat := .Markdown, m_outputDir := "/out",
    m_recursive := recursive, m_exportAttachments := false,
    m_htmlOption := { m_embedStyles := false, m_embedImages := false, m_completePage := false,
                      m_useMimeHtmlFormat := false, m_addOutlinePanel := false } }

/-- An empty disk on which every directory can be created. -/
def emptyDisk : Disk :=
  { entries := [], refused := [] }

/-! ## Reference definitions the properties compare the exporter with -/

namespace Exporter

variable {σ : Type}

/-- The loop over the documents directly contained in a folder: for each child,
in order, only its content file (if any) is looked at and exported with
`doExportFile`; then the progress event of that child is emitted. -/
def directLoop (pf : Platform σ) (p_option : ExportOption) (outputFolder : String)
    (total : Nat) (i : Nat) :
    List (Option File) → List String → ExportState σ → List String × ExportState σ
  | [], outputFiles, s => (outputFiles, s)
  | none :: rest, outputFiles, s =>
    directLoop pf p_option outputFolder total (i + 1) rest outputFiles
      (s.progressUpdated (i + 1) total)
  | some file :: rest, outputFiles, s =>
    let r := doExportFile pf p_option outputFolder file s
    directLoop pf p_option outputFolder total (i + 1) rest
      (if r.1 ≠ "" then outputFiles ++ [r.1] else outputFiles)
      (r.2.progressUpdated (i + 1) total)

/-- Export of a folder that produces output only for the directly contained
documents (the spec's recursion gating): it is given the folder's name and the
content files of its children, and nothing of what lies below them. -/
def exportDirectDocuments (pf : Platform σ) (p_option : ExportOption) (p_outputDir : String)
    (folderName : String) (documents : List (Option File)) (s : ExportState σ) :
    List String × ExportState σ :=
  let genName := pf.generateFileNameWithSequence s.fs p_outputDir folderName ""
  let s1 := s.called (.generateFileNameWithSequence p_outputDir folderName "") s.fs
  let outputFolder := pf.concatenateFilePath p_outputDir genName
  let made := pf.mkpath outputFolder s1.fs
  let s2 := s1.called (.mkpath outputFolder made.1) made.2
  if made.1 = false then
    ([], s2.logRequested (.createFolderFailed outputFolder))
  else
    directLoop pf p_option outputFolder documents.length 0 documents []
      (s2.progressUpdated 0 documents.length)

end Exporter

namespace Node

/-- A node with its children removed; name, flags, usage kind and content file stay. -/
def withoutChildren : Node → Node
  | mk n c u f _ => mk n c u f []

/-- Whether a node is a container of Normal usage kind, the test of exporter.cpp:116 and 179. -/
def isNormalContainer (n : Node) : Bool :=
  n.isContainer && decide (n.use = Use.Normal)

end Node

mutual
/-- The tree with everything below a child of non-Normal usage kind removed, at
every level; the child itself, with its content file, stays. -/
def stripSpecial : Node → Node
  | .mk n c u f cs => .mk n c u f (stripSpecialList cs)
/-- The children with the subtrees of the non-Normal ones removed. -/
def stripSpecialList : List Node → List Node
  | [] => []
  | child :: rest =>
    (if child.use = Use.Normal then stripSpecial child else child.withoutChildren)
      :: stripSpecialList rest
end

/-- Whether the recurse flag has nothing to decide in a notebook: no Normal
child container of the root has a Normal container among its own children. -/
def flagFree (root : Node) : Bool :=
  root.children.all fun c =>
    !c.isNormalContainer || c.children.all fun g => !g.isNormalContainer

/-- A notebook three levels deep: root, folder "A", folder "B" in it, "b.md" in that. -/
def deepNotebook : Notebook :=
  { name := "N",
    rootNode := .mk "" true .Normal none
      [.mk "A" true .Normal none
        [.mk "B" true .Normal none [markdownNode "/nb/A/B" "b.md"]]] }

/-- A notebook two levels deep: root, "r.md" and folder "A" holding "a.md". -/
def shallowNotebook : Notebook :=
  { name := "N",
    rootNode := .mk "" true .Normal none
      [markdownNode "/nb" "r.md", .mk "A" true .Normal none [markdownNode "/nb/A" "a.md"]] }

/-- A folder with a recycle-bin-like child that has a document below it. -/
def folderWithBin : Node :=
  .mk "Notes" true .Normal none
    [.mk "bin" true (.Special 1) none [markdownNode "/nb/Notes/bin" "old.md"],
     markdownNode "/nb/Notes" "a.md"]

namespace Exporter

variable {σ : Type}

/-- The output directory `doExport` makes for a folder called `name` under `outDir`. -/
def outputFolderOf (pf : Platform σ) (outDir name : String) (s : ExportState σ) : String :=
  pf.concatenateFilePath outDir (pf.generateFileNameWithSequence s.fs outDir name "")

/-- The state in which the loop over `n` children starts, once the output
directory of the folder called `name` has been made: the name generation and the
successful `mkpath` are recorded and the event `(0, n)` is emitted. -/
def loopStart (pf : Platform σ) (outDir name : String) (n : Nat) (s : ExportState σ) :
    ExportState σ :=
  (((s.called (.generateFileNameWithSequence outDir name "") s.fs).called
      (.mkpath (outputFolderOf pf outDir name s) true)
      (pf.mkpath (outputFolderOf pf outDir name s) s.fs).2).progressUpdated 0 n)

/-- What one child contributes to the result (spec 4.1): the result of
`doExportFile` on its content file if it has one and the result is non-empty,
followed by the result of the recursive folder export if the child is a Normal
container and `recurse` is set. -/
def childContribution (pf : Platform σ) (opt : ExportOption) (outputFolder : String)
    (child : Node) (s : ExportState σ) : List String × ExportState σ :=
  let doc : List String × ExportState σ :=
    match child.contentFile with
    | none => ([], s)
    | some file =>
      let r := doExportFile pf opt outputFolder file s
      (if r.1 = "" then [] else [r.1], r.2)
  let sub : List String × ExportState σ :=
    if opt.m_recursive = true ∧ child.isContainer = true ∧ child.use = Use.Normal then
      doExportFolderIn pf opt outputFolder child doc.2
    else ([], doc.2)
  (doc.1 ++ sub.1, sub.2)

/-- The contributions of the children, one list per child in the native order,
each child followed by its progress event. -/
def contributions (pf : Platform σ) (opt : ExportOption) (outputFolder : String)
    (total : Nat) : Nat → List Node → ExportState σ → List (List String) × ExportState σ
  | _, [], s => ([], s)
  | i, child :: rest, s =>
    let r := childContribution pf opt outputFolder child s
    let rs := contributions pf opt outputFolder total (i + 1) rest
      (r.2.progressUpdated (i + 1) total)
    (r.1 :: rs.1, rs.2)

end Exporter

/-- A folder whose first child cannot be exported (an image) and whose second
child holds a sub-folder that cannot be created; the third child is "a.md". -/
def mixedFolder : Node :=
  .mk "Notes" true .Normal none
    [.mk "pic.png" false .Normal
       (some { name := "pic.png", filePath := "/nb/Notes/pic.png", isMarkdown := false,
               displayName := "Others",
               node := { attachmentFolder := "", attachmentFolderPath := "" } }) [],
     subFolder,
     markdownNode "/nb/Notes" "a.md"]

/-- A disk on which the directory "/out/Notes/Sub" cannot be created. -/
def diskRefusingSub : Disk :=
  { entries := [], refused := ["/out/Notes/Sub"] }

/-- Whether a log line is one of the two result lines that `doExport` on a file
emits after the format dispatch. -/
def LogMsg.isResultLine : LogMsg → Bool
  | .exported _ _ => true
  | .exportFailed _ => true
  | _ => false

/-- Whether the source selected in `s_option.m_source` was handed to the dialog. -/
def ExportDialog.sourcePresent (d : ExportDialog) : Bool :=
  match d.s_option.m_source with
  | .CurrentBuffer => d.m_buffer.isSome
  | .CurrentFolder => d.m_folder.isSome
  | .CurrentNotebook => d.m_notebook.isSome

/-- The options of the scenario with HTML as the target format. -/
def htmlOption : ExportOption :=
  { markdownOption true with m_targetFormat := .HTML }

/-- An image file, whose content type is not Markdown. -/
def imageFile : File :=
  { name := "pic.png", filePath := "/nb/pic.png", isMarkdown := false, displayName := "Others",
    node := { attachmentFolder := "", attachmentFolderPath := "" } }

/-- A dialog opened on the scenario folder, with a file exported earlier on record. -/
def folderDialog : ExportDialog :=
  { m_notebook := none, m_folder := some notesFolder, m_buffer := none,
    s_option := htmlOption, m_exportedFile := "/out/earlier.html" }

/-- A buffer without a file behind it. -/
def scratchBuffer : Buffer :=
  { name := "scratch", file := none }

/-- A buffer showing the Markdown document "a.md". -/
def markdownBuffer : Buffer :=
  { name := "a.md", file := some (markdownFile "/nb" "a.md") }

/-- A disk on which the destination "/out" itself cannot be created. -/
def diskRefusingOut : Disk :=
  { entries := [], refused := ["/out"] }

namespace Exporter

variable {σ : Type}

/-- The state of a successful Markdown export of `file` into `d` once the
primary file and its media are copied, before the attachments are looked at:
name generation, successful `mkpath`, `copyFile` and `copyMediaFiles`, in this
order. -/
def primaryCopied (pf : Platform σ) (d : String) (file : File) (s : ExportState σ) :
    ExportState σ :=
  let outputFolder := outputFolderOf pf d file.name s
  let destFilePath := pf.filePath outputFolder file.name
  let s1 := s.called (.generateFileNameWithSequence d file.name "") s.fs
  let s2 := s1.called (.mkpath outputFolder true) (pf.mkpath outputFolder s.fs).2
  let s3 := s2.called (.copyFile file.filePath destFilePath false)
    (pf.copyFile file.filePath destFilePath false s2.fs)
  s3.called (.copyMediaFiles file.filePath destFilePath)
    (pf.copyMediaFiles file destFilePath s3.fs)

/-- The attachment folder's path relative to the source file's parent directory. -/
def attachmentRel (pf : Platform σ) (file : File) : String :=
  pf.relativePath (pf.parentDirPath file.filePath) file.node.attachmentFolderPath

/-- The destination of the attachments (spec 4.1): `outputSubdir / rel` in its
case-insensitive collision-avoided form on filesystem `fs`. -/
def attachmentTarget (pf : Platform σ) (outputSubdir : String) (file : File) (fs : σ) :
    String :=
  pf.renameIfExistsCaseInsensitive fs (pf.filePath outputSubdir (attachmentRel pf file))

end Exporter

/-- The document "a.md" with the attachment folder "att1" under "/nb/vx_attachments". -/
def fileWithAttachments : File :=
  { name := "a.md", filePath := "/nb/a.md", isMarkdown := true, displayName := "Markdown",
    node := { attachmentFolder := "att1", attachmentFolderPath := "/nb/vx_attachments/att1" } }

/-- The options of the scenario with the export of attachments switched on. -/
def attachmentOption : ExportOption :=
  { markdownOption true with m_exportAttachments := true }

/-- The directory a call adds to those created so far in a sequence: the path
of a successful `mkpath`. -/
def FsCall.creates : FsCall → List String
  | .mkpath p true => [p]
  | _ => []

/-- Whether a call has its place, given the directories `created` by successful
`mkpath` calls earlier in the sequence. Name queries are reads and always have
it. A `mkpath` makes `concatenateFilePath q name` for a created `q`. A file or
media copy has the destination `filePath q name` for a created `q`. An
attachment copy belongs to such a destination file and goes to the renamed form
of `filePath q rel` for the same `q`. -/
def FsCall.placed {σ : Type} (pf : Platform σ) (created : List String) : FsCall → Prop
  | .generateFileNameWithSequence _ _ _ => True
  | .renameIfExistsCaseInsensitive _ => True
  | .mkpath p _ => ∃ q ∈ created, ∃ name, p = pf.concatenateFilePath q name
  | .copyFile _ dest _ => ∃ q ∈ created, ∃ name, dest = pf.filePath q name
  | .copyMediaFiles _ dest => ∃ q ∈ created, ∃ name, dest = pf.filePath q name
  | .copyAttachment destFile destFolder =>
    ∃ q ∈ created, (∃ name, destFile = pf.filePath q name) ∧
      ∃ rel fs, destFolder = pf.renameIfExistsCaseInsensitive fs (pf.filePath q rel)

/-- Parent-before-child order of a sequence of calls that starts with the
directories `created`: every call has its place among the directories created
before it. -/
def ordered {σ : Type} (pf : Platform σ) : List String → List FsCall → Prop
  | _, [] => True
  | created, call :: rest => call.placed pf created ∧ ordered pf (created ++ call.creates) rest

/-- Parent-before-child order of the calls of a whole export: after the name
queries, the first `mkpath` makes the root of the export; when it succeeds, the
rest is ordered below that root, and when it fails, nothing follows. -/
def rootedOrder {σ : Type} (pf : Platform σ) : List FsCall → Prop
  | [] => True
  | .generateFileNameWithSequence _ _ _ :: rest => rootedOrder pf rest
  | .mkpath root true :: rest => ordered pf [root] rest
  | .mkpath _ false :: rest => rest = []
  | _ :: _ => False

/-- The calls made between two states are ordered from the directories `created`. -/
def OrderedFrom {σ : Type} (pf : Platform σ) (created : List String)
    (s s' : ExportState σ) : Prop :=
  ∃ extra, s'.calls = s.calls ++ extra ∧ ordered pf created extra

/-- A folder holding the document with attachments and the sub-folder "Sub". -/
def attachmentFolderTree : Node :=
  .mk "Notes" true .Normal none
    [.mk "a.md" false .Normal (some fileWithAttachments) [], subFolder]

/-- The number a list of decimal digit characters stands for, most significant
digit first. -/
def decimalValue (cs : List Char) : Nat :=
  cs.foldl (fun acc c => acc * 10 + (c.toNat - 48)) 0

/-- A path lies below the directory `root` on the reference platform: it begins
with `root` followed by a slash. -/
def Under (root p : String) : Prop :=
  root.data ++ ['/'] <+: p.data

/-- A relation between filesystems that every step of the platform respects. -/
structure Preserved {σ : Type} (pf : Platform σ) (R : σ → σ → Prop) : Prop where
  refl : ∀ a, R a a
  trans : ∀ a b c, R a b → R b c → R a c
  mkpath : ∀ p fs, R fs (pf.mkpath p fs).2
  copyFile : ∀ a b m fs, R fs (pf.copyFile a b m fs)
  copyMediaFiles : ∀ f b fs, R fs (pf.copyMediaFiles f b fs)
  copyAttachment : ∀ n a b fs, R fs (pf.copyAttachment n a b fs)

/-- Every entry of the first disk is an entry of the second. -/
def keepsEntries (a b : Disk) : Prop :=
  ∀ p, a.has p = true → b.has p = true

namespace Exporter

variable {σ : Type}

/-- The same folder exported twice in sequence with the same options: the
result and state of the first export, and those of the second, which starts in
the state the first one left. -/
def exportFolderTwice (pf : Platform σ) (opt : ExportOption) (folder : Node)
    (s : ExportState σ) :
    (List String × ExportState σ) × (List String × ExportState σ) :=
  let first := doExportFolder pf opt folder s
  (first, doExportFolder pf opt folder first.2)

/-- The same buffer exported twice in sequence with the same options. -/
def exportBufferTwice (pf : Platform σ) (opt : ExportOption) (buffer : Buffer)
    (s : ExportState σ) : (String × ExportState σ) × (String × ExportState σ) :=
  let first := doExportBuffer pf opt buffer s
  (first, doExportBuffer pf opt buffer first.2)

/-- The output directory the Markdown handler makes for `file` when run by the
buffer export from filesystem `fs`: the name is generated after the
destination has been made. -/
def bufferOutputFolder (pf : Platform σ) (opt : ExportOption) (file : File) (fs : σ) : String :=
  pf.concatenateFilePath opt.m_outputDir
    (pf.generateFileNameWithSequence (pf.mkpath opt.m_outputDir fs).2 opt.m_outputDir
      file.name "")

end Exporter

/-- What the export can see of a child of a folder: of a child of non-Normal
usage kind only its content file, of a Normal child the whole node. -/
inductive ChildView where
  | contentOnly (file : Option File)
  | whole (child : Node)

/-- The view of a child, by its usage kind. -/
def Node.view (n : Node) : ChildView :=
  if n.use = Use.Normal then .whole n else .contentOnly n.contentFile

namespace Exporter

variable {σ : Type}

/-- Export of an optional content file into `outputFolder`: nothing without a
file, else `doExportFile`, whose non-empty result is appended to `outputFiles`. -/
def exportContentFile (pf : Platform σ) (opt : ExportOption) (outputFolder : String)
    (file : Option File) (outputFiles : List String) (s : ExportState σ) :
    List String × ExportState σ :=
  match file with
  | none => (outputFiles, s)
  | some f =>
    let r := doExportFile pf opt outputFolder f s
    if r.1 ≠ "" then (outputFiles ++ [r.1], r.2) else (outputFiles, r.2)

/-- The loop over the views of the children (the spec's usage-kind filtering).
For a child seen by its content file only, that file is exported and the
child's progress event emitted: no name is generated, no directory made and
nothing entered for the child. A child seen whole has its content file
exported and, when `descend` is set and it is a container, is exported as a
folder. -/
def viewLoop (pf : Platform σ) (opt : ExportOption) (descend : Bool) (outputFolder : String)
    (total : Nat) (i : Nat) :
    List ChildView → List String → ExportState σ → List String × ExportState σ
  | [], outputFiles, s => (outputFiles, s)
  | .contentOnly file :: rest, outputFiles, s =>
    let r1 := exportContentFile pf opt outputFolder file outputFiles s
    viewLoop pf opt descend outputFolder total (i + 1) rest r1.1
      (r1.2.progressUpdated (i + 1) total)
  | .whole child :: rest, outputFiles, s =>
    let r1 := exportContentFile pf opt outputFolder child.contentFile outputFiles s
    let r2 :=
      if descend = true ∧ child.isContainer = true then
        let sub := doExportFolderIn pf opt outputFolder child r1.2
        (r1.1 ++ sub.1, sub.2)
      else r1
    viewLoop pf opt descend outputFolder total (i + 1) rest r2.1
      (r2.2.progressUpdated (i + 1) total)

/-- Export of a container given by its name and the views of its children, into
a freshly named directory under `outDir`. -/
def exportViews (pf : Platform σ) (opt : ExportOption) (descend : Bool) (outDir name : String)
    (views : List ChildView) (s : ExportState σ) : List String × ExportState σ :=
  let genName := pf.generateFileNameWithSequence s.fs outDir name ""
  let s1 := s.called (.generateFileNameWithSequence outDir name "") s.fs
  let outputFolder := pf.concatenateFilePath outDir genName
  let made := pf.mkpath outputFolder s1.fs
  let s2 := s1.called (.mkpath outputFolder made.1) made.2
  if made.1 = false then
    ([], s2.logRequested (.createFolderFailed outputFolder))
  else
    viewLoop pf opt descend outputFolder views.length 0 views []
      (s2.progressUpdated 0 views.length)

end Exporter

/-- A folder whose first child is a recycle-bin-like container that has a
content file of its own, "bin.md", and a document below it; the second child is
"a.md". -/
def folderWithNotedBin : Node :=
  .mk "Notes" true .Normal none
    [.mk "bin" true (.Special 1) (some (markdownFile "/nb/Notes" "bin.md"))
       [markdownNode "/nb/Notes/bin" "old.md"],
     markdownNode "/nb/Notes" "a.md"]

namespace Node

/-- A node turned into a leaf: no container flag and no children; name, usage
kind and content file stay. -/
def asLeaf : Node → Node
  | mk n _ u f _ => mk n false u f []

/-- A node whose children are turned into leaves: the tree cut below the
node's children. -/
def leafBelow : Node → Node
  | mk n c u f cs => mk n c u f (cs.map asLeaf)

end Node

namespace Exporter

variable {σ : Type}

/-- The events of a loop over children from index `i` on, given for each child
the events of the recursive call made for it: these, then the loop's own event
for the child, child after child. -/
def interleave (total : Nat) : Nat → List (List (Nat × Nat)) → List (Nat × Nat)
  | _, [] => []
  | i, nested :: rest => nested ++ (i + 1, total) :: interleave total (i + 1) rest

/-- For each child, in order, the progress events emitted by the recursive
folder export made for it (none when the child is not entered), the state
being carried from child to child the way the loop does, its own event for
each child included. -/
def nestedEvents (pf : Platform σ) (opt : ExportOption) (outputFolder : String)
    (total : Nat) :
    Nat → List Node → ExportState σ → List (List (Nat × Nat)) × ExportState σ
  | _, [], s => ([], s)
  | i, child :: rest, s =>
    let s1 := (exportChildContent pf opt outputFolder child [] s).2
    let sub : List (Nat × Nat) × ExportState σ :=
      if opt.m_recursive = true ∧ child.isContainer = true ∧ child.use = Use.Normal then
        let r := doExportFolderIn pf opt outputFolder child s1
        (r.2.progress.drop s1.progress.length, r.2)
      else ([], s1)
    let rs := nestedEvents pf opt outputFolder total (i + 1) rest
      (sub.2.progressUpdated (i + 1) total)
    (sub.1 :: rs.1, rs.2)

end Exporter

/-- The path a call creates or copies to: the directory of a successful
`mkpath`, the destination of a file or media copy, the destination folder of an
attachment copy. Name queries and failed creations produce nothing. -/
def FsCall.produces : FsCall → Option String
  | .mkpath p true => some p
  | .copyFile _ dest _ => some dest
  | .copyMediaFiles _ dest => some dest
  | .copyAttachment _ destFolder => some destFolder
  | _ => none

/-- The path a call copies to, for the three copying calls. -/
def FsCall.copiesTo : FsCall → Option String
  | .copyFile _ dest _ => some dest
  | .copyMediaFiles _ dest => some dest
  | .copyAttachment _ destFolder => some destFolder
  | _ => none

/-- A path is the directory `root` or lies below it. -/
def Within (root p : String) : Prop :=
  p = root ∨ Under root p

/-- The calls made between two states of one run. -/
def newCalls {σ : Type} (before after : ExportState σ) : List FsCall :=
  after.calls.drop before.calls.length

/-- The document of the scenario exported with its attachments from a buffer. -/
def attachmentBuffer : Buffer :=
  { name := "a.md", file := some fileWithAttachments }

/-! ## Properties -/

namespace Exporter

variable {σ : Type}

/-- Induction over a node tree: a property holds of every node as soon as it
holds of a node whenever it holds of all its children. -/
theorem node_induct {P : Node → Prop}
    (step : ∀ n c u f cs, (∀ x ∈ cs, P x) → P (Node.mk n c u f cs)) : ∀ n, P n :=
  @Node.rec P (fun cs => ∀ x ∈ cs, P x)
    (fun n c u f cs ih => step n c u f cs ih)
    (fun x hx => by cases hx)
    (fun hd tl ihd itl x hx => by
      rcases List.mem_cons.mp hx with h | h
      · exact h ▸ ihd
      · exact itl x h)

/-- With `m_recursive` off, the folder loop is the loop over the direct documents. -/
theorem folderLoop_eq_directLoop (pf : Platform σ) (opt : ExportOption)
    (h : opt.m_recursive = false) (outputFolder : String) (total : Nat) :
    ∀ (cs : List Node) (i : Nat) (acc : List String) (s : ExportState σ),
      folderLoop pf opt outputFolder total i cs acc s
        = directLoop pf opt outputFolder total i (cs.map Node.contentFile) acc s := by
  intro cs
  induction cs with
  | nil => intro i acc s; simp [folderLoop, directLoop]
  | cons child rest ih =>
    intro i acc s
    rw [folderLoop]
    simp only [h, Bool.false_eq_true, false_and, if_false, List.map_cons]
    rw [ih]
    cases hc : child.contentFile with
    | none => simp [exportChildContent, hc, directLoop]
    | some file =>
      simp only [exportChildContent, hc, directLoop]
      split <;> simp_all

/-- C1 (recursion gating). With `recurse = false`, exporting a folder is, in its
result and in every effect (filesystem, calls, log, progress events), the export
of its directly contained documents: a function of the folder's name and of its
children's content files alone, so no sub-folder is entered and no directory is
made for one. -/
theorem recursion_gating (pf : Platform σ) (opt : ExportOption) (outDir : String)
    (folder : Node) (s : ExportState σ) (h : opt.m_recursive = false) :
    doExportFolderIn pf opt outDir folder s
      = exportDirectDocuments pf opt outDir folder.name
          (folder.children.map Node.contentFile) s := by
  cases folder with
  | mk name c u f children =>
    rw [doExportFolderIn]
    simp only [exportDirectDocuments, Node.name, Node.children, List.length_map]
    split
    · rfl
    · exact folderLoop_eq_directLoop pf opt h _ _ _ _ _ _

/-- Witness of C1: the scenario folder exported without recursion. -/
theorem recursion_gating_witness :
    (markdownOption false).m_recursive = false ∧
    doExportFolderIn specPlatform (markdownOption false) "/out" notesFolder
        (ExportState.init emptyDisk)
      = exportDirectDocuments specPlatform (markdownOption false) "/out" notesFolder.name
          (notesFolder.children.map Node.contentFile) (ExportState.init emptyDisk) :=
  ⟨rfl, recursion_gating specPlatform (markdownOption false) "/out" notesFolder
    (ExportState.init emptyDisk) rfl⟩

/-! ### Usage-kind filtering -/

theorem stripSpecialList_length : ∀ cs : List Node, (stripSpecialList cs).length = cs.length
  | [] => by simp [stripSpecialList]
  | c :: rest => by simp [stripSpecialList, stripSpecialList_length rest]

theorem stripSpecial_contentFile (n : Node) : (stripSpecial n).contentFile = n.contentFile := by
  cases n; simp [stripSpecial, Node.contentFile]

theorem stripSpecial_isContainer (n : Node) : (stripSpecial n).isContainer = n.isContainer := by
  cases n; simp [stripSpecial, Node.isContainer]

theorem stripSpecial_use (n : Node) : (stripSpecial n).use = n.use := by
  cases n; simp [stripSpecial, Node.use]

theorem withoutChildren_contentFile (n : Node) :
    n.withoutChildren.contentFile = n.contentFile := by
  cases n; simp [Node.withoutChildren, Node.contentFile]

theorem withoutChildren_use (n : Node) : n.withoutChildren.use = n.use := by
  cases n; simp [Node.withoutChildren, Node.use]

/-- The content-file step reads nothing of a child but its content file. -/
theorem exportChildContent_congr (pf : Platform σ) (opt : ExportOption) (outputFolder : String)
    (a b : Node) (h : a.contentFile = b.contentFile) (acc : List String) (s : ExportState σ) :
    exportChildContent pf opt outputFolder a acc s
      = exportChildContent pf opt outputFolder b acc s := by
  simp [exportChildContent, h]

/-- The folder loop does not see below non-Normal children, given that the
folder export of each child does not. -/
theorem folderLoop_strip (pf : Platform σ) (opt : ExportOption) (outputFolder : String)
    (total : Nat) :
    ∀ (cs : List Node),
      (∀ x ∈ cs, ∀ (d : String) (s : ExportState σ),
        doExportFolderIn pf opt d (stripSpecial x) s = doExportFolderIn pf opt d x s) →
      ∀ (i : Nat) (acc : List String) (s : ExportState σ),
        folderLoop pf opt outputFolder total i (stripSpecialList cs) acc s
          = folderLoop pf opt outputFolder total i cs acc s := by
  intro cs
  induction cs with
  | nil => intro _ i acc s; simp [stripSpecialList]
  | cons child rest ih =>
    intro hcs i acc s
    have hrest := ih (fun x hx => hcs x (List.mem_cons_of_mem _ hx))
    have hchild := hcs child (List.mem_cons_self _ _)
    rw [stripSpecialList, folderLoop, folderLoop, hrest]
    by_cases hu : child.use = Use.Normal
    · simp only [hu, if_true, stripSpecial_isContainer, stripSpecial_use, hchild,
        exportChildContent_congr pf opt outputFolder (stripSpecial child) child
          (stripSpecial_contentFile child)]
    · simp only [hu, if_false, and_false, withoutChildren_use,
        exportChildContent_congr pf opt outputFolder child.withoutChildren child
          (withoutChildren_contentFile child)]

/-- The folder export does not see below non-Normal children. -/
theorem doExportFolderIn_strip (pf : Platform σ) (opt : ExportOption) :
    ∀ (n : Node) (d : String) (s : ExportState σ),
      doExportFolderIn pf opt d (stripSpecial n) s = doExportFolderIn pf opt d n s := by
  intro n
  induction n using node_induct with
  | step n c u f cs ih =>
    intro d s
    rw [stripSpecial, doExportFolderIn, doExportFolderIn, stripSpecialList_length,
      folderLoop_strip pf opt _ _ cs ih]

/-- The notebook loop does not see below non-Normal children. -/
theorem notebookLoop_strip (pf : Platform σ) (opt : ExportOption) (outputFolder : String)
    (total : Nat) :
    ∀ (cs : List Node) (i : Nat) (acc : List String) (s : ExportState σ),
      notebookLoop pf opt outputFolder total i (stripSpecialList cs) acc s
        = notebookLoop pf opt outputFolder total i cs acc s := by
  intro cs
  induction cs with
  | nil => intro i acc s; simp [stripSpecialList]
  | cons child rest ih =>
    intro i acc s
    rw [stripSpecialList, notebookLoop, notebookLoop, ih]
    by_cases hu : child.use = Use.Normal
    · simp only [hu, if_true, stripSpecial_isContainer, stripSpecial_use,
        doExportFolderIn_strip pf opt child,
        exportChildContent_congr pf opt outputFolder (stripSpecial child) child
          (stripSpecial_contentFile child)]
    · simp only [hu, if_false, and_false, withoutChildren_use,
        exportChildContent_congr pf opt outputFolder child.withoutChildren child
          (withoutChildren_contentFile child)]

/-- The content-file step is the export of the child's content file. -/
theorem exportChildContent_eq (pf : Platform σ) (opt : ExportOption) (outputFolder : String)
    (child : Node) (acc : List String) (s : ExportState σ) :
    exportChildContent pf opt outputFolder child acc s
      = exportContentFile pf opt outputFolder child.contentFile acc s := by
  unfold exportChildContent exportContentFile
  cases child.contentFile <;> rfl

/-- The folder loop is the loop over the views of the children. -/
theorem folderLoop_eq_viewLoop (pf : Platform σ) (opt : ExportOption) (outputFolder : String)
    (total : Nat) :
    ∀ (cs : List Node) (i : Nat) (acc : List String) (s : ExportState σ),
      folderLoop pf opt outputFolder total i cs acc s
        = viewLoop pf opt opt.m_recursive outputFolder total i (cs.map Node.view) acc s := by
  intro cs
  induction cs with
  | nil => intro i acc s; simp [folderLoop, viewLoop]
  | cons child rest ih =>
    intro i acc s
    rw [folderLoop, List.map_cons, ih]
    by_cases hu : child.use = Use.Normal
    · simp only [Node.view, hu, if_true, viewLoop, exportChildContent_eq, and_true]
    · simp only [Node.view, hu, if_false, viewLoop, exportChildContent_eq, and_false]

/-- The notebook loop is the loop over the views of the children that always descends. -/
theorem notebookLoop_eq_viewLoop (pf : Platform σ) (opt : ExportOption) (outputFolder : String)
    (total : Nat) :
    ∀ (cs : List Node) (i : Nat) (acc : List String) (s : ExportState σ),
      notebookLoop pf opt outputFolder total i cs acc s
        = viewLoop pf opt true outputFolder total i (cs.map Node.view) acc s := by
  intro cs
  induction cs with
  | nil => intro i acc s; simp [notebookLoop, viewLoop]
  | cons child rest ih =>
    intro i acc s
    rw [notebookLoop, List.map_cons, ih]
    by_cases hu : child.use = Use.Normal
    · simp only [Node.view, hu, if_true, viewLoop, exportChildContent_eq, and_true, true_and]
    · simp only [Node.view, hu, if_false, viewLoop, exportChildContent_eq, and_false]

/-- C2 (usage-kind filtering). For every platform, options value (whatever the
recurse flag), destination, tree and starting state, `doExport` on a folder and
on a notebook is, in result and in every effect (filesystem, calls, log,
progress events), the export of the views of the children: of a child of
non-Normal usage kind only the content file is seen, which is exported if there
is one, and for such a child no name is generated, no directory is made and no
folder export is entered. Moreover removing everything below the children of
non-Normal usage kind, at every level, changes neither result nor effects. -/
theorem usage_kind_filtering (pf : Platform σ) (opt : ExportOption) (s : ExportState σ) :
    (∀ (outDir : String) (folder : Node),
      doExportFolderIn pf opt outDir folder s
        = exportViews pf opt opt.m_recursive outDir folder.name
            (folder.children.map Node.view) s) ∧
    (∀ (nb : Notebook),
      doExportNotebook pf opt nb s
        = exportViews pf opt true opt.m_outputDir ("notebook_" ++ nb.name)
            (nb.rootNode.children.map Node.view) s) ∧
    (∀ (outDir : String) (folder : Node),
      doExportFolderIn pf opt outDir (stripSpecial folder) s
        = doExportFolderIn pf opt outDir folder s) ∧
    (∀ (name : String) (root : Node),
      doExportNotebook pf opt { name := name, rootNode := stripSpecial root } s
        = doExportNotebook pf opt { name := name, rootNode := root } s) := by
  refine ⟨?_, ?_, fun outDir folder => doExportFolderIn_strip pf opt folder outDir s, ?_⟩
  · intro outDir folder
    cases folder with
    | mk n c u f cs =>
      rw [doExportFolderIn]
      simp only [exportViews, Node.name, Node.children, List.length_map,
        folderLoop_eq_viewLoop]
  · intro nb
    simp only [doExportNotebook, exportViews, List.length_map, notebookLoop_eq_viewLoop]
  · intro name root
    cases root with
    | mk n c u f cs =>
      simp only [doExportNotebook, stripSpecial, Node.children, stripSpecialList_length,
        notebookLoop_strip]

/-- Witness of C2: a recycle-bin-like container child with a content file of
its own and a document below it, exported with recurse on. The child's own
"bin.md" is exported, "old.md" below it is not, and no directory is made for
"bin" itself. -/
theorem usage_kind_filtering_witness :
    doExportFolderIn specPlatform (markdownOption true) "/out" folderWithNotedBin
        (ExportState.init emptyDisk)
      = exportViews specPlatform (markdownOption true) true "/out" "Notes"
          [ChildView.contentOnly (some (markdownFile "/nb/Notes" "bin.md")),
           ChildView.whole (markdownNode "/nb/Notes" "a.md")] (ExportState.init emptyDisk) ∧
    (doExportFolderIn specPlatform (markdownOption true) "/out" folderWithNotedBin
        (ExportState.init emptyDisk)).1
      = ["/out/Notes/bin.md/bin.md", "/out/Notes/a.md/a.md"] ∧
    (doExportFolderIn specPlatform (markdownOption true) "/out" folderWithNotedBin
        (ExportState.init emptyDisk)).2.calls
      = [FsCall.generateFileNameWithSequence "/out" "Notes" "",
         FsCall.mkpath "/out/Notes" true,
         FsCall.generateFileNameWithSequence "/out/Notes" "bin.md" "",
         FsCall.mkpath "/out/Notes/bin.md" true,
         FsCall.copyFile "/nb/Notes/bin.md" "/out/Notes/bin.md/bin.md" false,
         FsCall.copyMediaFiles "/nb/Notes/bin.md" "/out/Notes/bin.md/bin.md",
         FsCall.generateFileNameWithSequence "/out/Notes" "a.md" "",
         FsCall.mkpath "/out/Notes/a.md" true,
         FsCall.copyFile "/nb/Notes/a.md" "/out/Notes/a.md/a.md" false,
         FsCall.copyMediaFiles "/nb/Notes/a.md" "/out/Notes/a.md/a.md"] :=
  ⟨(usage_kind_filtering specPlatform (markdownOption true) (ExportState.init emptyDisk)).1
      "/out" folderWithNotedBin,
   by decide, by decide⟩

/-! ### The notebook export and the recurse flag -/

/-- The Markdown handler does not read the recurse flag. -/
theorem doExportMarkdown_flag (pf : Platform σ) (opt : ExportOption) (b : Bool) (d : String)
    (file : File) (s : ExportState σ) :
    doExportMarkdown pf { opt with m_recursive := b } d file s
      = doExportMarkdown pf opt d file s := by
  simp [doExportMarkdown]

/-- The HTML handler does not read the recurse flag. -/
theorem doExportHtml_flag (pf : Platform σ) (opt : ExportOption) (b : Bool) (d : String)
    (file : File) (s : ExportState σ) :
    doExportHtml pf { opt with m_recursive := b } d file s = doExportHtml pf opt d file s := by
  simp [doExportHtml]

/-- The file export does not read the recurse flag. -/
theorem doExportFile_flag (pf : Platform σ) (opt : ExportOption) (b : Bool) (d : String)
    (file : File) (s : ExportState σ) :
    doExportFile pf { opt with m_recursive := b } d file s = doExportFile pf opt d file s := by
  have hd : dispatchFormat pf { opt with m_recursive := b } d file s
      = dispatchFormat pf opt d file s := by
    cases opt with
    | mk src fmt dir r a h =>
      cases fmt <;> simp [dispatchFormat, doExportMarkdown, doExportHtml]
  simp [doExportFile, hd]

/-- The content-file step does not read the recurse flag. -/
theorem exportChildContent_flag (pf : Platform σ) (opt : ExportOption) (b : Bool) (d : String)
    (child : Node) (acc : List String) (s : ExportState σ) :
    exportChildContent pf { opt with m_recursive := b } d child acc s
      = exportChildContent pf opt d child acc s := by
  simp [exportChildContent, doExportFile_flag]

theorem not_normalContainer {x : Node} (h : x.isNormalContainer = false) :
    ¬ (x.isContainer = true ∧ x.use = Use.Normal) := by
  intro hx
  simp [Node.isNormalContainer, hx.1, hx.2] at h

/-- Over children none of which is a Normal container, the folder loop is the
same for every value of the recurse flag. -/
theorem folderLoop_flag (pf : Platform σ) (opt : ExportOption) (b : Bool)
    (outputFolder : String) (total : Nat) :
    ∀ (cs : List Node), (∀ x ∈ cs, x.isNormalContainer = false) →
      ∀ (i : Nat) (acc : List String) (s : ExportState σ),
        folderLoop pf { opt with m_recursive := b } outputFolder total i cs acc s
          = folderLoop pf opt outputFolder total i cs acc s := by
  intro cs
  induction cs with
  | nil => intro _ i acc s; simp [folderLoop]
  | cons child rest ih =>
    intro hcs i acc s
    have hrest := ih (fun x hx => hcs x (List.mem_cons_of_mem _ hx))
    have hchild := not_normalContainer (hcs child (List.mem_cons_self _ _))
    have hc1 : ¬ (b = true ∧ child.isContainer = true ∧ child.use = Use.Normal) :=
      fun h => hchild h.2
    have hc2 : ¬ (opt.m_recursive = true ∧ child.isContainer = true ∧ child.use = Use.Normal) :=
      fun h => hchild h.2
    rw [folderLoop, folderLoop, hrest]
    simp only [hc1, hc2, if_false, exportChildContent_flag]

/-- On a folder none of whose children is a Normal container, the folder export
is the same for every value of the recurse flag. -/
theorem doExportFolderIn_flag (pf : Platform σ) (opt : ExportOption) (b : Bool) (d : String)
    (x : Node) (hx : x.children.all (fun g => !g.isNormalContainer) = true)
    (s : ExportState σ) :
    doExportFolderIn pf { opt with m_recursive := b } d x s = doExportFolderIn pf opt d x s := by
  cases x with
  | mk n c u f cs =>
    have hcs : ∀ g ∈ cs, g.isNormalContainer = false := by
      intro g hg
      have := List.all_eq_true.mp hx g hg
      simpa using this
    rw [doExportFolderIn, doExportFolderIn, folderLoop_flag pf opt b _ _ cs hcs]

/-- In a notebook where the flag has nothing to decide, the notebook loop is the
same for every value of the recurse flag. -/
theorem notebookLoop_flag (pf : Platform σ) (opt : ExportOption) (b : Bool)
    (outputFolder : String) (total : Nat) :
    ∀ (cs : List Node),
      (∀ c ∈ cs, c.isNormalContainer = false ∨
        c.children.all (fun g => !g.isNormalContainer) = true) →
      ∀ (i : Nat) (acc : List String) (s : ExportState σ),
        notebookLoop pf { opt with m_recursive := b } outputFolder total i cs acc s
          = notebookLoop pf opt outputFolder total i cs acc s := by
  intro cs
  induction cs with
  | nil => intro _ i acc s; simp [notebookLoop]
  | cons child rest ih =>
    intro hcs i acc s
    have hrest := ih (fun x hx => hcs x (List.mem_cons_of_mem _ hx))
    rw [notebookLoop, notebookLoop, hrest]
    rcases hcs child (List.mem_cons_self _ _) with hn | hg
    · simp only [not_normalContainer hn, if_false, exportChildContent_flag]
    · simp only [exportChildContent_flag, doExportFolderIn_flag pf opt b _ child hg]

/-- With the recurse flag on, the notebook loop is the folder loop. -/
theorem notebookLoop_eq_folderLoop (pf : Platform σ) (opt : ExportOption)
    (h : opt.m_recursive = true) (outputFolder : String) (total : Nat) :
    ∀ (cs : List Node) (i : Nat) (acc : List String) (s : ExportState σ),
      notebookLoop pf opt outputFolder total i cs acc s
        = folderLoop pf opt outputFolder total i cs acc s := by
  intro cs
  induction cs with
  | nil => intro i acc s; simp [notebookLoop, folderLoop]
  | cons child rest ih =>
    intro i acc s
    rw [notebookLoop, folderLoop, ih]
    simp only [h, true_and]

/-- With the recurse flag on, the notebook export is the folder export of the
root container under the name `notebook_<name>`. -/
theorem doExportNotebook_eq_folder (pf : Platform σ) (opt : ExportOption)
    (h : opt.m_recursive = true) (nb : Notebook) (c : Bool) (u : Use) (f : Option File)
    (s : ExportState σ) :
    doExportNotebook pf opt nb s
      = doExportFolderIn pf opt opt.m_outputDir
          (Node.mk ("notebook_" ++ nb.name) c u f nb.rootNode.children) s := by
  rw [doExportFolderIn]
  simp only [doExportNotebook, notebookLoop_eq_folderLoop pf opt h]

/-- Counterexample to C3 as stated: on the three-level notebook, exported to an
empty disk, the recurse flag changes the list `doExport` returns. -/
theorem notebook_flag_counterexample :
    (doExportNotebook specPlatform (markdownOption true) deepNotebook
        (ExportState.init emptyDisk)).1 = ["/out/notebook_N/A/B/b.md/b.md"] ∧
    (doExportNotebook specPlatform (markdownOption false) deepNotebook
        (ExportState.init emptyDisk)).1 = [] := by
  decide

/-- When the flag is on, or the flag has nothing to decide, the notebook export
is the folder export with `recurse = true` of the root container. -/
theorem doExportNotebook_flagFree (pf : Platform σ) (opt : ExportOption) (b : Bool)
    (nb : Notebook) (c : Bool) (u : Use) (f : Option File) (s : ExportState σ)
    (h : b = true ∨ flagFree nb.rootNode = true) :
    doExportNotebook pf { opt with m_recursive := b } nb s
      = doExportFolderIn pf { opt with m_recursive := true } opt.m_outputDir
          (Node.mk ("notebook_" ++ nb.name) c u f nb.rootNode.children) s := by
  have key : doExportNotebook pf { opt with m_recursive := b } nb s
      = doExportNotebook pf { opt with m_recursive := true } nb s := by
    rcases h with hb | hfree
    · rw [hb]
    · have hcs : ∀ x ∈ nb.rootNode.children, x.isNormalContainer = false ∨
          x.children.all (fun g => !g.isNormalContainer) = true := by
        intro x hx
        have := List.all_eq_true.mp hfree x hx
        simpa using this
      have e1 := fun (o : ExportOption) (bb : Bool) (d : String) (i : Nat)
          (acc : List String) (st : ExportState σ) =>
        notebookLoop_flag pf o bb d nb.rootNode.children.length nb.rootNode.children hcs i acc st
      simp only [doExportNotebook]
      rw [e1 opt b, e1 opt true]
  rw [key]
  exact doExportNotebook_eq_folder pf { opt with m_recursive := true } rfl nb c u f s

theorem asLeaf_contentFile (n : Node) : n.asLeaf.contentFile = n.contentFile := by
  cases n; rfl

theorem asLeaf_isContainer (n : Node) : n.asLeaf.isContainer = false := by
  cases n; rfl

theorem leafBelow_contentFile (n : Node) : n.leafBelow.contentFile = n.contentFile := by
  cases n; rfl

theorem leafBelow_isContainer (n : Node) : n.leafBelow.isContainer = n.isContainer := by
  cases n; rfl

theorem leafBelow_use (n : Node) : n.leafBelow.use = n.use := by
  cases n; rfl

/-- With the flag off, the folder loop treats every child as a leaf. -/
theorem folderLoop_asLeaf (pf : Platform σ) (opt : ExportOption) (outputFolder : String)
    (total : Nat) :
    ∀ (cs : List Node) (i : Nat) (acc : List String) (s : ExportState σ),
      folderLoop pf { opt with m_recursive := false } outputFolder total i cs acc s
        = folderLoop pf { opt with m_recursive := true } outputFolder total i
            (cs.map Node.asLeaf) acc s := by
  intro cs
  induction cs with
  | nil => intro i acc s; simp [folderLoop]
  | cons child rest ih =>
    intro i acc s
    rw [List.map_cons, folderLoop, folderLoop, ih]
    simp only [Bool.false_eq_true, false_and, if_false, asLeaf_isContainer, and_false,
      exportChildContent_flag,
      exportChildContent_congr pf opt outputFolder child.asLeaf child (asLeaf_contentFile child)]

/-- With the flag off, the folder export is the folder export with the flag on
of the folder cut below its children. -/
theorem doExportFolderIn_leafBelow (pf : Platform σ) (opt : ExportOption) (d : String)
    (x : Node) (s : ExportState σ) :
    doExportFolderIn pf { opt with m_recursive := false } d x s
      = doExportFolderIn pf { opt with m_recursive := true } d x.leafBelow s := by
  cases x with
  | mk n c u f cs =>
    rw [Node.leafBelow, doExportFolderIn, doExportFolderIn, List.length_map,
      folderLoop_asLeaf pf opt]

/-- With the flag off, the notebook loop is the folder loop with the flag on
over the children cut below their own children. -/
theorem notebookLoop_leafBelow (pf : Platform σ) (opt : ExportOption) (outputFolder : String)
    (total : Nat) :
    ∀ (cs : List Node) (i : Nat) (acc : List String) (s : ExportState σ),
      notebookLoop pf { opt with m_recursive := false } outputFolder total i cs acc s
        = folderLoop pf { opt with m_recursive := true } outputFolder total i
            (cs.map Node.leafBelow) acc s := by
  intro cs
  induction cs with
  | nil => intro i acc s; simp [notebookLoop, folderLoop]
  | cons child rest ih =>
    intro i acc s
    rw [List.map_cons, notebookLoop, folderLoop, ih]
    simp only [true_and, leafBelow_isContainer, leafBelow_use, exportChildContent_flag,
      doExportFolderIn_leafBelow pf opt outputFolder child,
      exportChildContent_congr pf opt outputFolder child.leafBelow child
        (leafBelow_contentFile child)]

/-- C3, amended. The notebook export ignores the recurse flag at the root level
only. For every platform, options value, notebook and state: with the flag on,
`doExport` on the notebook gives, in result and effects, what the folder export
with `recurse = true` gives on the root container named `notebook_<name>`; with
the flag off it gives what that folder export gives on the root container whose
children are cut below their own children, so it still enters every Normal
child container of the root and exports the documents directly in it, and goes
no deeper. Hence, when the flag is on or no Normal child container of the root
has a Normal container among its own children, the result is that of the folder
export with `recurse = true` on the uncut root, and two options values that
differ only in the flag give the same list. -/
theorem notebook_recursion (pf : Platform σ) (opt : ExportOption) (b : Bool) (nb : Notebook)
    (c : Bool) (u : Use) (f : Option File) (s : ExportState σ) :
    doExportNotebook pf { opt with m_recursive := b } nb s
      = doExportFolderIn pf { opt with m_recursive := true } opt.m_outputDir
          (Node.mk ("notebook_" ++ nb.name) c u f
            (if b = true then nb.rootNode.children
             else nb.rootNode.children.map Node.leafBelow)) s ∧
    ((b = true ∨ flagFree nb.rootNode = true) →
      doExportNotebook pf { opt with m_recursive := b } nb s
        = doExportFolderIn pf { opt with m_recursive := true } opt.m_outputDir
            (Node.mk ("notebook_" ++ nb.name) c u f nb.rootNode.children) s) := by
  refine ⟨?_, doExportNotebook_flagFree pf opt b nb c u f s⟩
  cases b with
  | true =>
    simp only [if_true]
    exact doExportNotebook_eq_folder pf { opt with m_recursive := true } rfl nb c u f s
  | false =>
    rw [doExportFolderIn]
    simp only [doExportNotebook, Bool.false_eq_true, if_false, List.length_map,
      notebookLoop_leafBelow pf opt]

/-- Witness of the amended C3: the two-level notebook with the flag off, where
the flag has nothing to decide, and the three-level notebook with the flag off,
where folder "A" is still entered and folder "B" in it is not. -/
theorem notebook_recursion_witness :
    (false = true ∨ flagFree shallowNotebook.rootNode = true) ∧
    doExportNotebook specPlatform { markdownOption true with m_recursive := false }
        shallowNotebook (ExportState.init emptyDisk)
      = doExportFolderIn specPlatform { markdownOption true with m_recursive := true } "/out"
          (Node.mk ("notebook_" ++ shallowNotebook.name) true Use.Normal none
            shallowNotebook.rootNode.children) (ExportState.init emptyDisk) ∧
    doExportNotebook specPlatform { markdownOption true with m_recursive := false }
        deepNotebook (ExportState.init emptyDisk)
      = doExportFolderIn specPlatform { markdownOption true with m_recursive := true } "/out"
          (Node.mk ("notebook_" ++ deepNotebook.name) true Use.Normal none
            (deepNotebook.rootNode.children.map Node.leafBelow)) (ExportState.init emptyDisk) ∧
    (doExportNotebook specPlatform { markdownOption true with m_recursive := false }
        deepNotebook (ExportState.init emptyDisk)).2.calls
      = [FsCall.generateFileNameWithSequence "/out" "notebook_N" "",
         FsCall.mkpath "/out/notebook_N" true,
         FsCall.generateFileNameWithSequence "/out/notebook_N" "A" "",
         FsCall.mkpath "/out/notebook_N/A" true] :=
  ⟨Or.inr (by decide),
   (notebook_recursion specPlatform (markdownOption true) false shallowNotebook true Use.Normal
     none (ExportState.init emptyDisk)).2 (Or.inr (by decide)),
   (notebook_recursion specPlatform (markdownOption true) false deepNotebook true Use.Normal
     none (ExportState.init emptyDisk)).1,
   by decide⟩

/-! ### The end-to-end scenario -/

/-- Counterexample to C4 as stated: on the scenario (folder "Notes" with "a.md"
and Normal sub-folder "Sub" with "b.md", recurse on, attachments off, Markdown,
empty destination "/out") the list returned is not the one the claim names. -/
theorem scenario_counterexample :
    (doExportFolder specPlatform (markdownOption true) notesFolder
        (ExportState.init emptyDisk)).1
      ≠ ["/out/Notes/a/a.md", "/out/Notes/Sub/b/b.md"] := by
  decide

/-- C4, amended. On the scenario the folder export returns exactly two paths,
each document in a directory that carries the document's full file name:
"/out/Notes/a.md/a.md" and "/out/Notes/Sub/b.md/b.md". -/
theorem scenario_paths :
    (doExportFolder specPlatform (markdownOption true) notesFolder
        (ExportState.init emptyDisk)).1
      = ["/out/Notes/a.md/a.md", "/out/Notes/Sub/b.md/b.md"] := by
  decide

/-! ### The Markdown handler -/

/-- The attachment step only appends to the calls made so far. -/
theorem exportAttachments_calls (pf : Platform σ) (node : OwnerNode) (a b c : String)
    (s : ExportState σ) :
    ∃ extra, (exportAttachments pf node a b c s).calls = s.calls ++ extra := by
  unfold exportAttachments
  split
  · exact ⟨[], by simp⟩
  · exact ⟨_, by simp only [ExportState.called, List.append_assoc]; rfl⟩

/-- The attachment step emits no log line and no progress event. -/
theorem exportAttachments_quiet (pf : Platform σ) (node : OwnerNode) (a b c : String)
    (s : ExportState σ) :
    (exportAttachments pf node a b c s).log = s.log ∧
    (exportAttachments pf node a b c s).progress = s.progress := by
  unfold exportAttachments
  split <;> simp [ExportState.called]

/-- A Markdown file whose output directory could be made: the handler returns
the destination of the copy, `filePath (concatenateFilePath d u) name`, and the
copy to that destination is among the calls. -/
theorem doExportMarkdown_ok (pf : Platform σ) (opt : ExportOption) (d : String) (file : File)
    (s : ExportState σ) (hmd : file.isMarkdown = true)
    (hmk : (pf.mkpath (pf.concatenateFilePath d
        (pf.generateFileNameWithSequence s.fs d file.name "")) s.fs).1 = true) :
    (doExportMarkdown pf opt d file s).1
      = pf.filePath (pf.concatenateFilePath d
          (pf.generateFileNameWithSequence s.fs d file.name "")) file.name ∧
    FsCall.copyFile file.filePath (doExportMarkdown pf opt d file s).1 false
      ∈ (doExportMarkdown pf opt d file s).2.calls := by
  have hmk2 : (pf.mkpath (pf.concatenateFilePath d
      (pf.generateFileNameWithSequence s.fs d file.name ""))
      (s.called (.generateFileNameWithSequence d file.name "") s.fs).fs).1 = true := hmk
  unfold doExportMarkdown
  simp only [hmd, Bool.true_eq_false, if_false, hmk2]
  refine ⟨trivial, ?_⟩
  split
  · obtain ⟨extra, he⟩ := exportAttachments_calls pf file.node file.filePath
      (pf.concatenateFilePath d (pf.generateFileNameWithSequence s.fs d file.name ""))
      (pf.filePath (pf.concatenateFilePath d
        (pf.generateFileNameWithSequence s.fs d file.name "")) file.name)
      (((((s.called (.generateFileNameWithSequence d file.name "") s.fs).called
        (.mkpath (pf.concatenateFilePath d
          (pf.generateFileNameWithSequence s.fs d file.name "")) true)
        (pf.mkpath (pf.concatenateFilePath d
          (pf.generateFileNameWithSequence s.fs d file.name ""))
          (s.called (.generateFileNameWithSequence d file.name "") s.fs).fs).2).called
        (.copyFile file.filePath (pf.filePath (pf.concatenateFilePath d
          (pf.generateFileNameWithSequence s.fs d file.name "")) file.name) false) _).called
        (.copyMediaFiles file.filePath (pf.filePath (pf.concatenateFilePath d
          (pf.generateFileNameWithSequence s.fs d file.name "")) file.name)) _))
    rw [he]
    simp [ExportState.called]
  · simp [ExportState.called]

theorem slash_append_ne (a b : String) : a ++ "/" ++ b ≠ a := by
  intro h
  have hl := congrArg String.length h
  have h1 : "/".length = 1 := rfl
  simp only [String.length_append, h1] at hl
  omega

/-- C5 (Markdown export result path). On the reference platform, for every
Markdown file named f, destination d, options and disk on which the output
subdirectory d/u can be made, where u is the name generated from f in d: the
handler returns d/u/f, the destination of the recorded copy of the source file;
u is f itself when d has no entry named f; and the result is not the
subdirectory d/u. -/
theorem markdown_result_path (opt : ExportOption) (d : String) (file : File)
    (s : ExportState Disk) (hmd : file.isMarkdown = true)
    (hmk : (specPlatform.mkpath
        (d ++ "/" ++ specPlatform.generateFileNameWithSequence s.fs d file.name "") s.fs).1
          = true) :
    (doExportMarkdown specPlatform opt d file s).1
      = d ++ "/" ++ specPlatform.generateFileNameWithSequence s.fs d file.name "" ++ "/"
          ++ file.name ∧
    (s.fs.has (d ++ "/" ++ file.name) = false →
      specPlatform.generateFileNameWithSequence s.fs d file.name "" = file.name) ∧
    (doExportMarkdown specPlatform opt d file s).1
      ≠ d ++ "/" ++ specPlatform.generateFileNameWithSequence s.fs d file.name "" ∧
    FsCall.copyFile file.filePath (doExportMarkdown specPlatform opt d file s).1 false
      ∈ (doExportMarkdown specPlatform opt d file s).2.calls := by
  have h := doExportMarkdown_ok specPlatform opt d file s hmd hmk
  have hpath : (doExportMarkdown specPlatform opt d file s).1
      = d ++ "/" ++ specPlatform.generateFileNameWithSequence s.fs d file.name "" ++ "/"
          ++ file.name := h.1
  refine ⟨hpath, ?_, ?_, h.2⟩
  · intro hfree
    simp [specPlatform, hfree]
  · rw [hpath]
    exact slash_append_ne _ _

/-- Witness of C5: "a.md" exported into "/out" on an empty disk lands at "/out/a.md/a.md". -/
theorem markdown_result_path_witness :
    (markdownFile "/nb" "a.md").isMarkdown = true ∧
    (specPlatform.mkpath ("/out" ++ "/" ++ specPlatform.generateFileNameWithSequence
        (ExportState.init emptyDisk).fs "/out" (markdownFile "/nb" "a.md").name "")
        (ExportState.init emptyDisk).fs).1 = true ∧
    (doExportMarkdown specPlatform (markdownOption true) "/out" (markdownFile "/nb" "a.md")
        (ExportState.init emptyDisk)).1 = "/out/a.md/a.md" :=
  ⟨rfl, by decide,
   (markdown_result_path (markdownOption true) "/out" (markdownFile "/nb" "a.md")
      (ExportState.init emptyDisk) rfl (by decide)).1.trans (by decide)⟩

/-! ### Result order and error isolation -/

/-- Once its output directory is made, the folder export is its loop. -/
theorem doExportFolderIn_ok (pf : Platform σ) (opt : ExportOption) (outDir : String)
    (folder : Node) (s : ExportState σ)
    (hmk : (pf.mkpath (outputFolderOf pf outDir folder.name s) s.fs).1 = true) :
    doExportFolderIn pf opt outDir folder s
      = folderLoop pf opt (outputFolderOf pf outDir folder.name s) folder.children.length 0
          folder.children [] (loopStart pf outDir folder.name folder.children.length s) := by
  cases folder with
  | mk name c u f cs =>
    have hmk2 : (pf.mkpath (pf.concatenateFilePath outDir
        (pf.generateFileNameWithSequence s.fs outDir name ""))
        (s.called (.generateFileNameWithSequence outDir name "") s.fs).fs).1 = true := hmk
    rw [doExportFolderIn]
    simp only [hmk2, Bool.true_eq_false, if_false]
    rfl

/-- The folder loop appends to its accumulator the contributions of the
children, in order. -/
theorem folderLoop_eq_contributions (pf : Platform σ) (opt : ExportOption)
    (outputFolder : String) (total : Nat) :
    ∀ (cs : List Node) (i : Nat) (acc : List String) (s : ExportState σ),
      folderLoop pf opt outputFolder total i cs acc s
        = (acc ++ (contributions pf opt outputFolder total i cs s).1.flatten,
           (contributions pf opt outputFolder total i cs s).2) := by
  intro cs
  induction cs with
  | nil => intro i acc s; simp [folderLoop, contributions]
  | cons child rest ih =>
    intro i acc s
    rw [folderLoop, ih, contributions]
    simp only [childContribution, exportChildContent]
    cases child.contentFile with
    | none => split <;> simp
    | some file =>
      by_cases hr : (doExportFile pf opt outputFolder file s).1 = "" <;>
        split <;> simp [hr]

theorem contributions_length (pf : Platform σ) (opt : ExportOption) (outputFolder : String)
    (total : Nat) :
    ∀ (cs : List Node) (i : Nat) (s : ExportState σ),
      (contributions pf opt outputFolder total i cs s).1.length = cs.length := by
  intro cs
  induction cs with
  | nil => intro i s; simp [contributions]
  | cons child rest ih => intro i s; simp [contributions, ih]

/-- The content-file step never appends an empty path. -/
theorem exportChildContent_nonempty (pf : Platform σ) (opt : ExportOption)
    (outputFolder : String) (child : Node) (acc : List String) (s : ExportState σ)
    (hacc : "" ∉ acc) : "" ∉ (exportChildContent pf opt outputFolder child acc s).1 := by
  unfold exportChildContent
  cases child.contentFile with
  | none => simpa using hacc
  | some file =>
    by_cases hr : (doExportFile pf opt outputFolder file s).1 = ""
    · simpa [hr] using hacc
    · simp only [hr, ne_eq, not_false_eq_true, if_true, List.mem_append, List.mem_singleton]
      rintro (h | h)
      · exact hacc h
      · exact hr h.symm

/-- The folder loop never appends an empty path, given that the folder export
of each child returns none. -/
theorem folderLoop_nonempty (pf : Platform σ) (opt : ExportOption) (outputFolder : String)
    (total : Nat) :
    ∀ (cs : List Node),
      (∀ x ∈ cs, ∀ (d : String) (s : ExportState σ), "" ∉ (doExportFolderIn pf opt d x s).1) →
      ∀ (i : Nat) (acc : List String) (s : ExportState σ), "" ∉ acc →
        "" ∉ (folderLoop pf opt outputFolder total i cs acc s).1 := by
  intro cs
  induction cs with
  | nil => intro _ i acc s hacc; simpa [folderLoop] using hacc
  | cons child rest ih =>
    intro hcs i acc s hacc
    have hrest := ih (fun x hx => hcs x (List.mem_cons_of_mem _ hx))
    have hchild := hcs child (List.mem_cons_self _ _)
    have h1 := exportChildContent_nonempty pf opt outputFolder child acc s hacc
    rw [folderLoop]
    apply hrest
    split
    · simp only [List.mem_append, not_or]
      exact ⟨h1, hchild _ _⟩
    · exact h1

/-- The folder export never returns an empty path. -/
theorem doExportFolderIn_nonempty (pf : Platform σ) (opt : ExportOption) :
    ∀ (n : Node) (d : String) (s : ExportState σ), "" ∉ (doExportFolderIn pf opt d n s).1 := by
  intro n
  induction n using node_induct with
  | step n c u f cs ih =>
    intro d s
    rw [doExportFolderIn]
    split
    · simp
    · exact folderLoop_nonempty pf opt _ _ cs ih _ _ _ (by simp)

/-- C6 (result order and error isolation). For every folder whose output
directory is made, the list `doExport` returns is the concatenation, over the
children in their native order, of each child's contribution (its non-empty
`doExportFile` result, then its recursive results when it is a Normal container
and recurse is set), the effects being those of producing the contributions one
after the other; every child gets its turn, whatever the children before it
yielded; and the list holds no empty path. -/
theorem result_order (pf : Platform σ) (opt : ExportOption) (outDir : String) (folder : Node)
    (s : ExportState σ)
    (hmk : (pf.mkpath (outputFolderOf pf outDir folder.name s) s.fs).1 = true) :
    (doExportFolderIn pf opt outDir folder s).1
      = (contributions pf opt (outputFolderOf pf outDir folder.name s) folder.children.length 0
          folder.children (loopStart pf outDir folder.name folder.children.length s)).1.flatten ∧
    (doExportFolderIn pf opt outDir folder s).2
      = (contributions pf opt (outputFolderOf pf outDir folder.name s) folder.children.length 0
          folder.children (loopStart pf outDir folder.name folder.children.length s)).2 ∧
    (contributions pf opt (outputFolderOf pf outDir folder.name s) folder.children.length 0
        folder.children (loopStart pf outDir folder.name folder.children.length s)).1.length
      = folder.children.length ∧
    "" ∉ (doExportFolderIn pf opt outDir folder s).1 := by
  rw [doExportFolderIn_ok pf opt outDir folder s hmk, folderLoop_eq_contributions]
  refine ⟨by simp, rfl, contributions_length pf opt _ _ _ _ _, ?_⟩
  have h := doExportFolderIn_nonempty pf opt folder outDir s
  rw [doExportFolderIn_ok pf opt outDir folder s hmk, folderLoop_eq_contributions] at h
  exact h

/-- Witness of C6: a folder whose first child is not Markdown and whose
sub-folder cannot be created still exports its last child. -/
theorem result_order_witness :
    (specPlatform.mkpath (outputFolderOf specPlatform "/out" mixedFolder.name
        (ExportState.init diskRefusingSub)) (ExportState.init diskRefusingSub).fs).1 = true ∧
    (contributions specPlatform (markdownOption true)
        (outputFolderOf specPlatform "/out" mixedFolder.name (ExportState.init diskRefusingSub))
        mixedFolder.children.length 0 mixedFolder.children
        (loopStart specPlatform "/out" mixedFolder.name mixedFolder.children.length
          (ExportState.init diskRefusingSub))).1 = [[], [], ["/out/Notes/a.md/a.md"]] ∧
    (doExportFolderIn specPlatform (markdownOption true) "/out" mixedFolder
        (ExportState.init diskRefusingSub)).1 = ["/out/Notes/a.md/a.md"] :=
  ⟨by decide, by decide,
   (result_order specPlatform (markdownOption true) "/out" mixedFolder
      (ExportState.init diskRefusingSub) (by decide)).1.trans (by decide)⟩

/-! ### Progress events -/

/-- The Markdown handler emits no progress event. -/
theorem doExportMarkdown_progress (pf : Platform σ) (opt : ExportOption) (d : String)
    (file : File) (s : ExportState σ) :
    (doExportMarkdown pf opt d file s).2.progress = s.progress := by
  simp only [doExportMarkdown]
  split_ifs <;>
    simp [ExportState.logRequested, ExportState.called, (exportAttachments_quiet pf _ _ _ _ _).2]

/-- The HTML handler emits no progress event. -/
theorem doExportHtml_progress (pf : Platform σ) (opt : ExportOption) (d : String)
    (file : File) (s : ExportState σ) :
    (doExportHtml pf opt d file s).2.progress = s.progress := by
  simp only [doExportHtml]
  split_ifs <;> simp [ExportState.logRequested, ExportState.called]

/-- The file export emits no progress event. -/
theorem doExportFile_progress (pf : Platform σ) (opt : ExportOption) (d : String)
    (file : File) (s : ExportState σ) :
    (doExportFile pf opt d file s).2.progress = s.progress := by
  have hd : (dispatchFormat pf opt d file s).2.progress = s.progress := by
    unfold dispatchFormat
    split
    · exact doExportMarkdown_progress pf opt d file s
    · exact doExportHtml_progress pf opt d file s
    · rfl
  simp only [doExportFile]
  split_ifs <;> simpa [ExportState.logRequested] using hd

/-- The content-file step emits no progress event. -/
theorem exportChildContent_progress (pf : Platform σ) (opt : ExportOption) (d : String)
    (child : Node) (acc : List String) (s : ExportState σ) :
    (exportChildContent pf opt d child acc s).2.progress = s.progress := by
  unfold exportChildContent
  cases child.contentFile with
  | none => rfl
  | some file =>
    simp only
    split <;> exact doExportFile_progress pf opt d file s

/-- The events of the folder loop from index `i` on: one per child left, the
last being `(i + number of children left, total)`, with the events of the
recursive calls in between; none of the latter when nothing is recursed into. -/
theorem folderLoop_progress (pf : Platform σ) (opt : ExportOption) (outputFolder : String)
    (total : Nat) :
    ∀ (cs : List Node),
      (∀ x ∈ cs, ∀ (d : String) (s : ExportState σ),
        ∃ evs, (doExportFolderIn pf opt d x s).2.progress = s.progress ++ evs) →
      ∀ (i : Nat) (acc : List String) (s : ExportState σ),
        ∃ evs, (folderLoop pf opt outputFolder total i cs acc s).2.progress = s.progress ++ evs ∧
          cs.length ≤ evs.length ∧
          (cs = [] → evs = []) ∧
          (cs ≠ [] → evs.getLast? = some (i + cs.length, total)) ∧
          ((opt.m_recursive = false ∨ ∀ x ∈ cs, x.isNormalContainer = false) →
            evs.length = cs.length) := by
  intro cs
  induction cs with
  | nil =>
    intro _ i acc s
    exact ⟨[], by simp [folderLoop], by simp, fun _ => rfl, fun h => absurd rfl h, fun _ => rfl⟩
  | cons child rest ih =>
    intro hcs i acc s
    have hrest := ih (fun x hx => hcs x (List.mem_cons_of_mem _ hx))
    have hchild := hcs child (List.mem_cons_self _ _)
    have hcontent := exportChildContent_progress pf opt outputFolder child acc s
    rw [folderLoop]
    by_cases hcond : opt.m_recursive = true ∧ child.isContainer = true ∧ child.use = Use.Normal
    · obtain ⟨e1, he1⟩ := hchild outputFolder
        (exportChildContent pf opt outputFolder child acc s).2
      obtain ⟨e2, he2, hlen, hnil, hlast, _⟩ := hrest (i + 1)
        ((exportChildContent pf opt outputFolder child acc s).1
          ++ (doExportFolderIn pf opt outputFolder child
              (exportChildContent pf opt outputFolder child acc s).2).1)
        ((doExportFolderIn pf opt outputFolder child
          (exportChildContent pf opt outputFolder child acc s).2).2.progressUpdated (i + 1) total)
      refine ⟨e1 ++ (i + 1, total) :: e2, ?_, ?_, ?_, ?_, ?_⟩
      · simp only [hcond, and_self, if_true]
        rw [he2]
        simp [ExportState.progressUpdated, he1, hcontent]
      · simp only [List.length_append, List.length_cons]; omega
      · intro h; cases h
      · intro _
        rw [List.getLast?_append, List.getLast?_cons]
        by_cases hr : rest = []
        · simp [hnil hr, hr]
        · simp [hlast hr, Nat.add_assoc, Nat.add_comm 1]
      · rintro (hf | hn)
        · rw [hf] at hcond; exact absurd hcond.1 (by decide)
        · exact absurd hcond.2 (not_normalContainer (hn child (List.mem_cons_self _ _)))
    · obtain ⟨e2, he2, hlen, hnil, hlast, hexact⟩ := hrest (i + 1)
        (exportChildContent pf opt outputFolder child acc s).1
        ((exportChildContent pf opt outputFolder child acc s).2.progressUpdated (i + 1) total)
      refine ⟨(i + 1, total) :: e2, ?_, ?_, ?_, ?_, ?_⟩
      · simp only [hcond, if_false]
        rw [he2]
        simp [ExportState.progressUpdated, hcontent]
      · simp only [List.length_cons]; omega
      · intro h; cases h
      · intro _
        rw [List.getLast?_cons]
        by_cases hr : rest = []
        · simp [hnil hr, hr]
        · simp [hlast hr, Nat.add_assoc, Nat.add_comm 1]
      · intro h
        have : e2.length = rest.length := by
          apply hexact
          rcases h with hf | hn
          · exact Or.inl hf
          · exact Or.inr (fun x hx => hn x (List.mem_cons_of_mem _ hx))
        simp [this]

/-- The folder export only appends to the progress events emitted so far. -/
theorem doExportFolderIn_progress (pf : Platform σ) (opt : ExportOption) :
    ∀ (n : Node) (d : String) (s : ExportState σ),
      ∃ evs, (doExportFolderIn pf opt d n s).2.progress = s.progress ++ evs := by
  intro n
  induction n using node_induct with
  | step n c u f cs ih =>
    intro d s
    rw [doExportFolderIn]
    split
    · exact ⟨[], by simp [ExportState.logRequested, ExportState.called]⟩
    · obtain ⟨evs, he, _⟩ := folderLoop_progress pf opt
        (pf.concatenateFilePath d (pf.generateFileNameWithSequence s.fs d n "")) cs.length cs ih
        0 [] ((((s.called (.generateFileNameWithSequence d n "") s.fs).called
          (.mkpath (pf.concatenateFilePath d (pf.generateFileNameWithSequence s.fs d n ""))
            (pf.mkpath (pf.concatenateFilePath d (pf.generateFileNameWithSequence s.fs d n ""))
              (s.called (.generateFileNameWithSequence d n "") s.fs).fs).1)
          (pf.mkpath (pf.concatenateFilePath d (pf.generateFileNameWithSequence s.fs d n ""))
              (s.called (.generateFileNameWithSequence d n "") s.fs).fs).2).progressUpdated
          0 cs.length))
      exact ⟨(0, cs.length) :: evs, by
        rw [he]; simp [ExportState.progressUpdated, ExportState.called]⟩

/-- Counterexample to C7 as stated: on the scenario, with recurse on, the folder
"Notes" has 2 children and 5 progress events are emitted during its export, the
events of the nested export of "Sub" among them. -/
theorem progress_count_counterexample :
    notesFolder.children.length = 2 ∧
    (doExportFolder specPlatform (markdownOption true) notesFolder
        (ExportState.init emptyDisk)).2.progress = [(0, 2), (1, 2), (0, 1), (1, 1), (2, 2)] := by
  decide

/-- The state after the content-file step does not depend on the paths
accumulated so far. -/
theorem exportChildContent_state (pf : Platform σ) (opt : ExportOption) (d : String)
    (child : Node) (acc : List String) (s : ExportState σ) :
    (exportChildContent pf opt d child acc s).2 = (exportChildContent pf opt d child [] s).2 := by
  unfold exportChildContent
  cases child.contentFile with
  | none => rfl
  | some file =>
    simp only
    split_ifs <;> rfl

/-- The state after the folder loop does not depend on the paths accumulated so
far; it is the state `nestedEvents` ends in, and the events the loop emits are
the interleaving of the nested events with its own. -/
theorem folderLoop_nested (pf : Platform σ) (opt : ExportOption) (outputFolder : String)
    (total : Nat) :
    ∀ (cs : List Node) (i : Nat) (acc : List String) (s : ExportState σ),
      (folderLoop pf opt outputFolder total i cs acc s).2
        = (nestedEvents pf opt outputFolder total i cs s).2 ∧
      (folderLoop pf opt outputFolder total i cs acc s).2.progress
        = s.progress ++ interleave total i (nestedEvents pf opt outputFolder total i cs s).1 := by
  intro cs
  induction cs with
  | nil => intro i acc s; simp [folderLoop, nestedEvents, interleave]
  | cons child rest ih =>
    intro i acc s
    have hcontent := exportChildContent_progress pf opt outputFolder child [] s
    rw [folderLoop, nestedEvents]
    by_cases hcond : opt.m_recursive = true ∧ child.isContainer = true ∧ child.use = Use.Normal
    · obtain ⟨evs, hevs⟩ := doExportFolderIn_progress pf opt child outputFolder
        (exportChildContent pf opt outputFolder child [] s).2
      have hdrop : (doExportFolderIn pf opt outputFolder child
          (exportChildContent pf opt outputFolder child [] s).2).2.progress.drop
          (exportChildContent pf opt outputFolder child [] s).2.progress.length = evs := by
        rw [hevs, List.drop_left]
      simp only [hcond, and_self, if_true, exportChildContent_state pf opt outputFolder child acc s]
      refine ⟨(ih _ _ _).1, ?_⟩
      rw [(ih _ _ _).2, hdrop, interleave]
      simp [ExportState.progressUpdated, hevs, hcontent]
    · simp only [hcond, if_false, exportChildContent_state pf opt outputFolder child acc s]
      refine ⟨(ih _ _ _).1, ?_⟩
      rw [(ih _ _ _).2, interleave]
      simp [ExportState.progressUpdated, hcontent]

theorem nestedEvents_length (pf : Platform σ) (opt : ExportOption) (outputFolder : String)
    (total : Nat) :
    ∀ (cs : List Node) (i : Nat) (s : ExportState σ),
      (nestedEvents pf opt outputFolder total i cs s).1.length = cs.length := by
  intro cs
  induction cs with
  | nil => intro i s; simp [nestedEvents]
  | cons child rest ih => intro i s; simp [nestedEvents, ih]

theorem interleave_length (total : Nat) :
    ∀ (nested : List (List (Nat × Nat))) (i : Nat),
      (interleave total i nested).length = nested.length + (nested.map List.length).sum := by
  intro nested
  induction nested with
  | nil => intro i; simp [interleave]
  | cons evs rest ih =>
    intro i
    simp only [interleave, List.length_append, List.length_cons, ih, List.map_cons,
      List.sum_cons]
    omega

/-- C7, amended. For every folder tree and options value, when the output
directory is made, the progress events emitted during `doExport` on a folder
with n children are (0, n) followed, child after child in order, by the events
of the recursive folder export made for the child (none when the child is not
entered) and then the folder's own event (i + 1, n) for child i. So the
folder's own loop emits n + 1 events, the recursive calls emit theirs in
between, the number of events is n + 1 plus the numbers of the nested ones, the
first is (0, n), the last is (n, n), there are at least n + 1, and exactly
n + 1 when recurse is off or no child is a Normal container. -/
theorem progress_events (pf : Platform σ) (opt : ExportOption) (outDir : String)
    (folder : Node) (s : ExportState σ)
    (hmk : (pf.mkpath (outputFolderOf pf outDir folder.name s) s.fs).1 = true) :
    ∃ evs, (doExportFolderIn pf opt outDir folder s).2.progress
        = s.progress ++ (0, folder.children.length) :: evs ∧
      ((0, folder.children.length) :: evs).getLast?
        = some (folder.children.length, folder.children.length) ∧
      folder.children.length + 1 ≤ ((0, folder.children.length) :: evs).length ∧
      ((opt.m_recursive = false ∨ ∀ x ∈ folder.children, x.isNormalContainer = false) →
        ((0, folder.children.length) :: evs).length = folder.children.length + 1) ∧
      evs = interleave folder.children.length 0
        (nestedEvents pf opt (outputFolderOf pf outDir folder.name s) folder.children.length 0
          folder.children (loopStart pf outDir folder.name folder.children.length s)).1 ∧
      (nestedEvents pf opt (outputFolderOf pf outDir folder.name s) folder.children.length 0
          folder.children (loopStart pf outDir folder.name folder.children.length s)).1.length
        = folder.children.length ∧
      ((0, folder.children.length) :: evs).length
        = folder.children.length + 1 +
          ((nestedEvents pf opt (outputFolderOf pf outDir folder.name s) folder.children.length 0
            folder.children
            (loopStart pf outDir folder.name folder.children.length s)).1.map List.length).sum := by
  rw [doExportFolderIn_ok pf opt outDir folder s hmk]
  obtain ⟨evs, he, hlen, hnil, hlast, hexact⟩ := folderLoop_progress pf opt
    (outputFolderOf pf outDir folder.name s) folder.children.length folder.children
    (fun x _ d st => doExportFolderIn_progress pf opt x d st) 0 []
    (loopStart pf outDir folder.name folder.children.length s)
  have hnest := (folderLoop_nested pf opt (outputFolderOf pf outDir folder.name s)
    folder.children.length folder.children 0 []
    (loopStart pf outDir folder.name folder.children.length s)).2
  have hevs : evs = interleave folder.children.length 0
      (nestedEvents pf opt (outputFolderOf pf outDir folder.name s) folder.children.length 0
        folder.children (loopStart pf outDir folder.name folder.children.length s)).1 :=
    List.append_cancel_left (he.symm.trans hnest)
  have hnl := nestedEvents_length pf opt (outputFolderOf pf outDir folder.name s)
    folder.children.length folder.children 0
    (loopStart pf outDir folder.name folder.children.length s)
  refine ⟨evs, ?_, ?_, ?_, ?_, hevs, hnl, ?_⟩
  · rw [he]; simp [loopStart, ExportState.progressUpdated, ExportState.called]
  · rw [List.getLast?_cons]
    by_cases hr : folder.children = []
    · simp [hnil hr, hr]
    · simp [hlast hr]
  · simp only [List.length_cons]; omega
  · intro h
    simp only [List.length_cons, hexact h]
  · rw [hevs, List.length_cons, interleave_length, hnl]
    omega

/-- Witness of the amended C7: the scenario folder with recurse on, whose
second child "Sub" is entered and emits (0, 1) and (1, 1) before the folder's
own (2, 2). -/
theorem progress_events_witness :
    (specPlatform.mkpath (outputFolderOf specPlatform "/out" notesFolder.name
        (ExportState.init emptyDisk)) (ExportState.init emptyDisk).fs).1 = true ∧
    (nestedEvents specPlatform (markdownOption true)
        (outputFolderOf specPlatform "/out" notesFolder.name (ExportState.init emptyDisk))
        notesFolder.children.length 0 notesFolder.children
        (loopStart specPlatform "/out" notesFolder.name notesFolder.children.length
          (ExportState.init emptyDisk))).1 = [[], [(0, 1), (1, 1)]] ∧
    ∃ evs, (doExportFolderIn specPlatform (markdownOption true) "/out" notesFolder
          (ExportState.init emptyDisk)).2.progress
        = (ExportState.init emptyDisk).progress ++ (0, notesFolder.children.length) :: evs ∧
      ((0, notesFolder.children.length) :: evs).getLast?
        = some (notesFolder.children.length, notesFolder.children.length) ∧
      notesFolder.children.length + 1 ≤ ((0, notesFolder.children.length) :: evs).length ∧
      (((markdownOption true).m_recursive = false ∨
          ∀ x ∈ notesFolder.children, x.isNormalContainer = false) →
        ((0, notesFolder.children.length) :: evs).length = notesFolder.children.length + 1) ∧
      evs = interleave notesFolder.children.length 0
        (nestedEvents specPlatform (markdownOption true)
          (outputFolderOf specPlatform "/out" notesFolder.name (ExportState.init emptyDisk))
          notesFolder.children.length 0 notesFolder.children
          (loopStart specPlatform "/out" notesFolder.name notesFolder.children.length
            (ExportState.init emptyDisk))).1 ∧
      (nestedEvents specPlatform (markdownOption true)
          (outputFolderOf specPlatform "/out" notesFolder.name (ExportState.init emptyDisk))
          notesFolder.children.length 0 notesFolder.children
          (loopStart specPlatform "/out" notesFolder.name notesFolder.children.length
            (ExportState.init emptyDisk))).1.length = notesFolder.children.length ∧
      ((0, notesFolder.children.length) :: evs).length
        = notesFolder.children.length + 1 +
          ((nestedEvents specPlatform (markdownOption true)
            (outputFolderOf specPlatform "/out" notesFolder.name (ExportState.init emptyDisk))
            notesFolder.children.length 0 notesFolder.children
            (loopStart specPlatform "/out" notesFolder.name notesFolder.children.length
              (ExportState.init emptyDisk))).1.map List.length).sum :=
  ⟨by decide, by decide,
   progress_events specPlatform (markdownOption true) "/out" notesFolder
     (ExportState.init emptyDisk) (by decide)⟩

/-! ### Format gating -/

/-- C8 (format gating). For every file whose content type is not Markdown, and
whatever the platform, options, destination and state, both handlers return the
empty path and leave a state that differs from the one they started in by one
log line, the one naming the unsupported format: the filesystem, the calls made
(name generation, directory creation, copies) and the progress events are
untouched. -/
theorem format_gating (pf : Platform σ) (opt : ExportOption) (d : String) (file : File)
    (s : ExportState σ) (h : file.isMarkdown = false) :
    doExportMarkdown pf opt d file s
      = ("", { s with log := s.log ++ [LogMsg.markdownUnsupported file.displayName] }) ∧
    doExportHtml pf opt d file s
      = ("", { s with log := s.log ++ [LogMsg.htmlUnsupported file.displayName] }) := by
  constructor
  · simp [doExportMarkdown, h, ExportState.logRequested]
  · simp [doExportHtml, h, ExportState.logRequested]

/-- Witness of C8: an image file sent to both handlers. -/
theorem format_gating_witness :
    imageFile.isMarkdown = false ∧
    doExportMarkdown specPlatform (markdownOption true) "/out" imageFile
        (ExportState.init emptyDisk)
      = ("", { ExportState.init emptyDisk with
                log := (ExportState.init emptyDisk).log
                  ++ [LogMsg.markdownUnsupported imageFile.displayName] }) ∧
    doExportHtml specPlatform (markdownOption true) "/out" imageFile
        (ExportState.init emptyDisk)
      = ("", { ExportState.init emptyDisk with
                log := (ExportState.init emptyDisk).log
                  ++ [LogMsg.htmlUnsupported imageFile.displayName] }) :=
  ⟨rfl, format_gating specPlatform (markdownOption true) "/out" imageFile
    (ExportState.init emptyDisk) rfl⟩

/-! ### The log of the file export -/

/-- The attachment step emits no log line. -/
theorem exportAttachments_log (pf : Platform σ) (node : OwnerNode) (a b c : String)
    (s : ExportState σ) : (exportAttachments pf node a b c s).log = s.log :=
  (exportAttachments_quiet pf node a b c s).1

/-- The format dispatch appends at most one log line, never a result line. -/
theorem dispatchFormat_log (pf : Platform σ) (opt : ExportOption) (d : String) (file : File)
    (s : ExportState σ) :
    ∃ pre, (∀ m ∈ pre, m.isResultLine = false) ∧ pre.length ≤ 1 ∧
      (dispatchFormat pf opt d file s).2.log = s.log ++ pre := by
  unfold dispatchFormat
  split
  · by_cases hmd : file.isMarkdown = false
    · exact ⟨[LogMsg.markdownUnsupported file.displayName], by simp [LogMsg.isResultLine],
        by simp, by simp [doExportMarkdown, hmd, ExportState.logRequested]⟩
    · by_cases hmk : (pf.mkpath (pf.concatenateFilePath d
          (pf.generateFileNameWithSequence s.fs d file.name "")) s.fs).1 = false
      · exact ⟨[LogMsg.createFolderFailed (pf.concatenateFilePath d
            (pf.generateFileNameWithSequence s.fs d file.name ""))],
          by simp [LogMsg.isResultLine], by simp,
          by simp [doExportMarkdown, hmd, hmk, ExportState.logRequested, ExportState.called]⟩
      · refine ⟨[], by simp, by simp, ?_⟩
        simp only [doExportMarkdown]
        split_ifs <;>
          simp_all [ExportState.logRequested, ExportState.called, exportAttachments_log]
  · by_cases hmd : file.isMarkdown = false
    · exact ⟨[LogMsg.htmlUnsupported file.displayName], by simp [LogMsg.isResultLine],
        by simp, by simp [doExportHtml, hmd, ExportState.logRequested]⟩
    · exact ⟨[], by simp, by simp, by simp [doExportHtml, hmd, ExportState.called]⟩
  · exact ⟨[LogMsg.unknownFormat (pf.exportFormatString opt.m_targetFormat)],
      by simp [LogMsg.isResultLine], by simp, by simp [ExportState.logRequested]⟩

/-- The file export returns what the format dispatch returns. -/
theorem doExportFile_fst (pf : Platform σ) (opt : ExportOption) (d : String)
    (file : File) (s : ExportState σ) :
    (doExportFile pf opt d file s).1 = (dispatchFormat pf opt d file s).1 := by
  simp only [doExportFile]
  split_ifs <;> rfl

/-- C9 (log of the file export). For every platform, options value, destination,
file and state: `doExport` on a file returns what the format dispatch returns,
and its log is the log so far, the lines of the dispatch (none of them a result
line), then exactly one result line, which is the success line naming source
and destination when the returned path is non-empty and the failure line naming
the source otherwise. For the target formats PDF and Custom it returns the
empty path and changes nothing but the log, which gains two lines: the
unknown-format error, then the failure line. -/
theorem exportFile_logging (pf : Platform σ) (opt : ExportOption) (d : String) (file : File)
    (s : ExportState σ) :
    (doExportFile pf opt d file s).1 = (dispatchFormat pf opt d file s).1 ∧
    (∃ pre, (∀ m ∈ pre, m.isResultLine = false) ∧
      (doExportFile pf opt d file s).2.log
        = s.log ++ pre ++
          [if (doExportFile pf opt d file s).1 ≠ "" then
              LogMsg.exported file.filePath (doExportFile pf opt d file s).1
            else LogMsg.exportFailed file.filePath]) ∧
    doExportFile pf { opt with m_targetFormat := ExportFormat.PDF } d file s
      = ("", { s with log := s.log ++
          [LogMsg.unknownFormat (pf.exportFormatString ExportFormat.PDF),
           LogMsg.exportFailed file.filePath] }) ∧
    doExportFile pf { opt with m_targetFormat := ExportFormat.Custom } d file s
      = ("", { s with log := s.log ++
          [LogMsg.unknownFormat (pf.exportFormatString ExportFormat.Custom),
           LogMsg.exportFailed file.filePath] }) := by
  have h1 : (doExportFile pf opt d file s).1 = (dispatchFormat pf opt d file s).1 := by
    simp only [doExportFile]
    split_ifs <;> rfl
  refine ⟨h1, ?_, ?_, ?_⟩
  · obtain ⟨pre, hpre, _, hlog⟩ := dispatchFormat_log pf opt d file s
    refine ⟨pre, hpre, ?_⟩
    rw [h1]
    simp only [doExportFile]
    split_ifs <;> simp [ExportState.logRequested, hlog]
  · simp [doExportFile, dispatchFormat, ExportState.logRequested]
  · simp [doExportFile, dispatchFormat, ExportState.logRequested]

/-! ### HTML export -/

/-- The HTML handler returns the empty path, leaves the filesystem as it is and
makes no call other than a name generation. -/
theorem doExportHtml_empty (pf : Platform σ) (opt : ExportOption) (d : String) (file : File)
    (s : ExportState σ) :
    (doExportHtml pf opt d file s).1 = "" ∧
    (doExportHtml pf opt d file s).2.fs = s.fs ∧
    ∃ extra, (doExportHtml pf opt d file s).2.calls = s.calls ++ extra ∧
      ∀ call ∈ extra, ∃ a b c, call = FsCall.generateFileNameWithSequence a b c := by
  by_cases hmd : file.isMarkdown = false
  · exact ⟨by simp [doExportHtml, hmd], by simp [doExportHtml, hmd, ExportState.logRequested],
      [], by simp [doExportHtml, hmd, ExportState.logRequested], by simp⟩
  · refine ⟨by simp [doExportHtml, hmd], by simp [doExportHtml, hmd, ExportState.called],
      [FsCall.generateFileNameWithSequence d (pf.completeBaseName file.name)
        (if opt.m_htmlOption.m_useMimeHtmlFormat = true then ".mht" else ".html")],
      by simp [doExportHtml, hmd, ExportState.called], ?_⟩
    intro call hcall
    exact ⟨_, _, _, List.mem_singleton.mp hcall⟩

/-- With HTML as the target format the file export returns the empty path. -/
theorem doExportFile_html (pf : Platform σ) (opt : ExportOption)
    (h : opt.m_targetFormat = ExportFormat.HTML) (d : String) (file : File)
    (s : ExportState σ) : (doExportFile pf opt d file s).1 = "" := by
  have hd : (dispatchFormat pf opt d file s).1 = "" := by
    simp only [dispatchFormat, h]
    exact (doExportHtml_empty pf opt d file s).1
  simp only [doExportFile]
  split_ifs <;> exact hd

/-- With HTML as the target format the content-file step appends nothing. -/
theorem exportChildContent_html (pf : Platform σ) (opt : ExportOption)
    (h : opt.m_targetFormat = ExportFormat.HTML) (d : String) (child : Node)
    (acc : List String) (s : ExportState σ) :
    (exportChildContent pf opt d child acc s).1 = acc := by
  unfold exportChildContent
  cases child.contentFile with
  | none => rfl
  | some file => simp [doExportFile_html pf opt h]

/-- With HTML as the target format the folder loop appends nothing, given that
the folder export of each child returns nothing. -/
theorem folderLoop_html (pf : Platform σ) (opt : ExportOption)
    (h : opt.m_targetFormat = ExportFormat.HTML) (outputFolder : String) (total : Nat) :
    ∀ (cs : List Node),
      (∀ x ∈ cs, ∀ (d : String) (s : ExportState σ), (doExportFolderIn pf opt d x s).1 = []) →
      ∀ (i : Nat) (acc : List String) (s : ExportState σ),
        (folderLoop pf opt outputFolder total i cs acc s).1 = acc := by
  intro cs
  induction cs with
  | nil => intro _ i acc s; simp [folderLoop]
  | cons child rest ih =>
    intro hcs i acc s
    have hrest := ih (fun x hx => hcs x (List.mem_cons_of_mem _ hx))
    have hchild := hcs child (List.mem_cons_self _ _)
    rw [folderLoop, hrest]
    split
    · simp [hchild, exportChildContent_html pf opt h]
    · exact exportChildContent_html pf opt h _ _ _ _

/-- With HTML as the target format the folder export returns the empty list. -/
theorem doExportFolderIn_html (pf : Platform σ) (opt : ExportOption)
    (h : opt.m_targetFormat = ExportFormat.HTML) :
    ∀ (n : Node) (d : String) (s : ExportState σ), (doExportFolderIn pf opt d n s).1 = [] := by
  intro n
  induction n using node_induct with
  | step n c u f cs ih =>
    intro d s
    rw [doExportFolderIn]
    split
    · rfl
    · exact folderLoop_html pf opt h _ _ cs ih _ _ _

/-- With HTML as the target format the notebook loop appends nothing. -/
theorem notebookLoop_html (pf : Platform σ) (opt : ExportOption)
    (h : opt.m_targetFormat = ExportFormat.HTML) (outputFolder : String) (total : Nat) :
    ∀ (cs : List Node) (i : Nat) (acc : List String) (s : ExportState σ),
      (notebookLoop pf opt outputFolder total i cs acc s).1 = acc := by
  intro cs
  induction cs with
  | nil => intro i acc s; simp [notebookLoop]
  | cons child rest ih =>
    intro i acc s
    rw [notebookLoop, ih]
    split
    · simp [doExportFolderIn_html pf opt h, exportChildContent_html pf opt h]
    · exact exportChildContent_html pf opt h _ _ _ _

/-- With HTML as the target format the notebook export returns the empty list. -/
theorem doExportNotebook_html (pf : Platform σ) (opt : ExportOption)
    (h : opt.m_targetFormat = ExportFormat.HTML) (nb : Notebook) (s : ExportState σ) :
    (doExportNotebook pf opt nb s).1 = [] := by
  simp only [doExportNotebook]
  split_ifs
  · rfl
  · exact notebookLoop_html pf opt h _ _ _ _ _ _

/-- With HTML as the target format the buffer export returns the empty path. -/
theorem doExportBuffer_html (pf : Platform σ) (opt : ExportOption)
    (h : opt.m_targetFormat = ExportFormat.HTML) (b : Buffer) (s : ExportState σ) :
    (doExportBuffer pf opt b s).1 = "" := by
  unfold doExportBuffer
  cases b.file with
  | none => rfl
  | some file =>
    simp only
    split_ifs
    · rfl
    · exact doExportFile_html pf opt h _ _ _

/-- C10 (HTML export never produces output). For every platform and every
options value with target format HTML: the HTML handler returns the empty path
for every destination, file (Markdown or not) and state, leaves the filesystem
unchanged and calls nothing but the name generator; so `doExport` returns the
empty path on every file and buffer and the empty list on every folder tree and
notebook; and the dialog's `doExport`, whenever its selected source is present,
returns the count 0 and leaves the dialog, its recorded exported file included,
as it was. -/
theorem html_never_produces_output (pf : Platform σ) (opt : ExportOption)
    (h : opt.m_targetFormat = ExportFormat.HTML) (s : ExportState σ) :
    (∀ (d : String) (file : File),
      (doExportHtml pf opt d file s).1 = "" ∧ (doExportHtml pf opt d file s).2.fs = s.fs ∧
      ∃ extra, (doExportHtml pf opt d file s).2.calls = s.calls ++ extra ∧
        ∀ call ∈ extra, ∃ a b c, call = FsCall.generateFileNameWithSequence a b c) ∧
    (∀ (d : String) (file : File), (doExportFile pf opt d file s).1 = "") ∧
    (∀ (b : Buffer), (doExportBuffer pf opt b s).1 = "") ∧
    (∀ (folder : Node), (doExportFolder pf opt folder s).1 = []) ∧
    (∀ (nb : Notebook), (doExportNotebook pf opt nb s).1 = []) ∧
    (∀ (dlg : ExportDialog), dlg.sourcePresent = true →
      ∃ st, ExportDialog.doExport pf dlg opt s = some (0, dlg, st)) := by
  refine ⟨fun d file => doExportHtml_empty pf opt d file s,
    fun d file => doExportFile_html pf opt h d file s,
    fun b => doExportBuffer_html pf opt h b s,
    fun folder => doExportFolderIn_html pf opt h folder _ s,
    fun nb => doExportNotebook_html pf opt h nb s, ?_⟩
  intro dlg hp
  unfold ExportDialog.sourcePresent at hp
  unfold ExportDialog.doExport
  cases hsrc : dlg.s_option.m_source
  · rw [hsrc] at hp
    cases hb : dlg.m_buffer with
    | none => rw [hb] at hp; cases hp
    | some buffer =>
      refine ⟨(doExportBuffer pf opt buffer s).2, ?_⟩
      simp [doExportBuffer_html pf opt h buffer s]
  · rw [hsrc] at hp
    cases hf : dlg.m_folder with
    | none => rw [hf] at hp; cases hp
    | some folder =>
      have := doExportFolderIn_html pf opt h folder opt.m_outputDir s
      simp only [doExportFolder, this]
      exact ⟨_, rfl⟩
  · rw [hsrc] at hp
    cases hn : dlg.m_notebook with
    | none => rw [hn] at hp; cases hp
    | some notebook =>
      simp only [doExportNotebook_html pf opt h notebook s]
      exact ⟨_, rfl⟩

/-- Witness of C10: the dialog on the scenario folder with HTML selected. -/
theorem html_never_produces_output_witness :
    htmlOption.m_targetFormat = ExportFormat.HTML ∧
    folderDialog.sourcePresent = true ∧
    (doExportFolder specPlatform htmlOption notesFolder (ExportState.init emptyDisk)).1 = [] ∧
    ∃ st, ExportDialog.doExport specPlatform folderDialog htmlOption
      (ExportState.init emptyDisk) = some (0, folderDialog, st) :=
  ⟨rfl, rfl,
   (html_never_produces_output specPlatform htmlOption rfl
      (ExportState.init emptyDisk)).2.2.2.1 notesFolder,
   (html_never_produces_output specPlatform htmlOption rfl
      (ExportState.init emptyDisk)).2.2.2.2.2 folderDialog rfl⟩

/-! ### The buffer export -/

/-- C11 (soft skips of the document export). For every platform, options value
and state: on a buffer without a file, `doExport` returns the empty path and
changes the state by the one skip line only (no filesystem call, not even the
creation of the output directory); on a buffer with a file whose output
directory cannot be made, it returns the empty path, and the state holds one
more call, the failed `mkpath`, and one more log line, the creation failure, so
the file export was not entered; otherwise it is the file export
`doExport(option, option.m_outputDir, file)` run after the successful `mkpath`. -/
theorem buffer_soft_skips (pf : Platform σ) (opt : ExportOption) (s : ExportState σ) :
    (∀ (name : String),
      doExportBuffer pf opt { name := name, file := none } s
        = ("", { s with log := s.log ++ [LogMsg.skippedBuffer name] })) ∧
    (∀ (name : String) (file : File), (pf.mkpath opt.m_outputDir s.fs).1 = false →
      doExportBuffer pf opt { name := name, file := some file } s
        = ("", { fs := (pf.mkpath opt.m_outputDir s.fs).2,
                 log := s.log ++ [LogMsg.createFolderFailed opt.m_outputDir],
                 progress := s.progress,
                 calls := s.calls ++ [FsCall.mkpath opt.m_outputDir false] })) ∧
    (∀ (name : String) (file : File), (pf.mkpath opt.m_outputDir s.fs).1 = true →
      doExportBuffer pf opt { name := name, file := some file } s
        = doExportFile pf opt opt.m_outputDir file
            (s.called (FsCall.mkpath opt.m_outputDir true) (pf.mkpath opt.m_outputDir s.fs).2)) := by
  refine ⟨?_, ?_, ?_⟩
  · intro name
    simp [doExportBuffer, ExportState.logRequested]
  · intro name file hmk
    simp [doExportBuffer, hmk, ExportState.logRequested, ExportState.called]
  · intro name file hmk
    simp [doExportBuffer, hmk]

/-- Witness of C11: a buffer without file, a destination that cannot be made,
and a Markdown buffer exported to an empty disk. -/
theorem buffer_soft_skips_witness :
    doExportBuffer specPlatform (markdownOption true) scratchBuffer (ExportState.init emptyDisk)
      = ("", { ExportState.init emptyDisk with log := [LogMsg.skippedBuffer "scratch"] }) ∧
    (specPlatform.mkpath (markdownOption true).m_outputDir
        (ExportState.init diskRefusingOut).fs).1 = false ∧
    doExportBuffer specPlatform (markdownOption true) markdownBuffer
        (ExportState.init diskRefusingOut)
      = ("", { fs := diskRefusingOut, log := [LogMsg.createFolderFailed "/out"], progress := [],
               calls := [FsCall.mkpath "/out" false] }) ∧
    (specPlatform.mkpath (markdownOption true).m_outputDir
        (ExportState.init emptyDisk).fs).1 = true ∧
    (doExportBuffer specPlatform (markdownOption true) markdownBuffer
        (ExportState.init emptyDisk)).1 = "/out/a.md/a.md" :=
  ⟨(buffer_soft_skips specPlatform (markdownOption true) (ExportState.init emptyDisk)).1 "scratch",
   by decide,
   (buffer_soft_skips specPlatform (markdownOption true) (ExportState.init diskRefusingOut)).2.1
     "a.md" (markdownFile "/nb" "a.md") (by decide),
   by decide,
   (congrArg Prod.fst
     ((buffer_soft_skips specPlatform (markdownOption true) (ExportState.init emptyDisk)).2.2
       "a.md" (markdownFile "/nb" "a.md") (by decide))).trans (by decide)⟩

/-! ### Attachments -/

/-- A successful Markdown export, spelled out: the returned path is
`filePath outputFolder name`, and the state is that after the primary copy,
followed by the attachment step exactly when the option is set. -/
theorem doExportMarkdown_success (pf : Platform σ) (opt : ExportOption) (d : String)
    (file : File) (s : ExportState σ) (hmd : file.isMarkdown = true)
    (hmk : (pf.mkpath (outputFolderOf pf d file.name s) s.fs).1 = true) :
    doExportMarkdown pf opt d file s
      = (pf.filePath (outputFolderOf pf d file.name s) file.name,
         if opt.m_exportAttachments = true then
           exportAttachments pf file.node file.filePath (outputFolderOf pf d file.name s)
             (pf.filePath (outputFolderOf pf d file.name s) file.name) (primaryCopied pf d file s)
         else primaryCopied pf d file s) := by
  have hmk2 : (pf.mkpath (pf.concatenateFilePath d
      (pf.generateFileNameWithSequence s.fs d file.name ""))
      (s.called (.generateFileNameWithSequence d file.name "") s.fs).fs).1 = true := hmk
  unfold doExportMarkdown
  simp only [hmd, Bool.true_eq_false, if_false, hmk2]
  rfl

/-- The calls of a successful Markdown export: those of the primary copy and,
exactly when the option is set and the attachment folder is non-empty, the
rename query and the attachment copy. -/
theorem doExportMarkdown_calls (pf : Platform σ) (opt : ExportOption) (d : String)
    (file : File) (s : ExportState σ) (hmd : file.isMarkdown = true)
    (hmk : (pf.mkpath (outputFolderOf pf d file.name s) s.fs).1 = true) :
    (doExportMarkdown pf opt d file s).2.calls
      = (primaryCopied pf d file s).calls ++
        (if opt.m_exportAttachments = true ∧ file.node.attachmentFolder ≠ "" then
          [FsCall.renameIfExistsCaseInsensitive
              (pf.filePath (outputFolderOf pf d file.name s) (attachmentRel pf file)),
            FsCall.copyAttachment (pf.filePath (outputFolderOf pf d file.name s) file.name)
              (attachmentTarget pf (outputFolderOf pf d file.name s) file
                (primaryCopied pf d file s).fs)]
        else []) := by
  rw [doExportMarkdown_success pf opt d file s hmd hmk]
  by_cases h1 : opt.m_exportAttachments = true <;>
    by_cases h2 : file.node.attachmentFolder = "" <;>
      simp [h1, h2, exportAttachments, ExportState.called, attachmentTarget, attachmentRel]

/-- C14 (attachment relocation). For every platform, options value, destination,
Markdown file and state where the output subdirectory is made: the calls of the
export are those of the primary copy followed, exactly when
`m_exportAttachments` is set and the node's attachment folder is non-empty, by
the case-insensitive rename query and one `copyAttachment`, whose destination
folder is the collision-avoided form of `outputSubdir / rel`, with `rel` the
attachment folder's path relative to the source file's parent directory; no
attachment is copied otherwise; and the returned path of the primary file is
the same for both values of `m_exportAttachments`. -/
theorem attachment_relocation (pf : Platform σ) (opt : ExportOption) (d : String)
    (file : File) (s : ExportState σ) (hmd : file.isMarkdown = true)
    (hmk : (pf.mkpath (outputFolderOf pf d file.name s) s.fs).1 = true) :
    (doExportMarkdown pf opt d file s).2.calls
      = (primaryCopied pf d file s).calls ++
        (if opt.m_exportAttachments = true ∧ file.node.attachmentFolder ≠ "" then
          [FsCall.renameIfExistsCaseInsensitive
              (pf.filePath (outputFolderOf pf d file.name s) (attachmentRel pf file)),
            FsCall.copyAttachment (pf.filePath (outputFolderOf pf d file.name s) file.name)
              (attachmentTarget pf (outputFolderOf pf d file.name s) file
                (primaryCopied pf d file s).fs)]
        else []) ∧
    (doExportMarkdown pf opt d file s).2.fs
      = (if opt.m_exportAttachments = true ∧ file.node.attachmentFolder ≠ "" then
          pf.copyAttachment file.node (pf.filePath (outputFolderOf pf d file.name s) file.name)
            (attachmentTarget pf (outputFolderOf pf d file.name s) file
              (primaryCopied pf d file s).fs)
            (primaryCopied pf d file s).fs
        else (primaryCopied pf d file s).fs) ∧
    (∀ a b, FsCall.copyAttachment a b ∉ (primaryCopied pf d file s).calls.drop s.calls.length) ∧
    (∀ flag : Bool,
      (doExportMarkdown pf { opt with m_exportAttachments := flag } d file s).1
        = pf.filePath (outputFolderOf pf d file.name s) file.name) := by
  refine ⟨doExportMarkdown_calls pf opt d file s hmd hmk, ?_, ?_, ?_⟩
  · rw [doExportMarkdown_success pf opt d file s hmd hmk]
    by_cases h1 : opt.m_exportAttachments = true <;>
      by_cases h2 : file.node.attachmentFolder = "" <;>
        simp [h1, h2, exportAttachments, ExportState.called, attachmentTarget, attachmentRel]
  · intro a b
    simp [primaryCopied, ExportState.called]
  · intro flag
    rw [doExportMarkdown_success pf _ d file s hmd hmk]

/-- Witness of C14: "a.md" with attachment folder "/nb/vx_attachments/att1",
exported with attachments into "/out" on an empty disk. -/
theorem attachment_relocation_witness :
    fileWithAttachments.isMarkdown = true ∧
    (specPlatform.mkpath (outputFolderOf specPlatform "/out" fileWithAttachments.name
        (ExportState.init emptyDisk)) (ExportState.init emptyDisk).fs).1 = true ∧
    (doExportMarkdown specPlatform attachmentOption "/out" fileWithAttachments
        (ExportState.init emptyDisk)).2.calls
      = [FsCall.generateFileNameWithSequence "/out" "a.md" "",
         FsCall.mkpath "/out/a.md" true,
         FsCall.copyFile "/nb/a.md" "/out/a.md/a.md" false,
         FsCall.copyMediaFiles "/nb/a.md" "/out/a.md/a.md",
         FsCall.renameIfExistsCaseInsensitive "/out/a.md/vx_attachments/att1",
         FsCall.copyAttachment "/out/a.md/a.md" "/out/a.md/vx_attachments/att1"] :=
  ⟨rfl, by decide,
   (attachment_relocation specPlatform attachmentOption "/out" fileWithAttachments
      (ExportState.init emptyDisk) rfl (by decide)).1.trans (by decide)⟩

/-! ### Parent-before-child order of the filesystem calls -/

theorem placed_mono (pf : Platform σ) {c c' : List String} (h : ∀ x ∈ c, x ∈ c')
    (call : FsCall) (hp : call.placed pf c) : call.placed pf c' := by
  cases call with
  | generateFileNameWithSequence a b d => trivial
  | renameIfExistsCaseInsensitive a => trivial
  | mkpath p ok =>
    obtain ⟨q, hq, n, hn⟩ := hp
    exact ⟨q, h q hq, n, hn⟩
  | copyFile a dest mv =>
    obtain ⟨q, hq, n, hn⟩ := hp
    exact ⟨q, h q hq, n, hn⟩
  | copyMediaFiles a dest =>
    obtain ⟨q, hq, n, hn⟩ := hp
    exact ⟨q, h q hq, n, hn⟩
  | copyAttachment a b =>
    obtain ⟨q, hq, hn, hr⟩ := hp
    exact ⟨q, h q hq, hn, hr⟩

/-- More directories created beforehand keep a sequence ordered. -/
theorem ordered_mono (pf : Platform σ) :
    ∀ (xs : List FsCall) (c c' : List String), (∀ x ∈ c, x ∈ c') →
      ordered pf c xs → ordered pf c' xs := by
  intro xs
  induction xs with
  | nil => intro c c' _ _; trivial
  | cons call rest ih =>
    intro c c' h ho
    refine ⟨placed_mono pf h call ho.1, ih _ _ ?_ ho.2⟩
    intro x hx
    rcases List.mem_append.mp hx with hx | hx
    · exact List.mem_append.mpr (Or.inl (h x hx))
    · exact List.mem_append.mpr (Or.inr hx)

/-- Two sequences ordered from the same directories are ordered one after the other. -/
theorem ordered_append (pf : Platform σ) :
    ∀ (xs ys : List FsCall) (c : List String),
      ordered pf c xs → ordered pf c ys → ordered pf c (xs ++ ys) := by
  intro xs
  induction xs with
  | nil => intro ys c _ hy; simpa using hy
  | cons call rest ih =>
    intro ys c hx hy
    refine ⟨hx.1, ih ys _ hx.2 (ordered_mono pf ys c _ ?_ hy)⟩
    intro x hx'
    exact List.mem_append.mpr (Or.inl hx')

theorem orderedFrom_refl (pf : Platform σ) (c : List String) (s : ExportState σ) :
    OrderedFrom pf c s s :=
  ⟨[], by simp, trivial⟩

theorem orderedFrom_trans (pf : Platform σ) {c : List String} {s1 s2 s3 : ExportState σ}
    (h12 : OrderedFrom pf c s1 s2) (h23 : OrderedFrom pf c s2 s3) : OrderedFrom pf c s1 s3 := by
  obtain ⟨e1, he1, ho1⟩ := h12
  obtain ⟨e2, he2, ho2⟩ := h23
  exact ⟨e1 ++ e2, by rw [he2, he1, List.append_assoc], ordered_append pf e1 e2 c ho1 ho2⟩

/-- Log lines and progress events do not touch the calls. -/
theorem orderedFrom_of_calls_eq (pf : Platform σ) {c : List String} {s1 s2 : ExportState σ}
    (h12 : OrderedFrom pf c s1 s2) (s3 : ExportState σ) (h : s3.calls = s2.calls) :
    OrderedFrom pf c s1 s3 := by
  obtain ⟨e1, he1, ho1⟩ := h12
  exact ⟨e1, by rw [h, he1], ho1⟩

/-- The four calls of the primary copy are ordered below the destination. -/
theorem ordered_primary (pf : Platform σ) (c : List String) (d n name src : String)
    (hd : d ∈ c) :
    ordered pf c
      [FsCall.generateFileNameWithSequence d name "",
       FsCall.mkpath (pf.concatenateFilePath d n) true,
       FsCall.copyFile src (pf.filePath (pf.concatenateFilePath d n) name) false,
       FsCall.copyMediaFiles src (pf.filePath (pf.concatenateFilePath d n) name)] := by
  simp only [ordered, FsCall.placed, FsCall.creates, List.append_nil]
  exact ⟨trivial, ⟨d, hd, n, rfl⟩, ⟨_, by simp, name, rfl⟩, ⟨_, by simp, name, rfl⟩, trivial⟩

/-- The primary copy followed by the attachment step is ordered below the destination. -/
theorem ordered_primary_attach (pf : Platform σ) (c : List String)
    (d n name src rel : String) (fs : σ) (hd : d ∈ c) :
    ordered pf c
      [FsCall.generateFileNameWithSequence d name "",
       FsCall.mkpath (pf.concatenateFilePath d n) true,
       FsCall.copyFile src (pf.filePath (pf.concatenateFilePath d n) name) false,
       FsCall.copyMediaFiles src (pf.filePath (pf.concatenateFilePath d n) name),
       FsCall.renameIfExistsCaseInsensitive (pf.filePath (pf.concatenateFilePath d n) rel),
       FsCall.copyAttachment (pf.filePath (pf.concatenateFilePath d n) name)
         (pf.renameIfExistsCaseInsensitive fs (pf.filePath (pf.concatenateFilePath d n) rel))] := by
  simp only [ordered, FsCall.placed, FsCall.creates, List.append_nil]
  exact ⟨trivial, ⟨d, hd, n, rfl⟩, ⟨_, by simp, name, rfl⟩, ⟨_, by simp, name, rfl⟩, trivial,
    ⟨_, by simp, ⟨name, rfl⟩, rel, fs, rfl⟩, trivial⟩

/-- The calls of the Markdown handler are ordered below its destination directory. -/
theorem doExportMarkdown_ordered (pf : Platform σ) (opt : ExportOption) (d : String)
    (file : File) (s : ExportState σ) (c : List String) (hd : d ∈ c) :
    OrderedFrom pf c s (doExportMarkdown pf opt d file s).2 := by
  by_cases hmd : file.isMarkdown = false
  · exact ⟨[], by simp [doExportMarkdown, hmd, ExportState.logRequested], trivial⟩
  · by_cases hmk : (pf.mkpath (outputFolderOf pf d file.name s) s.fs).1 = true
    · have hmd' : file.isMarkdown = true := by simpa using hmd
      have hcalls := doExportMarkdown_calls pf opt d file s hmd' hmk
      by_cases ha : opt.m_exportAttachments = true ∧ file.node.attachmentFolder ≠ ""
      · refine ⟨_, ?_, ordered_primary_attach pf c d
          (pf.generateFileNameWithSequence s.fs d file.name "") file.name file.filePath
          (attachmentRel pf file) (primaryCopied pf d file s).fs hd⟩
        rw [hcalls]
        simp [ha, primaryCopied, ExportState.called, attachmentTarget, outputFolderOf]
      · refine ⟨_, ?_, ordered_primary pf c d
          (pf.generateFileNameWithSequence s.fs d file.name "") file.name file.filePath hd⟩
        rw [hcalls]
        simp [ha, primaryCopied, ExportState.called, outputFolderOf]
    · have hmk' : (pf.mkpath (pf.concatenateFilePath d
          (pf.generateFileNameWithSequence s.fs d file.name "")) s.fs).1 = false := by
        simpa [outputFolderOf] using hmk
      refine ⟨[FsCall.generateFileNameWithSequence d file.name "",
          FsCall.mkpath (outputFolderOf pf d file.name s) false], ?_, ?_⟩
      · simp [doExportMarkdown, hmd, hmk', ExportState.logRequested, ExportState.called,
          outputFolderOf]
      · simp only [ordered, FsCall.placed, FsCall.creates, List.append_nil]
        exact ⟨trivial, ⟨d, hd, _, rfl⟩, trivial⟩

/-- The HTML handler makes at most a name query. -/
theorem doExportHtml_ordered (pf : Platform σ) (opt : ExportOption) (d : String)
    (file : File) (s : ExportState σ) (c : List String) :
    OrderedFrom pf c s (doExportHtml pf opt d file s).2 := by
  by_cases hmd : file.isMarkdown = false
  · exact ⟨[], by simp [doExportHtml, hmd, ExportState.logRequested], trivial⟩
  · refine ⟨[FsCall.generateFileNameWithSequence d (pf.completeBaseName file.name)
        (if opt.m_htmlOption.m_useMimeHtmlFormat = true then ".mht" else ".html")], ?_, ?_⟩
    · simp [doExportHtml, hmd, ExportState.called]
    · simp only [ordered, FsCall.placed]
      exact ⟨trivial, trivial⟩

/-- The calls of the file export are ordered below its destination directory. -/
theorem doExportFile_ordered (pf : Platform σ) (opt : ExportOption) (d : String)
    (file : File) (s : ExportState σ) (c : List String) (hd : d ∈ c) :
    OrderedFrom pf c s (doExportFile pf opt d file s).2 := by
  have hdis : OrderedFrom pf c s (dispatchFormat pf opt d file s).2 := by
    unfold dispatchFormat
    split
    · exact doExportMarkdown_ordered pf opt d file s c hd
    · exact doExportHtml_ordered pf opt d file s c
    · exact ⟨[], by simp [ExportState.logRequested], trivial⟩
  apply orderedFrom_of_calls_eq pf hdis
  simp only [doExportFile]
  split_ifs <;> rfl

/-- The calls of the content-file step are ordered below the output folder. -/
theorem exportChildContent_ordered (pf : Platform σ) (opt : ExportOption) (d : String)
    (child : Node) (acc : List String) (s : ExportState σ) (c : List String) (hd : d ∈ c) :
    OrderedFrom pf c s (exportChildContent pf opt d child acc s).2 := by
  unfold exportChildContent
  cases child.contentFile with
  | none => exact orderedFrom_refl pf c s
  | some file =>
    simp only
    split_ifs <;> exact doExportFile_ordered pf opt d file s c hd

/-- The calls of the folder loop are ordered below the output folder, given
that those of the folder export of each child are ordered below its destination. -/
theorem folderLoop_ordered (pf : Platform σ) (opt : ExportOption) (outputFolder : String)
    (total : Nat) (c : List String) (hd : outputFolder ∈ c) :
    ∀ (cs : List Node),
      (∀ x ∈ cs, ∀ (d : String) (s : ExportState σ) (c : List String), d ∈ c →
        OrderedFrom pf c s (doExportFolderIn pf opt d x s).2) →
      ∀ (i : Nat) (acc : List String) (s : ExportState σ),
        OrderedFrom pf c s (folderLoop pf opt outputFolder total i cs acc s).2 := by
  intro cs
  induction cs with
  | nil => intro _ i acc s; exact orderedFrom_refl pf c s
  | cons child rest ih =>
    intro hcs i acc s
    have hrest := ih (fun x hx => hcs x (List.mem_cons_of_mem _ hx))
    have hchild := hcs child (List.mem_cons_self _ _)
    have h1 := exportChildContent_ordered pf opt outputFolder child acc s c hd
    rw [folderLoop]
    split
    · exact orderedFrom_trans pf
        (orderedFrom_of_calls_eq pf (orderedFrom_trans pf h1 (hchild outputFolder _ c hd))
          (ExportState.progressUpdated _ (i + 1) total) rfl)
        (hrest _ _ _)
    · exact orderedFrom_trans pf
        (orderedFrom_of_calls_eq pf h1 (ExportState.progressUpdated _ (i + 1) total) rfl)
        (hrest _ _ _)

/-- The calls of the folder export, given that those of each child's folder
export are ordered: the name query, the `mkpath` of the output folder and, when
that succeeds, calls ordered below the output folder; nothing when it fails. -/
theorem doExportFolderIn_body (pf : Platform σ) (opt : ExportOption) (n : String) (cf : Bool)
    (u : Use) (f : Option File) (cs : List Node)
    (hcs : ∀ x ∈ cs, ∀ (d : String) (s : ExportState σ) (c : List String), d ∈ c →
      OrderedFrom pf c s (doExportFolderIn pf opt d x s).2)
    (d : String) (s : ExportState σ) (c0 : List String) :
    ∃ ok rest, (doExportFolderIn pf opt d (Node.mk n cf u f cs) s).2.calls
        = s.calls ++ FsCall.generateFileNameWithSequence d n ""
            :: FsCall.mkpath (outputFolderOf pf d n s) ok :: rest ∧
      (ok = true → ordered pf (c0 ++ [outputFolderOf pf d n s]) rest) ∧
      (ok = false → rest = []) := by
  by_cases hmk : (pf.mkpath (outputFolderOf pf d n s) s.fs).1 = true
  · have hok := doExportFolderIn_ok pf opt d (Node.mk n cf u f cs) s hmk
    simp only [Node.name, Node.children] at hok
    obtain ⟨rest, hrest, hord⟩ := folderLoop_ordered pf opt (outputFolderOf pf d n s) cs.length
      (c0 ++ [outputFolderOf pf d n s]) (by simp) cs hcs 0 [] (loopStart pf d n cs.length s)
    refine ⟨true, rest, ?_, ?_, ?_⟩
    · rw [hok, hrest]
      simp [loopStart, ExportState.progressUpdated, ExportState.called]
    · intro _; exact hord
    · intro h; cases h
  · have hmk' : (pf.mkpath (pf.concatenateFilePath d
        (pf.generateFileNameWithSequence s.fs d n "")) s.fs).1 = false := by
      simpa [outputFolderOf] using hmk
    refine ⟨false, [], ?_, ?_, ?_⟩
    · rw [doExportFolderIn]
      simp [hmk', ExportState.logRequested, ExportState.called, outputFolderOf]
    · intro h; cases h
    · intro _; rfl

/-- The calls of a nested folder export are ordered below its destination. -/
theorem doExportFolderIn_ordered (pf : Platform σ) (opt : ExportOption) :
    ∀ (x : Node) (d : String) (s : ExportState σ) (c : List String), d ∈ c →
      OrderedFrom pf c s (doExportFolderIn pf opt d x s).2 := by
  intro x
  induction x using node_induct with
  | step n cf u f cs ih =>
    intro d s c hd
    obtain ⟨ok, rest, hcalls, htrue, hfalse⟩ := doExportFolderIn_body pf opt n cf u f cs ih d s c
    refine ⟨_, hcalls, ?_⟩
    cases ok with
    | true =>
      simp only [ordered, FsCall.placed, FsCall.creates, List.append_nil]
      exact ⟨trivial, ⟨d, hd, _, rfl⟩, htrue rfl⟩
    | false =>
      rw [hfalse rfl]
      simp only [ordered, FsCall.placed, FsCall.creates, List.append_nil]
      exact ⟨trivial, ⟨d, hd, _, rfl⟩, trivial⟩

/-- The calls of the notebook loop are ordered below the output folder. -/
theorem notebookLoop_ordered (pf : Platform σ) (opt : ExportOption) (outputFolder : String)
    (total : Nat) (c : List String) (hd : outputFolder ∈ c) :
    ∀ (cs : List Node) (i : Nat) (acc : List String) (s : ExportState σ),
      OrderedFrom pf c s (notebookLoop pf opt outputFolder total i cs acc s).2 := by
  intro cs
  induction cs with
  | nil => intro i acc s; exact orderedFrom_refl pf c s
  | cons child rest ih =>
    intro i acc s
    have h1 := exportChildContent_ordered pf opt outputFolder child acc s c hd
    rw [notebookLoop]
    split
    · exact orderedFrom_trans pf
        (orderedFrom_of_calls_eq pf
          (orderedFrom_trans pf h1 (doExportFolderIn_ordered pf opt child outputFolder _ c hd))
          (ExportState.progressUpdated _ (i + 1) total) rfl)
        (ih _ _ _)
    · exact orderedFrom_trans pf
        (orderedFrom_of_calls_eq pf h1 (ExportState.progressUpdated _ (i + 1) total) rfl)
        (ih _ _ _)

/-- The calls of a whole folder export are in rooted parent-before-child order. -/
theorem doExportFolder_rooted (pf : Platform σ) (opt : ExportOption) (folder : Node)
    (s : ExportState σ) :
    ∃ extra, (doExportFolder pf opt folder s).2.calls = s.calls ++ extra ∧
      rootedOrder pf extra := by
  cases folder with
  | mk n cf u f cs =>
    obtain ⟨ok, rest, hcalls, htrue, hfalse⟩ := doExportFolderIn_body pf opt n cf u f cs
      (fun x _ => doExportFolderIn_ordered pf opt x) opt.m_outputDir s []
    refine ⟨_, hcalls, ?_⟩
    cases ok with
    | true => simpa [rootedOrder] using htrue rfl
    | false => simpa [rootedOrder] using hfalse rfl

/-- Once its output directory is made, the notebook export is its loop. -/
theorem doExportNotebook_ok (pf : Platform σ) (opt : ExportOption) (nb : Notebook)
    (s : ExportState σ)
    (hmk : (pf.mkpath (outputFolderOf pf opt.m_outputDir ("notebook_" ++ nb.name) s) s.fs).1
      = true) :
    doExportNotebook pf opt nb s
      = notebookLoop pf opt (outputFolderOf pf opt.m_outputDir ("notebook_" ++ nb.name) s)
          nb.rootNode.children.length 0 nb.rootNode.children []
          (loopStart pf opt.m_outputDir ("notebook_" ++ nb.name)
            nb.rootNode.children.length s) := by
  have hmk2 : (pf.mkpath (pf.concatenateFilePath opt.m_outputDir
      (pf.generateFileNameWithSequence s.fs opt.m_outputDir ("notebook_" ++ nb.name) ""))
      (s.called (.generateFileNameWithSequence opt.m_outputDir ("notebook_" ++ nb.name) "")
        s.fs).fs).1 = true := hmk
  simp only [doExportNotebook, hmk2, Bool.true_eq_false, if_false]
  rfl

/-- The calls of a whole notebook export are in rooted parent-before-child order. -/
theorem doExportNotebook_rooted (pf : Platform σ) (opt : ExportOption) (nb : Notebook)
    (s : ExportState σ) :
    ∃ extra, (doExportNotebook pf opt nb s).2.calls = s.calls ++ extra ∧
      rootedOrder pf extra := by
  by_cases hmk : (pf.mkpath (outputFolderOf pf opt.m_outputDir ("notebook_" ++ nb.name) s)
      s.fs).1 = true
  · obtain ⟨rest, hrest, hord⟩ := notebookLoop_ordered pf opt
      (outputFolderOf pf opt.m_outputDir ("notebook_" ++ nb.name) s)
      nb.rootNode.children.length
      [outputFolderOf pf opt.m_outputDir ("notebook_" ++ nb.name) s]
      (by simp) nb.rootNode.children 0 []
      (loopStart pf opt.m_outputDir ("notebook_" ++ nb.name) nb.rootNode.children.length s)
    refine ⟨FsCall.generateFileNameWithSequence opt.m_outputDir ("notebook_" ++ nb.name) ""
      :: FsCall.mkpath (outputFolderOf pf opt.m_outputDir ("notebook_" ++ nb.name) s) true
      :: rest, ?_, by simpa [rootedOrder] using hord⟩
    rw [doExportNotebook_ok pf opt nb s hmk, hrest]
    simp [loopStart, ExportState.progressUpdated, ExportState.called]
  · have hmk' : (pf.mkpath (pf.concatenateFilePath opt.m_outputDir
        (pf.generateFileNameWithSequence s.fs opt.m_outputDir ("notebook_" ++ nb.name) ""))
        s.fs).1 = false := by simpa [outputFolderOf] using hmk
    refine ⟨[FsCall.generateFileNameWithSequence opt.m_outputDir ("notebook_" ++ nb.name) "",
      FsCall.mkpath (pf.concatenateFilePath opt.m_outputDir
        (pf.generateFileNameWithSequence s.fs opt.m_outputDir ("notebook_" ++ nb.name) ""))
        false], ?_, by simp [rootedOrder]⟩
    simp [doExportNotebook, hmk', ExportState.logRequested, ExportState.called]

/-- The calls of a whole buffer export are in rooted parent-before-child order. -/
theorem doExportBuffer_rooted (pf : Platform σ) (opt : ExportOption) (b : Buffer)
    (s : ExportState σ) :
    ∃ extra, (doExportBuffer pf opt b s).2.calls = s.calls ++ extra ∧
      rootedOrder pf extra := by
  unfold doExportBuffer
  cases b.file with
  | none => exact ⟨[], by simp [ExportState.logRequested], trivial⟩
  | some file =>
    by_cases hmk : (pf.mkpath opt.m_outputDir s.fs).1 = true
    · obtain ⟨rest, hrest, hord⟩ := doExportFile_ordered pf opt opt.m_outputDir file
        (s.called (.mkpath opt.m_outputDir true) (pf.mkpath opt.m_outputDir s.fs).2)
        [opt.m_outputDir] (by simp)
      refine ⟨FsCall.mkpath opt.m_outputDir true :: rest, ?_, by simpa [rootedOrder] using hord⟩
      simp only [hmk, Bool.true_eq_false, if_false]
      rw [hrest]
      simp [ExportState.called]
    · have hmk' : (pf.mkpath opt.m_outputDir s.fs).1 = false := by simpa using hmk
      exact ⟨[FsCall.mkpath opt.m_outputDir false],
        by simp [hmk', ExportState.logRequested, ExportState.called], by simp [rootedOrder]⟩

/-- A copy before any directory is made, and a copy after the failed creation
of the root, are not in parent-before-child order. -/
theorem rootedOrder_rejects (pf : Platform σ) (src dest root : String) :
    ¬ rootedOrder pf [FsCall.copyFile src dest false] ∧
    ¬ rootedOrder pf [FsCall.mkpath root false, FsCall.copyFile src dest false] ∧
    ¬ ordered pf [] [FsCall.copyFile src dest false] := by
  simp [rootedOrder, ordered, FsCall.placed]

/-- A folder export whose output folder cannot be made returns nothing and
makes no call after the failed `mkpath`. -/
theorem doExportFolderIn_failed (pf : Platform σ) (opt : ExportOption) (d : String)
    (folder : Node) (s : ExportState σ)
    (hmk : (pf.mkpath (outputFolderOf pf d folder.name s) s.fs).1 = false) :
    (doExportFolderIn pf opt d folder s).1 = [] ∧
    (doExportFolderIn pf opt d folder s).2.calls
      = s.calls ++ [FsCall.generateFileNameWithSequence d folder.name "",
          FsCall.mkpath (outputFolderOf pf d folder.name s) false] := by
  cases folder with
  | mk n cf u f cs =>
    have hmk' : (pf.mkpath (pf.concatenateFilePath d
        (pf.generateFileNameWithSequence s.fs d n "")) s.fs).1 = false := hmk
    rw [doExportFolderIn]
    constructor <;>
      simp [hmk', ExportState.logRequested, ExportState.called, outputFolderOf, Node.name]

/-- C12 (parent-before-child write order). For every platform, options value and
state, the filesystem calls made by `doExport` on a buffer, on a folder and on
a notebook are in rooted parent-before-child order: after the name query the
first `mkpath` makes the root of the export; every later `mkpath` makes
`concatenateFilePath q name`, every file and media copy targets
`filePath q name`, and every attachment copy goes to the renamed
`filePath q rel`, for a directory `q` whose `mkpath` succeeded earlier in the
same sequence; and a failed creation is the last call of the export that
attempted it: the Markdown handler and the folder export make no further call
after a failed `mkpath`, and nothing follows a failed root. -/
theorem parent_before_child (pf : Platform σ) (opt : ExportOption) (s : ExportState σ) :
    (∀ (b : Buffer), ∃ extra,
      (doExportBuffer pf opt b s).2.calls = s.calls ++ extra ∧ rootedOrder pf extra) ∧
    (∀ (folder : Node), ∃ extra,
      (doExportFolder pf opt folder s).2.calls = s.calls ++ extra ∧ rootedOrder pf extra) ∧
    (∀ (nb : Notebook), ∃ extra,
      (doExportNotebook pf opt nb s).2.calls = s.calls ++ extra ∧ rootedOrder pf extra) ∧
    (∀ (d : String) (file : File), file.isMarkdown = true →
      (pf.mkpath (outputFolderOf pf d file.name s) s.fs).1 = false →
      (doExportMarkdown pf opt d file s).1 = "" ∧
      (doExportMarkdown pf opt d file s).2.calls
        = s.calls ++ [FsCall.generateFileNameWithSequence d file.name "",
            FsCall.mkpath (outputFolderOf pf d file.name s) false]) ∧
    (∀ (d : String) (folder : Node),
      (pf.mkpath (outputFolderOf pf d folder.name s) s.fs).1 = false →
      (doExportFolderIn pf opt d folder s).1 = [] ∧
      (doExportFolderIn pf opt d folder s).2.calls
        = s.calls ++ [FsCall.generateFileNameWithSequence d folder.name "",
            FsCall.mkpath (outputFolderOf pf d folder.name s) false]) := by
  refine ⟨fun b => doExportBuffer_rooted pf opt b s,
    fun folder => doExportFolder_rooted pf opt folder s,
    fun nb => doExportNotebook_rooted pf opt nb s, ?_, ?_⟩
  · intro d file hmd hmk
    have hmk' : (pf.mkpath (pf.concatenateFilePath d
        (pf.generateFileNameWithSequence s.fs d file.name "")) s.fs).1 = false := hmk
    constructor <;>
      simp [doExportMarkdown, hmd, hmk', ExportState.logRequested, ExportState.called,
        outputFolderOf]
  · intro d folder hmk
    exact doExportFolderIn_failed pf opt d folder s hmk

/-- Witness of C12: the folder with an attachment-carrying document and a
sub-folder that cannot be created, exported with attachments. -/
theorem parent_before_child_witness :
    (∃ extra,
      (doExportFolder specPlatform attachmentOption attachmentFolderTree
          (ExportState.init diskRefusingSub)).2.calls
        = (ExportState.init diskRefusingSub).calls ++ extra ∧
      rootedOrder specPlatform extra) ∧
    (doExportFolder specPlatform attachmentOption attachmentFolderTree
        (ExportState.init diskRefusingSub)).2.calls
      = [FsCall.generateFileNameWithSequence "/out" "Notes" "",
         FsCall.mkpath "/out/Notes" true,
         FsCall.generateFileNameWithSequence "/out/Notes" "a.md" "",
         FsCall.mkpath "/out/Notes/a.md" true,
         FsCall.copyFile "/nb/a.md" "/out/Notes/a.md/a.md" false,
         FsCall.copyMediaFiles "/nb/a.md" "/out/Notes/a.md/a.md",
         FsCall.renameIfExistsCaseInsensitive "/out/Notes/a.md/vx_attachments/att1",
         FsCall.copyAttachment "/out/Notes/a.md/a.md" "/out/Notes/a.md/vx_attachments/att1",
         FsCall.generateFileNameWithSequence "/out/Notes" "Sub" "",
         FsCall.mkpath "/out/Notes/Sub" false] :=
  ⟨(parent_before_child specPlatform attachmentOption
      (ExportState.init diskRefusingSub)).2.1 attachmentFolderTree,
   by decide⟩

/-! ### The name generator of the reference platform -/

theorem digitChar_value (d : Nat) (h : d < 10) : (Nat.digitChar d).toNat - 48 = d := by
  interval_cases d <;> rfl

theorem digitChar_ne_slash (d : Nat) (h : d < 10) : Nat.digitChar d ≠ '/' := by
  interval_cases d <;> decide

theorem toDigitsCore_append (fuel : Nat) : ∀ (n : Nat) (ds : List Char),
    Nat.toDigitsCore 10 fuel n ds = Nat.toDigitsCore 10 fuel n [] ++ ds := by
  induction fuel with
  | zero => intro n ds; simp [Nat.toDigitsCore]
  | succ fuel ih =>
    intro n ds
    simp only [Nat.toDigitsCore]
    split
    · simp
    · rw [ih (n / 10) (Nat.digitChar (n % 10) :: ds), ih (n / 10) [Nat.digitChar (n % 10)]]
      simp

/-- Reading back the decimal digits of a number gives the number. -/
theorem decimalValue_toDigitsCore (fuel : Nat) : ∀ n, n < fuel →
    decimalValue (Nat.toDigitsCore 10 fuel n []) = n := by
  induction fuel with
  | zero => intro n h; omega
  | succ fuel ih =>
    intro n h
    simp only [Nat.toDigitsCore]
    split
    · rename_i h0
      have : n < 10 := by omega
      simp [decimalValue, digitChar_value n this, Nat.mod_eq_of_lt this]
    · rename_i h0
      rw [toDigitsCore_append]
      have hlt : n / 10 < fuel := by omega
      have := ih (n / 10) hlt
      simp only [decimalValue, List.foldl_append, List.foldl_cons, List.foldl_nil] at this ⊢
      rw [this, digitChar_value _ (Nat.mod_lt _ (by decide))]
      omega

theorem toDigitsCore_no_slash (fuel : Nat) : ∀ n, '/' ∉ Nat.toDigitsCore 10 fuel n [] := by
  induction fuel with
  | zero => intro n; simp [Nat.toDigitsCore]
  | succ fuel ih =>
    intro n
    simp only [Nat.toDigitsCore]
    have hd := digitChar_ne_slash (n % 10) (Nat.mod_lt _ (by decide))
    split
    · simpa using hd.symm
    · rw [toDigitsCore_append]
      simp only [List.mem_append, List.mem_singleton, not_or]
      exact ⟨ih _, hd.symm⟩

/-- Different numbers have different decimal representations. -/
theorem toString_data_injective {a b : Nat} (h : (toString a).data = (toString b).data) :
    a = b := by
  have h' : Nat.toDigits 10 a = Nat.toDigits 10 b := h
  have ha := decimalValue_toDigitsCore (a + 1) a (by omega)
  have hb := decimalValue_toDigitsCore (b + 1) b (by omega)
  unfold Nat.toDigits at h'
  rw [h'] at ha
  omega

/-- No slash occurs in the decimal representation of a number. -/
theorem toString_no_slash (a : Nat) : '/' ∉ (toString a).data :=
  toDigitsCore_no_slash (a + 1) a

/-- The search for a free name returns a suffixed name that is not used, or the
fallback when every suffixed name it tried is used. -/
theorem firstFreeName_spec (used : String → Bool) (base suffix fallback : String) :
    ∀ (fuel k : Nat),
      (∃ j, k ≤ j ∧ j < k + fuel ∧
        firstFreeName used base suffix fallback k fuel = base ++ "_" ++ toString j ++ suffix ∧
        used (base ++ "_" ++ toString j ++ suffix) = false) ∨
      (firstFreeName used base suffix fallback k fuel = fallback ∧
        ∀ j, k ≤ j → j < k + fuel → used (base ++ "_" ++ toString j ++ suffix) = true) := by
  intro fuel
  induction fuel with
  | zero =>
    intro k
    exact Or.inr ⟨rfl, fun j h1 h2 => by omega⟩
  | succ fuel ih =>
    intro k
    rw [firstFreeName]
    by_cases hu : used (base ++ "_" ++ toString k ++ suffix) = true
    · simp only [hu, if_true]
      rcases ih (k + 1) with ⟨j, h1, h2, h3, h4⟩ | ⟨h3, h4⟩
      · exact Or.inl ⟨j, by omega, by omega, h3, h4⟩
      · refine Or.inr ⟨h3, fun j h1 h2 => ?_⟩
        by_cases hjk : j = k
        · rw [hjk]; exact hu
        · exact h4 j (by omega) (by omega)
    · have hu' : used (base ++ "_" ++ toString k ++ suffix) = false := by simpa using hu
      simp only [hu', if_false]
      exact Or.inl ⟨k, by omega, by omega, rfl, hu'⟩

/-- The suffixed names of different numbers name different paths. -/
theorem candidate_injective (folder base suffix : String) :
    Function.Injective
      (fun j : Nat => folder ++ "/" ++ (base ++ "_" ++ toString j ++ suffix)) := by
  intro a b h
  have hd := congrArg String.data h
  simp only [String.data_append] at hd
  have h1 := List.append_cancel_left hd
  have h2 := List.append_cancel_right h1
  have h3 := List.append_cancel_left h2
  exact toString_data_injective h3

/-- A disk cannot hold the suffixed names of more numbers than it has entries. -/
theorem candidates_not_all_used (d : Disk) (folder base suffix : String)
    (h : ∀ j, 1 ≤ j → j < 1 + (d.entries.length + 1) →
      d.has (folder ++ "/" ++ (base ++ "_" ++ toString j ++ suffix)) = true) : False := by
  have hnodup : ((List.range (d.entries.length + 1)).map
      (fun i : Nat => folder ++ "/" ++ (base ++ "_" ++ toString (i + 1) ++ suffix))).Nodup := by
    apply List.Nodup.map _ (List.nodup_range _)
    intro a b hab
    have := candidate_injective folder base suffix hab
    omega
  have hsub : (List.range (d.entries.length + 1)).map
      (fun i : Nat => folder ++ "/" ++ (base ++ "_" ++ toString (i + 1) ++ suffix))
      ⊆ d.entries := by
    intro x hx
    obtain ⟨i, hi, rfl⟩ := List.mem_map.mp hx
    have hi' := List.mem_range.mp hi
    have := h (i + 1) (by omega) (by omega)
    simpa [Disk.has] using this
  have hlen := (List.subperm_of_subset hnodup hsub).length_le
  simp at hlen

/-- The name generator behaves as specified: the name it returns is not the
name of an entry of the folder. -/
theorem generate_fresh (d : Disk) (folder base suffix : String) :
    d.has (folder ++ "/" ++ specPlatform.generateFileNameWithSequence d folder base suffix)
      = false := by
  simp only [specPlatform]
  by_cases hu : d.has (folder ++ "/" ++ (base ++ suffix)) = true
  · simp only [hu, if_true]
    rcases firstFreeName_spec (fun n => d.has (folder ++ "/" ++ n)) base suffix
        (base ++ suffix) (d.entries.length + 1) 1 with ⟨j, _, _, h3, h4⟩ | ⟨_, h4⟩
    · rw [h3]; exact h4
    · exact absurd h4 (fun h => candidates_not_all_used d folder base suffix h)
  · have hu' : d.has (folder ++ "/" ++ (base ++ suffix)) = false := by simpa using hu
    simp only [hu', Bool.false_eq_true, if_false]

/-- The name generated without suffix is the base name followed by a slash-free tail. -/
theorem generate_form (d : Disk) (folder base : String) :
    ∃ t : String, specPlatform.generateFileNameWithSequence d folder base "" = base ++ t ∧
      '/' ∉ t.data := by
  simp only [specPlatform]
  by_cases hu : d.has (folder ++ "/" ++ (base ++ "")) = true
  · simp only [hu, if_true]
    rcases firstFreeName_spec (fun n => d.has (folder ++ "/" ++ n)) base ""
        (base ++ "") (d.entries.length + 1) 1 with ⟨j, _, _, h3, _⟩ | ⟨h3, _⟩
    · refine ⟨"_" ++ toString j, ?_, ?_⟩
      · rw [h3]; simp [String.append_assoc]
      · simp only [String.data_append, List.mem_append, not_or]
        exact ⟨by decide, toString_no_slash j⟩
    · exact ⟨"", by rw [h3], by simp⟩
  · have hu' : d.has (folder ++ "/" ++ (base ++ "")) = false := by simpa using hu
    simp only [hu', Bool.false_eq_true, if_false]
    exact ⟨"", rfl, by simp⟩

/-! ### Paths below a directory -/

theorem under_join (q n : String) : Under q (q ++ "/" ++ n) := by
  unfold Under
  simp only [String.data_append]
  exact List.prefix_append _ _

theorem under_join_of_under {root q : String} (n : String) (h : Under root q) :
    Under root (q ++ "/" ++ n) := by
  unfold Under at h ⊢
  simp only [String.data_append, List.append_assoc]
  exact h.trans (List.prefix_append _ _)

/-- Two slash-free lists followed by a slash and anything are equal as soon as
the wholes are. -/
theorem split_at_slash : ∀ (a b x y : List Char), '/' ∉ a → '/' ∉ b →
    a ++ '/' :: x = b ++ '/' :: y → a = b
  | [], [], _, _, _, _, _ => rfl
  | [], c :: b, x, y, _, hb, h => by
    simp only [List.nil_append, List.cons_append, List.cons.injEq] at h
    exact absurd (h.1 ▸ List.mem_cons_self _ _) hb
  | c :: a, [], x, y, ha, _, h => by
    simp only [List.nil_append, List.cons_append, List.cons.injEq] at h
    exact absurd (h.1 ▸ List.mem_cons_self _ _) ha
  | c :: a, e :: b, x, y, ha, hb, h => by
    simp only [List.cons_append, List.cons.injEq] at h
    have := split_at_slash a b x y (fun hm => ha (List.mem_cons_of_mem _ hm))
      (fun hm => hb (List.mem_cons_of_mem _ hm)) h.2
    rw [h.1, this]

/-- A path lies below at most one of the directories named from one base name
with slash-free tails. -/
theorem under_apart (d base t1 t2 p : String) (h1 : '/' ∉ t1.data) (h2 : '/' ∉ t2.data)
    (hp1 : Under (d ++ "/" ++ (base ++ t1)) p) (hp2 : Under (d ++ "/" ++ (base ++ t2)) p) :
    t1 = t2 := by
  obtain ⟨x, hx⟩ := hp1
  obtain ⟨y, hy⟩ := hp2
  have h := hx.trans hy.symm
  simp only [String.data_append, List.append_assoc] at h
  have h3 := List.append_cancel_left (List.append_cancel_left (List.append_cancel_left h))
  exact String.ext (split_at_slash _ _ _ _ h1 h2 h3)

/-! ### What the exporter keeps of the filesystem -/

theorem exportAttachments_rel (pf : Platform σ) {R : σ → σ → Prop} (hR : Preserved pf R)
    (node : OwnerNode) (a b c : String) (s : ExportState σ) :
    R s.fs (exportAttachments pf node a b c s).fs := by
  unfold exportAttachments
  split
  · exact hR.refl _
  · exact hR.copyAttachment _ _ _ _

theorem doExportMarkdown_rel (pf : Platform σ) {R : σ → σ → Prop} (hR : Preserved pf R)
    (opt : ExportOption) (d : String) (file : File) (s : ExportState σ) :
    R s.fs (doExportMarkdown pf opt d file s).2.fs := by
  by_cases hmd : file.isMarkdown = false
  · simp only [doExportMarkdown, hmd, if_true]
    exact hR.refl _
  · by_cases hmk : (pf.mkpath (outputFolderOf pf d file.name s) s.fs).1 = true
    · have hmd' : file.isMarkdown = true := by simpa using hmd
      rw [doExportMarkdown_success pf opt d file s hmd' hmk]
      have hbase : R s.fs (primaryCopied pf d file s).fs :=
        hR.trans _ _ _ (hR.mkpath _ _)
          (hR.trans _ _ _ (hR.copyFile _ _ _ _) (hR.copyMediaFiles _ _ _))
      simp only
      split
      · exact hR.trans _ _ _ hbase (exportAttachments_rel pf hR _ _ _ _ _)
      · exact hbase
    · have hmk' : (pf.mkpath (pf.concatenateFilePath d
          (pf.generateFileNameWithSequence s.fs d file.name "")) s.fs).1 = false := by
        simpa [outputFolderOf] using hmk
      simp only [doExportMarkdown, hmd, if_false, ExportState.called, hmk', if_true,
        ExportState.logRequested]
      exact hR.mkpath _ _

theorem doExportFile_rel (pf : Platform σ) {R : σ → σ → Prop} (hR : Preserved pf R)
    (opt : ExportOption) (d : String) (file : File) (s : ExportState σ) :
    R s.fs (doExportFile pf opt d file s).2.fs := by
  have hdis : R s.fs (dispatchFormat pf opt d file s).2.fs := by
    unfold dispatchFormat
    split
    · exact doExportMarkdown_rel pf hR opt d file s
    · rw [(doExportHtml_empty pf opt d file s).2.1]; exact hR.refl _
    · exact hR.refl _
  simp only [doExportFile]
  split_ifs <;> exact hdis

theorem exportChildContent_rel (pf : Platform σ) {R : σ → σ → Prop} (hR : Preserved pf R)
    (opt : ExportOption) (d : String) (child : Node) (acc : List String) (s : ExportState σ) :
    R s.fs (exportChildContent pf opt d child acc s).2.fs := by
  unfold exportChildContent
  cases child.contentFile with
  | none => exact hR.refl _
  | some file =>
    simp only
    split_ifs <;> exact doExportFile_rel pf hR opt d file s

theorem folderLoop_rel (pf : Platform σ) {R : σ → σ → Prop} (hR : Preserved pf R)
    (opt : ExportOption) (outputFolder : String) (total : Nat) :
    ∀ (cs : List Node),
      (∀ x ∈ cs, ∀ (d : String) (s : ExportState σ),
        R s.fs (doExportFolderIn pf opt d x s).2.fs) →
      ∀ (i : Nat) (acc : List String) (s : ExportState σ),
        R s.fs (folderLoop pf opt outputFolder total i cs acc s).2.fs := by
  intro cs
  induction cs with
  | nil => intro _ i acc s; exact hR.refl _
  | cons child rest ih =>
    intro hcs i acc s
    have hrest := ih (fun x hx => hcs x (List.mem_cons_of_mem _ hx))
    have hchild := hcs child (List.mem_cons_self _ _)
    have h1 := exportChildContent_rel pf hR opt outputFolder child acc s
    rw [folderLoop]
    split
    · refine hR.trans _ _ _ ?_ (hrest _ _ _)
      exact hR.trans _ _ _ h1
        (hchild outputFolder (exportChildContent pf opt outputFolder child acc s).2)
    · refine hR.trans _ _ _ ?_ (hrest _ _ _)
      exact h1

theorem doExportFolderIn_rel (pf : Platform σ) {R : σ → σ → Prop} (hR : Preserved pf R)
    (opt : ExportOption) :
    ∀ (x : Node) (d : String) (s : ExportState σ),
      R s.fs (doExportFolderIn pf opt d x s).2.fs := by
  intro x
  induction x using node_induct with
  | step n cf u f cs ih =>
    intro d s
    rw [doExportFolderIn]
    split
    · exact hR.mkpath _ _
    · refine hR.trans _ _ _ ?_ (folderLoop_rel pf hR opt _ _ cs ih _ _ _)
      exact hR.mkpath _ _

theorem disk_add_has (d : Disk) (p q : String) (h : d.has q = true) : (d.add p).has q = true := by
  unfold Disk.add
  split
  · exact h
  · simp only [Disk.has, List.contains_eq_any_beq, List.any_append, Bool.or_eq_true] at h ⊢
    exact Or.inl h

theorem disk_add_self (d : Disk) (p : String) : (d.add p).has p = true := by
  unfold Disk.add
  split
  · assumption
  · simp [Disk.has]

/-- The reference platform never removes an entry. -/
theorem specPlatform_keeps : Preserved specPlatform keepsEntries where
  refl := fun _ _ h => h
  trans := fun _ _ _ h1 h2 p h => h2 p (h1 p h)
  mkpath := by
    intro p fs q h
    simp only [specPlatform]
    split
    · exact h
    · exact disk_add_has fs p q h
  copyFile := fun _ b _ fs q h => disk_add_has fs b q h
  copyMediaFiles := fun _ _ _ _ h => h
  copyAttachment := fun _ _ b fs q h => disk_add_has fs b q h

/-! ### Where the reference platform puts the output -/

theorem under_of_under_join {d n p : String} (h : Under (d ++ "/" ++ n) p) : Under d p := by
  unfold Under at h ⊢
  refine List.IsPrefix.trans ?_ h
  exact ⟨n.data ++ ['/'], by simp [String.data_append]⟩

/-- A path returned by the Markdown handler lies below the destination. -/
theorem doExportMarkdown_under (opt : ExportOption) (d : String) (file : File)
    (s : ExportState Disk) (h : (doExportMarkdown specPlatform opt d file s).1 ≠ "") :
    Under d (doExportMarkdown specPlatform opt d file s).1 := by
  by_cases hmd : file.isMarkdown = false
  · simp [doExportMarkdown, hmd] at h
  · by_cases hmk : (specPlatform.mkpath (outputFolderOf specPlatform d file.name s) s.fs).1 = true
    · have hmd' : file.isMarkdown = true := by simpa using hmd
      rw [doExportMarkdown_success specPlatform opt d file s hmd' hmk]
      exact under_join_of_under file.name (under_join d _)
    · have hmk' : (specPlatform.mkpath (specPlatform.concatenateFilePath d
          (specPlatform.generateFileNameWithSequence s.fs d file.name "")) s.fs).1 = false := by
        simpa [outputFolderOf] using hmk
      simp [doExportMarkdown, hmd, hmk', ExportState.called] at h

/-- A path returned by the file export lies below the destination. -/
theorem doExportFile_under (opt : ExportOption) (d : String) (file : File)
    (s : ExportState Disk) (h : (doExportFile specPlatform opt d file s).1 ≠ "") :
    Under d (doExportFile specPlatform opt d file s).1 := by
  have h1 := (doExportFile_fst specPlatform opt d file s)
  rw [h1] at h ⊢
  unfold dispatchFormat at h ⊢
  split at h
  · exact doExportMarkdown_under opt d file s h
  · exact absurd (doExportHtml_empty specPlatform opt d file s).1 h
  · exact absurd rfl h

theorem exportChildContent_under (opt : ExportOption) (d : String) (child : Node)
    (acc : List String) (s : ExportState Disk) :
    ∀ p ∈ (exportChildContent specPlatform opt d child acc s).1, p ∈ acc ∨ Under d p := by
  unfold exportChildContent
  cases child.contentFile with
  | none => intro p hp; exact Or.inl hp
  | some file =>
    intro p hp
    by_cases hr : (doExportFile specPlatform opt d file s).1 = ""
    · simp only [hr, ne_eq, not_true_eq_false, if_false] at hp
      exact Or.inl hp
    · simp only [hr, ne_eq, not_false_eq_true, if_true, List.mem_append,
        List.mem_singleton] at hp
      rcases hp with hp | hp
      · exact Or.inl hp
      · rw [hp]; exact Or.inr (doExportFile_under opt d file s hr)

/-- The paths the folder loop appends lie below the output folder. -/
theorem folderLoop_under (opt : ExportOption) (outputFolder : String) (total : Nat) :
    ∀ (cs : List Node),
      (∀ x ∈ cs, ∀ (d : String) (s : ExportState Disk),
        ∀ p ∈ (doExportFolderIn specPlatform opt d x s).1, Under d p) →
      ∀ (i : Nat) (acc : List String) (s : ExportState Disk),
        ∀ p ∈ (folderLoop specPlatform opt outputFolder total i cs acc s).1,
          p ∈ acc ∨ Under outputFolder p := by
  intro cs
  induction cs with
  | nil => intro _ i acc s p hp; exact Or.inl (by simpa [folderLoop] using hp)
  | cons child rest ih =>
    intro hcs i acc s p hp
    have hrest := ih (fun x hx => hcs x (List.mem_cons_of_mem _ hx))
    have hchild := hcs child (List.mem_cons_self _ _)
    have h1 := exportChildContent_under opt outputFolder child acc s
    rw [folderLoop] at hp
    rcases hrest _ _ _ p hp with hp | hp
    · split at hp
      · rcases List.mem_append.mp hp with hp | hp
        · exact h1 p hp
        · exact Or.inr (hchild _ _ p hp)
      · exact h1 p hp
    · exact Or.inr hp

/-- The paths a folder export returns lie below its destination. -/
theorem doExportFolderIn_under (opt : ExportOption) :
    ∀ (x : Node) (d : String) (s : ExportState Disk),
      ∀ p ∈ (doExportFolderIn specPlatform opt d x s).1, Under d p := by
  intro x
  induction x using node_induct with
  | step n cf u f cs ih =>
    intro d s p hp
    rw [doExportFolderIn] at hp
    split at hp
    · cases hp
    · rcases folderLoop_under opt _ _ cs ih _ _ _ p hp with hp | hp
      · cases hp
      · exact under_of_under_join hp

/-- The paths a folder export returns lie below the output folder it made, and
there are none unless that folder could be made. -/
theorem doExportFolderIn_under_root (opt : ExportOption) (x : Node) (d : String)
    (s : ExportState Disk) :
    ∀ p ∈ (doExportFolderIn specPlatform opt d x s).1,
      Under (outputFolderOf specPlatform d x.name s) p ∧
      (specPlatform.mkpath (outputFolderOf specPlatform d x.name s) s.fs).1 = true := by
  intro p hp
  by_cases hmk : (specPlatform.mkpath (outputFolderOf specPlatform d x.name s) s.fs).1 = true
  · rw [doExportFolderIn_ok specPlatform opt d x s hmk] at hp
    rcases folderLoop_under opt _ _ x.children
      (fun y _ => doExportFolderIn_under opt y) _ _ _ p hp with hp | hp
    · cases hp
    · exact ⟨hp, hmk⟩
  · have hmk' : (specPlatform.mkpath (outputFolderOf specPlatform d x.name s) s.fs).1 = false := by
      simpa using hmk
    have := (doExportFolderIn_failed specPlatform opt d x s hmk').1
    rw [this] at hp
    cases hp

/-- On the reference platform a successful `mkpath` leaves its path on the disk. -/
theorem specPlatform_mkpath_has (p : String) (fs : Disk)
    (h : (specPlatform.mkpath p fs).1 = true) : (specPlatform.mkpath p fs).2.has p = true := by
  by_cases hr : p ∈ fs.refused
  · simp [specPlatform, hr] at h
  · have hm : specPlatform.mkpath p fs = (true, fs.add p) := by simp [specPlatform, hr]
    rw [hm]
    exact disk_add_self fs p

/-- The output folder a folder export made is still on the disk when it returns. -/
theorem doExportFolderIn_root_kept (opt : ExportOption) (x : Node) (d : String)
    (s : ExportState Disk)
    (hmk : (specPlatform.mkpath (outputFolderOf specPlatform d x.name s) s.fs).1 = true) :
    (doExportFolderIn specPlatform opt d x s).2.fs.has (outputFolderOf specPlatform d x.name s)
      = true := by
  rw [doExportFolderIn_ok specPlatform opt d x s hmk]
  exact folderLoop_rel specPlatform specPlatform_keeps opt _ _ x.children
    (fun y _ => doExportFolderIn_rel specPlatform specPlatform_keeps opt y) _ _ _ _
    (specPlatform_mkpath_has _ _ hmk)

/-- The copies recorded in an ordered sequence go below the root, when the
directories created before it are the root or lie below it. -/
theorem ordered_copies_under (root : String) :
    ∀ (xs : List FsCall) (c : List String), (∀ q ∈ c, q = root ∨ Under root q) →
      ordered specPlatform c xs →
      ∀ src dest mv, FsCall.copyFile src dest mv ∈ xs → Under root dest := by
  have hjoin : ∀ (c : List String), (∀ q ∈ c, q = root ∨ Under root q) →
      ∀ q ∈ c, ∀ name : String, Under root (q ++ "/" ++ name) := by
    intro c hc q hq name
    rcases hc q hq with h | h
    · rw [h]; exact under_join root name
    · exact under_join_of_under name h
  intro xs
  induction xs with
  | nil => intro c _ _ src dest mv hm; cases hm
  | cons call rest ih =>
    intro c hc ho src dest mv hm
    rcases List.mem_cons.mp hm with hm | hm
    · rw [← hm] at ho
      obtain ⟨q, hq, name, hname⟩ := ho.1
      rw [hname]
      exact hjoin c hc q hq name
    · refine ih (c ++ call.creates) ?_ ho.2 src dest mv hm
      intro q hq
      rcases List.mem_append.mp hq with hq | hq
      · exact hc q hq
      · cases call with
        | mkpath p ok =>
          cases ok with
          | true =>
            simp only [FsCall.creates, List.mem_singleton] at hq
            obtain ⟨q', hq', name, hname⟩ := ho.1
            rw [hq, hname]
            exact Or.inr (hjoin c hc q' hq' name)
          | false => simp [FsCall.creates] at hq
        | generateFileNameWithSequence a b e => simp [FsCall.creates] at hq
        | copyFile a b e => simp [FsCall.creates] at hq
        | copyMediaFiles a b => simp [FsCall.creates] at hq
        | renameIfExistsCaseInsensitive a => simp [FsCall.creates] at hq
        | copyAttachment a b => simp [FsCall.creates] at hq

/-! ### Exporting twice -/

/-- A non-empty path returned by the Markdown handler on the reference platform
is `d/u/name` for the generated `u`, and the directory `d/u` is on the disk
afterwards. -/
theorem doExportMarkdown_output (opt : ExportOption) (d : String) (file : File)
    (s : ExportState Disk) (h : (doExportMarkdown specPlatform opt d file s).1 ≠ "") :
    (doExportMarkdown specPlatform opt d file s).1
      = outputFolderOf specPlatform d file.name s ++ "/" ++ file.name ∧
    (doExportMarkdown specPlatform opt d file s).2.fs.has
      (outputFolderOf specPlatform d file.name s) = true := by
  by_cases hmd : file.isMarkdown = false
  · simp [doExportMarkdown, hmd] at h
  · by_cases hmk : (specPlatform.mkpath (outputFolderOf specPlatform d file.name s) s.fs).1 = true
    · have hmd' : file.isMarkdown = true := by simpa using hmd
      have hbase : (primaryCopied specPlatform d file s).fs.has
          (outputFolderOf specPlatform d file.name s) = true := by
        simp only [primaryCopied, ExportState.called]
        exact specPlatform_keeps.copyMediaFiles _ _ _ _
          (specPlatform_keeps.copyFile _ _ _ _ _ (specPlatform_mkpath_has _ _ hmk))
      rw [doExportMarkdown_success specPlatform opt d file s hmd' hmk]
      refine ⟨rfl, ?_⟩
      simp only
      split
      · exact exportAttachments_rel specPlatform specPlatform_keeps _ _ _ _ _ _ hbase
      · exact hbase
    · have hmk' : (specPlatform.mkpath (specPlatform.concatenateFilePath d
          (specPlatform.generateFileNameWithSequence s.fs d file.name "")) s.fs).1 = false := by
        simpa [outputFolderOf] using hmk
      simp [doExportMarkdown, hmd, hmk', ExportState.called] at h

/-- The same for the file export. -/
theorem doExportFile_output (opt : ExportOption) (d : String) (file : File)
    (s : ExportState Disk) (h : (doExportFile specPlatform opt d file s).1 ≠ "") :
    (doExportFile specPlatform opt d file s).1
      = outputFolderOf specPlatform d file.name s ++ "/" ++ file.name ∧
    (doExportFile specPlatform opt d file s).2.fs.has
      (outputFolderOf specPlatform d file.name s) = true := by
  have h1 := doExportFile_fst specPlatform opt d file s
  have h2 : (doExportFile specPlatform opt d file s).2.fs
      = (dispatchFormat specPlatform opt d file s).2.fs := by
    simp only [doExportFile]
    split_ifs <;> rfl
  rw [h1] at h
  rw [h1, h2]
  unfold dispatchFormat at h ⊢
  split at h
  · exact doExportMarkdown_output opt d file s h
  · exact absurd (doExportHtml_empty specPlatform opt d file s).1 h
  · exact absurd rfl h

/-- The same for the buffer export, whose handler runs after the creation of
the destination. -/
theorem doExportBuffer_output (opt : ExportOption) (b : Buffer) (file : File)
    (hb : b.file = some file) (s : ExportState Disk)
    (h : (doExportBuffer specPlatform opt b s).1 ≠ "") :
    (doExportBuffer specPlatform opt b s).1
      = bufferOutputFolder specPlatform opt file s.fs ++ "/" ++ file.name ∧
    (doExportBuffer specPlatform opt b s).2.fs.has
      (bufferOutputFolder specPlatform opt file s.fs) = true := by
  by_cases hmk : (specPlatform.mkpath opt.m_outputDir s.fs).1 = false
  · simp [doExportBuffer, hb, hmk] at h
  · have e : doExportBuffer specPlatform opt b s
        = doExportFile specPlatform opt opt.m_outputDir file
            (s.called (.mkpath opt.m_outputDir (specPlatform.mkpath opt.m_outputDir s.fs).1)
              (specPlatform.mkpath opt.m_outputDir s.fs).2) := by
      simp [doExportBuffer, hb, hmk]
    rw [e] at h ⊢
    exact doExportFile_output opt opt.m_outputDir file _ h

/-- The output folders of two exports in sequence of folders of one name into
one destination have no path below both, when the first one was made. -/
theorem folder_roots_apart (opt : ExportOption) (x : Node) (d : String) (s : ExportState Disk)
    (hmk : (specPlatform.mkpath (outputFolderOf specPlatform d x.name s) s.fs).1 = true)
    (p : String) (h1 : Under (outputFolderOf specPlatform d x.name s) p)
    (h2 : Under (outputFolderOf specPlatform d x.name
      (doExportFolderIn specPlatform opt d x s).2) p) : False := by
  obtain ⟨t1, e1, ht1⟩ := generate_form s.fs d x.name
  obtain ⟨t2, e2, ht2⟩ := generate_form (doExportFolderIn specPlatform opt d x s).2.fs d x.name
  have hof1 : outputFolderOf specPlatform d x.name s = d ++ "/" ++ (x.name ++ t1) := by
    show d ++ "/" ++ specPlatform.generateFileNameWithSequence s.fs d x.name "" = _
    rw [e1]
  have hof2 : outputFolderOf specPlatform d x.name (doExportFolderIn specPlatform opt d x s).2
      = d ++ "/" ++ (x.name ++ t2) := by
    show d ++ "/" ++ specPlatform.generateFileNameWithSequence
      (doExportFolderIn specPlatform opt d x s).2.fs d x.name "" = _
    rw [e2]
  have hkept := doExportFolderIn_root_kept opt x d s hmk
  have hfresh : (doExportFolderIn specPlatform opt d x s).2.fs.has
      (outputFolderOf specPlatform d x.name (doExportFolderIn specPlatform opt d x s).2)
      = false := generate_fresh _ d x.name ""
  rw [hof1] at h1 hkept
  rw [hof2] at h2 hfresh
  have ht := under_apart d x.name t1 t2 p ht1 ht2 h1 h2
  rw [ht, hfresh] at hkept
  cases hkept

/-- The copies made by a folder export on the reference platform go below the
output folder it made. -/
theorem doExportFolderIn_copies_under (opt : ExportOption) (x : Node) (d : String)
    (s : ExportState Disk) (src dest : String) (mv : Bool)
    (h : FsCall.copyFile src dest mv
      ∈ (doExportFolderIn specPlatform opt d x s).2.calls.drop s.calls.length) :
    Under (outputFolderOf specPlatform d x.name s) dest := by
  cases x with
  | mk n cf u f cs =>
    obtain ⟨ok, rest, hcalls, htrue, hfalse⟩ := doExportFolderIn_body specPlatform opt n cf u f
      cs (fun y _ => doExportFolderIn_ordered specPlatform opt y) d s []
    rw [hcalls, List.drop_left] at h
    simp only [List.mem_cons, reduceCtorEq, false_or] at h
    cases ok with
    | false => rw [hfalse rfl] at h; cases h
    | true =>
      refine ordered_copies_under (outputFolderOf specPlatform d n s) rest
        [outputFolderOf specPlatform d n s] ?_ (by simpa using htrue rfl) src dest mv h
      intro q hq
      exact Or.inl (List.mem_singleton.mp hq)

/-! ### What an export produces on the reference platform -/

theorem copiesTo_produces (call : FsCall) (p : String) (h : call.copiesTo = some p) :
    call.produces = some p := by
  cases call <;> simp_all [FsCall.copiesTo, FsCall.produces]

theorem under_append {root q : String} (t : String) (h : Under root q) :
    Under root (q ++ t) := by
  unfold Under at h ⊢
  simp only [String.data_append]
  exact h.trans (List.prefix_append _ _)

theorem under_length {root p : String} (h : Under root p) :
    root.data.length + 1 ≤ p.data.length := by
  have := List.IsPrefix.length_le h
  simpa using this

/-- A directory is not within a directory made inside it. -/
theorem not_within_join (d n : String) : ¬ Within (d ++ "/" ++ n) d := by
  rintro (h | h)
  · have := congrArg (fun x : String => x.data.length) h
    simp [String.data_append] at this
  · have := under_length h
    simp [String.data_append] at this
    omega

/-- The case-insensitive rename keeps the path and may add a tail to it. -/
theorem rename_form (fs : Disk) (path : String) :
    ∃ t : String, specPlatform.renameIfExistsCaseInsensitive fs path = path ++ t := by
  simp only [specPlatform]
  by_cases hu : fs.hasCaseInsensitive path = true
  · simp only [hu, if_true]
    rcases firstFreeName_spec fs.hasCaseInsensitive path "" path (fs.entries.length + 1) 1
      with ⟨j, _, _, h3, _⟩ | ⟨h3, _⟩
    · exact ⟨"_" ++ toString j, by rw [h3]; simp [String.append_assoc]⟩
    · exact ⟨"", by rw [h3]; simp⟩
  · simp only [hu, Bool.false_eq_true, if_false]
    exact ⟨"", by simp⟩

/-- A path is within at most one of the directories named from one base name
with slash-free tails. -/
theorem within_apart (d base t1 t2 p : String) (h1 : '/' ∉ t1.data) (h2 : '/' ∉ t2.data)
    (hp1 : Within (d ++ "/" ++ (base ++ t1)) p) (hp2 : Within (d ++ "/" ++ (base ++ t2)) p) :
    t1 = t2 := by
  rcases hp1 with e1 | u1 <;> rcases hp2 with e2 | u2
  · have h := congrArg String.data (e1.symm.trans e2)
    simp only [String.data_append, List.append_assoc] at h
    exact String.ext
      (List.append_cancel_left (List.append_cancel_left (List.append_cancel_left h)))
  · exfalso
    rw [e1] at u2
    obtain ⟨x, hx⟩ := u2
    simp only [String.data_append, List.append_assoc] at hx
    have h := List.append_cancel_left (List.append_cancel_left (List.append_cancel_left hx))
    apply h1
    rw [← h]
    simp
  · exfalso
    rw [e2] at u1
    obtain ⟨x, hx⟩ := u1
    simp only [String.data_append, List.append_assoc] at hx
    have h := List.append_cancel_left (List.append_cancel_left (List.append_cancel_left hx))
    apply h2
    rw [← h]
    simp
  · exact under_apart d base t1 t2 p h1 h2 u1 u2

/-- Everything produced by an ordered sequence lies below the root, when the
directories created before it are within the root. -/
theorem ordered_produces_under (root : String) :
    ∀ (xs : List FsCall) (c : List String), (∀ q ∈ c, Within root q) →
      ordered specPlatform c xs →
      ∀ call ∈ xs, ∀ p, call.produces = some p → Under root p := by
  have hjoin : ∀ (c : List String), (∀ q ∈ c, Within root q) →
      ∀ q ∈ c, ∀ name : String, Under root (q ++ "/" ++ name) := by
    intro c hc q hq name
    rcases hc q hq with h | h
    · rw [h]; exact under_join root name
    · exact under_join_of_under name h
  intro xs
  induction xs with
  | nil => intro c _ _ call hm; cases hm
  | cons head rest ih =>
    intro c hc ho call hm p hp
    rcases List.mem_cons.mp hm with hm | hm
    · rw [hm] at hp
      cases head with
      | generateFileNameWithSequence a b e => simp [FsCall.produces] at hp
      | renameIfExistsCaseInsensitive a => simp [FsCall.produces] at hp
      | mkpath q ok =>
        cases ok with
        | false => simp [FsCall.produces] at hp
        | true =>
          simp only [FsCall.produces, Option.some.injEq] at hp
          obtain ⟨q', hq', name, hname⟩ := ho.1
          rw [← hp, hname]
          exact hjoin c hc q' hq' name
      | copyFile a dest mv =>
        simp only [FsCall.produces, Option.some.injEq] at hp
        obtain ⟨q', hq', name, hname⟩ := ho.1
        rw [← hp, hname]
        exact hjoin c hc q' hq' name
      | copyMediaFiles a dest =>
        simp only [FsCall.produces, Option.some.injEq] at hp
        obtain ⟨q', hq', name, hname⟩ := ho.1
        rw [← hp, hname]
        exact hjoin c hc q' hq' name
      | copyAttachment a folder =>
        simp only [FsCall.produces, Option.some.injEq] at hp
        obtain ⟨q', hq', _, rel, fs, hfolder⟩ := ho.1
        obtain ⟨t, ht⟩ := rename_form fs (q' ++ "/" ++ rel)
        rw [← hp, hfolder]
        show Under root (specPlatform.renameIfExistsCaseInsensitive fs (q' ++ "/" ++ rel))
        rw [ht]
        exact under_append t (hjoin c hc q' hq' rel)
    · refine ih (c ++ head.creates) ?_ ho.2 call hm p hp
      intro q hq
      rcases List.mem_append.mp hq with hq | hq
      · exact hc q hq
      · cases head with
        | mkpath q0 ok =>
          cases ok with
          | true =>
            simp only [FsCall.creates, List.mem_singleton] at hq
            obtain ⟨q', hq', name, hname⟩ := ho.1
            rw [hq, hname]
            exact Or.inr (hjoin c hc q' hq' name)
          | false => simp [FsCall.creates] at hq
        | generateFileNameWithSequence a b e => simp [FsCall.creates] at hq
        | copyFile a b e => simp [FsCall.creates] at hq
        | copyMediaFiles a b => simp [FsCall.creates] at hq
        | renameIfExistsCaseInsensitive a => simp [FsCall.creates] at hq
        | copyAttachment a b => simp [FsCall.creates] at hq

theorem slash_append_ne_empty (a b : String) : a ++ "/" ++ b ≠ "" := by
  intro h
  have := congrArg (fun x : String => x.data.length) h
  simp [String.data_append] at this

/-- The calls of a folder export, with the outcome of its `mkpath`: the name
query, the `mkpath` of the output folder and, when that succeeds, calls ordered
below the output folder; nothing when it fails. -/
theorem doExportFolderIn_calls (pf : Platform σ) (opt : ExportOption) (x : Node) (d : String)
    (s : ExportState σ) :
    ∃ rest, (doExportFolderIn pf opt d x s).2.calls
        = s.calls ++ FsCall.generateFileNameWithSequence d x.name ""
            :: FsCall.mkpath (outputFolderOf pf d x.name s)
                (pf.mkpath (outputFolderOf pf d x.name s) s.fs).1 :: rest ∧
      ((pf.mkpath (outputFolderOf pf d x.name s) s.fs).1 = true →
        ordered pf [outputFolderOf pf d x.name s] rest) ∧
      ((pf.mkpath (outputFolderOf pf d x.name s) s.fs).1 = false → rest = []) := by
  by_cases hmk : (pf.mkpath (outputFolderOf pf d x.name s) s.fs).1 = true
  · have hok := doExportFolderIn_ok pf opt d x s hmk
    obtain ⟨rest, hrest, hord⟩ := folderLoop_ordered pf opt (outputFolderOf pf d x.name s)
      x.children.length [outputFolderOf pf d x.name s] (by simp) x.children
      (fun y _ => doExportFolderIn_ordered pf opt y) 0 []
      (loopStart pf d x.name x.children.length s)
    refine ⟨rest, ?_, fun _ => hord, ?_⟩
    · rw [hok, hrest, hmk]
      simp [loopStart, ExportState.progressUpdated, ExportState.called]
    · intro h; rw [hmk] at h; cases h
  · have hmk' : (pf.mkpath (outputFolderOf pf d x.name s) s.fs).1 = false := by
      simpa using hmk
    refine ⟨[], ?_, fun h => absurd h hmk, fun _ => rfl⟩
    rw [(doExportFolderIn_failed pf opt d x s hmk').2, hmk']

/-- Everything a folder export makes or copies on the reference platform is the
output folder it made or lies below it. -/
theorem doExportFolderIn_produces (opt : ExportOption) (x : Node) (d : String)
    (s : ExportState Disk) :
    ∀ call ∈ newCalls s (doExportFolderIn specPlatform opt d x s).2, ∀ p,
      call.produces = some p →
        Within (outputFolderOf specPlatform d x.name s) p ∧
        (specPlatform.mkpath (outputFolderOf specPlatform d x.name s) s.fs).1 = true := by
  obtain ⟨rest, hcalls, htrue, hfalse⟩ := doExportFolderIn_calls specPlatform opt x d s
  intro call hcall p hp
  rw [newCalls, hcalls, List.drop_left] at hcall
  by_cases hmk : (specPlatform.mkpath (outputFolderOf specPlatform d x.name s) s.fs).1 = true
  · refine ⟨?_, hmk⟩
    rw [hmk] at hcall
    rcases List.mem_cons.mp hcall with h | h
    · rw [h] at hp; simp [FsCall.produces] at hp
    · rcases List.mem_cons.mp h with h | h
      · rw [h] at hp
        simp only [FsCall.produces, Option.some.injEq] at hp
        exact Or.inl hp.symm
      · refine Or.inr (ordered_produces_under (outputFolderOf specPlatform d x.name s) rest
          [outputFolderOf specPlatform d x.name s] ?_ (htrue hmk) call h p hp)
        intro q hq
        exact Or.inl (List.mem_singleton.mp hq)
  · have hmk' : (specPlatform.mkpath (outputFolderOf specPlatform d x.name s) s.fs).1 = false := by
      simpa using hmk
    rw [hfalse hmk', hmk'] at hcall
    rcases List.mem_cons.mp hcall with h | h
    · rw [h] at hp; simp [FsCall.produces] at hp
    · rcases List.mem_cons.mp h with h | h
      · rw [h] at hp; simp [FsCall.produces] at hp
      · cases h

/-- The output folders of two exports in sequence of folders of one name into
one destination share no path, when the first one was made. -/
theorem folder_roots_disjoint (opt : ExportOption) (x : Node) (d : String) (s : ExportState Disk)
    (hmk : (specPlatform.mkpath (outputFolderOf specPlatform d x.name s) s.fs).1 = true)
    (p : String) (h1 : Within (outputFolderOf specPlatform d x.name s) p)
    (h2 : Within (outputFolderOf specPlatform d x.name
      (doExportFolderIn specPlatform opt d x s).2) p) : False := by
  obtain ⟨t1, e1, ht1⟩ := generate_form s.fs d x.name
  obtain ⟨t2, e2, ht2⟩ := generate_form (doExportFolderIn specPlatform opt d x s).2.fs d x.name
  have hof1 : outputFolderOf specPlatform d x.name s = d ++ "/" ++ (x.name ++ t1) := by
    show d ++ "/" ++ specPlatform.generateFileNameWithSequence s.fs d x.name "" = _
    rw [e1]
  have hof2 : outputFolderOf specPlatform d x.name (doExportFolderIn specPlatform opt d x s).2
      = d ++ "/" ++ (x.name ++ t2) := by
    show d ++ "/" ++ specPlatform.generateFileNameWithSequence
      (doExportFolderIn specPlatform opt d x s).2.fs d x.name "" = _
    rw [e2]
  have hkept := doExportFolderIn_root_kept opt x d s hmk
  have hfresh : (doExportFolderIn specPlatform opt d x s).2.fs.has
      (outputFolderOf specPlatform d x.name (doExportFolderIn specPlatform opt d x s).2)
      = false := generate_fresh _ d x.name ""
  rw [hof1] at h1 hkept
  rw [hof2] at h2 hfresh
  have ht := within_apart d x.name t1 t2 p ht1 ht2 h1 h2
  rw [ht, hfresh] at hkept
  cases hkept

/-- Everything the Markdown handler makes or copies on the reference platform
is its output directory or lies below it, and that directory is on the disk
afterwards. -/
theorem doExportMarkdown_produces (opt : ExportOption) (d : String) (file : File)
    (s : ExportState Disk) :
    ∃ extra, (doExportMarkdown specPlatform opt d file s).2.calls = s.calls ++ extra ∧
      ∀ call ∈ extra, ∀ p, call.produces = some p →
        Within (outputFolderOf specPlatform d file.name s) p ∧
        (doExportMarkdown specPlatform opt d file s).2.fs.has
          (outputFolderOf specPlatform d file.name s) = true := by
  by_cases hmd : file.isMarkdown = false
  · exact ⟨[], by simp [doExportMarkdown, hmd, ExportState.logRequested],
      fun call hcall => by cases hcall⟩
  · by_cases hmk : (specPlatform.mkpath (outputFolderOf specPlatform d file.name s) s.fs).1 = true
    · have hmd' : file.isMarkdown = true := by simpa using hmd
      have hne : (doExportMarkdown specPlatform opt d file s).1 ≠ "" := by
        rw [doExportMarkdown_success specPlatform opt d file s hmd' hmk]
        exact fun h => slash_append_ne_empty _ _ h
      have hkept := (doExportMarkdown_output opt d file s hne).2
      have hcalls := doExportMarkdown_calls specPlatform opt d file s hmd' hmk
      refine ⟨[FsCall.generateFileNameWithSequence d file.name "",
          FsCall.mkpath (outputFolderOf specPlatform d file.name s) true,
          FsCall.copyFile file.filePath
            (outputFolderOf specPlatform d file.name s ++ "/" ++ file.name) false,
          FsCall.copyMediaFiles file.filePath
            (outputFolderOf specPlatform d file.name s ++ "/" ++ file.name)] ++
          (if opt.m_exportAttachments = true ∧ file.node.attachmentFolder ≠ "" then
            [FsCall.renameIfExistsCaseInsensitive
                (specPlatform.filePath (outputFolderOf specPlatform d file.name s)
                  (attachmentRel specPlatform file)),
              FsCall.copyAttachment
                (specPlatform.filePath (outputFolderOf specPlatform d file.name s) file.name)
                (attachmentTarget specPlatform (outputFolderOf specPlatform d file.name s) file
                  (primaryCopied specPlatform d file s).fs)]
          else []), ?_, ?_⟩
      · rw [hcalls]
        have hp : (primaryCopied specPlatform d file s).calls
            = s.calls ++ [FsCall.generateFileNameWithSequence d file.name "",
              FsCall.mkpath (outputFolderOf specPlatform d file.name s) true,
              FsCall.copyFile file.filePath
                (outputFolderOf specPlatform d file.name s ++ "/" ++ file.name) false,
              FsCall.copyMediaFiles file.filePath
                (outputFolderOf specPlatform d file.name s ++ "/" ++ file.name)] := by
          simp [primaryCopied, ExportState.called, specPlatform]
        rw [hp, List.append_assoc]
      · intro call hcall p hp
        refine ⟨?_, hkept⟩
        rcases List.mem_append.mp hcall with h | h
        · simp only [List.mem_cons, List.mem_singleton, List.not_mem_nil, or_false] at h
          rcases h with h | h | h | h <;> rw [h] at hp
          · simp [FsCall.produces] at hp
          · simp only [FsCall.produces, Option.some.injEq] at hp
            exact Or.inl hp.symm
          · simp only [FsCall.produces, Option.some.injEq] at hp
            rw [← hp]
            exact Or.inr (under_join _ _)
          · simp only [FsCall.produces, Option.some.injEq] at hp
            rw [← hp]
            exact Or.inr (under_join _ _)
        · split at h
          · simp only [List.mem_cons, List.mem_singleton, List.not_mem_nil, or_false] at h
            rcases h with h | h <;> rw [h] at hp
            · simp [FsCall.produces] at hp
            · simp only [FsCall.produces, Option.some.injEq] at hp
              obtain ⟨t, ht⟩ := rename_form (primaryCopied specPlatform d file s).fs
                (outputFolderOf specPlatform d file.name s ++ "/" ++ attachmentRel specPlatform file)
              rw [← hp]
              show Within _ (specPlatform.renameIfExistsCaseInsensitive _
                (outputFolderOf specPlatform d file.name s ++ "/" ++ attachmentRel specPlatform file))
              rw [ht]
              exact Or.inr (under_append t (under_join _ _))
          · cases h
    · have hmk' : (specPlatform.mkpath (specPlatform.concatenateFilePath d
          (specPlatform.generateFileNameWithSequence s.fs d file.name "")) s.fs).1 = false := by
        simpa [outputFolderOf] using hmk
      refine ⟨[FsCall.generateFileNameWithSequence d file.name "",
          FsCall.mkpath (outputFolderOf specPlatform d file.name s) false], ?_, ?_⟩
      · simp [doExportMarkdown, hmd, hmk', ExportState.logRequested, ExportState.called,
          outputFolderOf]
      · intro call hcall p hp
        simp only [List.mem_cons, List.mem_singleton, List.not_mem_nil, or_false] at hcall
        rcases hcall with h | h <;> rw [h] at hp <;> simp [FsCall.produces] at hp

/-- The same for the file export. -/
theorem doExportFile_produces (opt : ExportOption) (d : String) (file : File)
    (s : ExportState Disk) :
    ∃ extra, (doExportFile specPlatform opt d file s).2.calls = s.calls ++ extra ∧
      ∀ call ∈ extra, ∀ p, call.produces = some p →
        Within (outputFolderOf specPlatform d file.name s) p ∧
        (doExportFile specPlatform opt d file s).2.fs.has
          (outputFolderOf specPlatform d file.name s) = true := by
  have h1 : (doExportFile specPlatform opt d file s).2.calls
      = (dispatchFormat specPlatform opt d file s).2.calls := by
    simp only [doExportFile]
    split_ifs <;> rfl
  have h2 : (doExportFile specPlatform opt d file s).2.fs
      = (dispatchFormat specPlatform opt d file s).2.fs := by
    simp only [doExportFile]
    split_ifs <;> rfl
  rw [h1, h2]
  unfold dispatchFormat
  split
  · exact doExportMarkdown_produces opt d file s
  · obtain ⟨_, _, extra, hextra, hgen⟩ := doExportHtml_empty specPlatform opt d file s
    refine ⟨extra, hextra, ?_⟩
    intro call hcall p hp
    obtain ⟨a, b, c, hc⟩ := hgen call hcall
    rw [hc] at hp
    simp [FsCall.produces] at hp
  · exact ⟨[], by simp [ExportState.logRequested], fun call hcall => by cases hcall⟩

/-- Everything the buffer export makes or copies on the reference platform is
the destination directory, made first, or is the output directory of the
document or lies below it. -/
theorem doExportBuffer_produces (opt : ExportOption) (b : Buffer) (file : File)
    (hb : b.file = some file) (s : ExportState Disk) :
    ∀ call ∈ newCalls s (doExportBuffer specPlatform opt b s).2, ∀ p,
      call.produces = some p →
        (call = FsCall.mkpath opt.m_outputDir true ∧ p = opt.m_outputDir) ∨
        (Within (bufferOutputFolder specPlatform opt file s.fs) p ∧
          (doExportBuffer specPlatform opt b s).2.fs.has
            (bufferOutputFolder specPlatform opt file s.fs) = true) := by
  intro call hcall p hp
  by_cases hmk : (specPlatform.mkpath opt.m_outputDir s.fs).1 = false
  · have e : (doExportBuffer specPlatform opt b s).2.calls
        = s.calls ++ [FsCall.mkpath opt.m_outputDir false] := by
      simp [doExportBuffer, hb, hmk, ExportState.logRequested, ExportState.called]
    rw [newCalls, e, List.drop_left, List.mem_singleton] at hcall
    rw [hcall] at hp
    simp [FsCall.produces] at hp
  · have hmk' : (specPlatform.mkpath opt.m_outputDir s.fs).1 = true := by simpa using hmk
    have e : doExportBuffer specPlatform opt b s
        = doExportFile specPlatform opt opt.m_outputDir file
            (s.called (.mkpath opt.m_outputDir (specPlatform.mkpath opt.m_outputDir s.fs).1)
              (specPlatform.mkpath opt.m_outputDir s.fs).2) := by
      simp [doExportBuffer, hb, hmk]
    obtain ⟨extra, hextra, hprod⟩ := doExportFile_produces opt opt.m_outputDir file
      (s.called (.mkpath opt.m_outputDir (specPlatform.mkpath opt.m_outputDir s.fs).1)
        (specPlatform.mkpath opt.m_outputDir s.fs).2)
    rw [← e] at hextra hprod
    have hnew : newCalls s (doExportBuffer specPlatform opt b s).2
        = FsCall.mkpath opt.m_outputDir true :: extra := by
      rw [newCalls, hextra]
      simp [ExportState.called, hmk']
    rw [hnew] at hcall
    rcases List.mem_cons.mp hcall with h | h
    · rw [h] at hp
      simp only [FsCall.produces, Option.some.injEq] at hp
      exact Or.inl ⟨h, hp.symm⟩
    · exact Or.inr (hprod call h p hp)

/-- Two directories generated from one base name in one folder share no path,
when the first is on the disk the second was generated on. -/
theorem generated_roots_disjoint (fs1 fs2 : Disk) (d n p : String)
    (hk : fs2.has (d ++ "/" ++ specPlatform.generateFileNameWithSequence fs1 d n "") = true)
    (h1 : Within (d ++ "/" ++ specPlatform.generateFileNameWithSequence fs1 d n "") p)
    (h2 : Within (d ++ "/" ++ specPlatform.generateFileNameWithSequence fs2 d n "") p) :
    False := by
  obtain ⟨t1, e1, ht1⟩ := generate_form fs1 d n
  obtain ⟨t2, e2, ht2⟩ := generate_form fs2 d n
  have hfresh : fs2.has (d ++ "/" ++ specPlatform.generateFileNameWithSequence fs2 d n "")
      = false := generate_fresh fs2 d n ""
  rw [e1] at h1 hk
  rw [e2] at h2 hfresh
  have ht := within_apart d n t1 t2 p ht1 ht2 h1 h2
  rw [ht, hfresh] at hk
  cases hk

/-- A Markdown export that returns a path made its output directory and copied
the source file to the returned path. -/
theorem doExportMarkdown_made (pf : Platform σ) (opt : ExportOption) (d : String) (file : File)
    (s : ExportState σ) (h : (doExportMarkdown pf opt d file s).1 ≠ "") :
    FsCall.mkpath (outputFolderOf pf d file.name s) true
      ∈ newCalls s (doExportMarkdown pf opt d file s).2 ∧
    FsCall.copyFile file.filePath (doExportMarkdown pf opt d file s).1 false
      ∈ newCalls s (doExportMarkdown pf opt d file s).2 := by
  by_cases hmd : file.isMarkdown = false
  · simp [doExportMarkdown, hmd] at h
  · by_cases hmk : (pf.mkpath (outputFolderOf pf d file.name s) s.fs).1 = true
    · have hmd' : file.isMarkdown = true := by simpa using hmd
      have h1 : (doExportMarkdown pf opt d file s).1
          = pf.filePath (outputFolderOf pf d file.name s) file.name := by
        rw [doExportMarkdown_success pf opt d file s hmd' hmk]
      have hp : (primaryCopied pf d file s).calls
          = s.calls ++ [FsCall.generateFileNameWithSequence d file.name "",
            FsCall.mkpath (outputFolderOf pf d file.name s) true,
            FsCall.copyFile file.filePath
              (pf.filePath (outputFolderOf pf d file.name s) file.name) false,
            FsCall.copyMediaFiles file.filePath
              (pf.filePath (outputFolderOf pf d file.name s) file.name)] := by
        simp [primaryCopied, ExportState.called]
      rw [h1, newCalls, doExportMarkdown_calls pf opt d file s hmd' hmk, hp, List.append_assoc,
        List.drop_left]
      constructor <;> simp
    · have hmk' : (pf.mkpath (pf.concatenateFilePath d
          (pf.generateFileNameWithSequence s.fs d file.name "")) s.fs).1 = false := by
        simpa [outputFolderOf] using hmk
      simp [doExportMarkdown, hmd, hmk', ExportState.called] at h

/-- The same for the file export. -/
theorem doExportFile_made (pf : Platform σ) (opt : ExportOption) (d : String) (file : File)
    (s : ExportState σ) (h : (doExportFile pf opt d file s).1 ≠ "") :
    FsCall.mkpath (outputFolderOf pf d file.name s) true
      ∈ newCalls s (doExportFile pf opt d file s).2 ∧
    FsCall.copyFile file.filePath (doExportFile pf opt d file s).1 false
      ∈ newCalls s (doExportFile pf opt d file s).2 := by
  have h1 := doExportFile_fst pf opt d file s
  have h2 : newCalls s (doExportFile pf opt d file s).2
      = newCalls s (dispatchFormat pf opt d file s).2 := by
    simp only [doExportFile, newCalls]
    split_ifs <;> rfl
  rw [h1] at h
  rw [h1, h2]
  unfold dispatchFormat at h ⊢
  split at h
  · exact doExportMarkdown_made pf opt d file s h
  · exact absurd (doExportHtml_empty pf opt d file s).1 h
  · exact absurd rfl h

/-- The same for the buffer export. -/
theorem doExportBuffer_made (pf : Platform σ) (opt : ExportOption) (b : Buffer) (file : File)
    (hb : b.file = some file) (s : ExportState σ)
    (h : (doExportBuffer pf opt b s).1 ≠ "") :
    FsCall.mkpath (bufferOutputFolder pf opt file s.fs) true
      ∈ newCalls s (doExportBuffer pf opt b s).2 ∧
    FsCall.copyFile file.filePath (doExportBuffer pf opt b s).1 false
      ∈ newCalls s (doExportBuffer pf opt b s).2 := by
  by_cases hmk : (pf.mkpath opt.m_outputDir s.fs).1 = false
  · simp [doExportBuffer, hb, hmk] at h
  · have e : doExportBuffer pf opt b s
        = doExportFile pf opt opt.m_outputDir file
            (s.called (.mkpath opt.m_outputDir (pf.mkpath opt.m_outputDir s.fs).1)
              (pf.mkpath opt.m_outputDir s.fs).2) := by
      simp [doExportBuffer, hb, hmk]
    rw [e] at h ⊢
    obtain ⟨m1, m2⟩ := doExportFile_made pf opt opt.m_outputDir file _ h
    obtain ⟨extra, hextra, _⟩ := doExportFile_ordered pf opt opt.m_outputDir file
      (s.called (.mkpath opt.m_outputDir (pf.mkpath opt.m_outputDir s.fs).1)
        (pf.mkpath opt.m_outputDir s.fs).2) [opt.m_outputDir] (by simp)
    rw [newCalls, hextra, List.drop_left] at m1 m2
    have hnew : newCalls s (doExportFile pf opt opt.m_outputDir file
        (s.called (.mkpath opt.m_outputDir (pf.mkpath opt.m_outputDir s.fs).1)
          (pf.mkpath opt.m_outputDir s.fs).2)).2
        = FsCall.mkpath opt.m_outputDir (pf.mkpath opt.m_outputDir s.fs).1 :: extra := by
      rw [newCalls, hextra]
      simp [ExportState.called]
    rw [hnew]
    exact ⟨List.mem_cons_of_mem _ m1, List.mem_cons_of_mem _ m2⟩

/-- C13 (collision avoidance never reuses a name). On the reference platform,
whose name generator returns a name unused in the directory, for every options
value, starting disk, folder tree and buffer, with paths compared as written.
When the same folder is exported twice in sequence into the same destination:
the output folder of the second export is not on the disk before the second
call; no path the second export returns is a path the first one returned; no
file copy of the second export targets a path the first one returned; the calls
of the second export are the name query, the `mkpath` of that very output
folder with its outcome, and calls that make or copy only below it; every path
the second export returns lies below it; and no `mkpath`, file copy, media copy
or attachment copy of the second export makes or targets a path that a call of
the first export made or targeted. When the same buffer with a file is exported
twice: the output directory of the second export is not on the disk before the
second call; a non-empty second result differs from the first, is the file name
inside that directory, and comes with the `mkpath` of that directory and the
copy of the source file to the result among the calls of the second export;
every call of the second export that makes or targets a path is the `mkpath` of
the destination directory or stays within that output directory; the only path
made or targeted by both exports is the destination directory itself, made
again by `mkpath`; and no copy of the second export targets a path the first
export made or targeted. -/
theorem never_reuses_name (opt : ExportOption) (s : ExportState Disk) :
    (∀ (folder : Node),
      (exportFolderTwice specPlatform opt folder s).1.2.fs.has
          (outputFolderOf specPlatform opt.m_outputDir folder.name
            (exportFolderTwice specPlatform opt folder s).1.2) = false ∧
      (∀ p ∈ (exportFolderTwice specPlatform opt folder s).2.1,
        p ∉ (exportFolderTwice specPlatform opt folder s).1.1) ∧
      (∀ (src dest : String) (mv : Bool),
        FsCall.copyFile src dest mv
            ∈ (exportFolderTwice specPlatform opt folder s).2.2.calls.drop
                (exportFolderTwice specPlatform opt folder s).1.2.calls.length →
          dest ∉ (exportFolderTwice specPlatform opt folder s).1.1) ∧
      (∃ rest,
        newCalls (exportFolderTwice specPlatform opt folder s).1.2
            (exportFolderTwice specPlatform opt folder s).2.2
          = FsCall.generateFileNameWithSequence opt.m_outputDir folder.name ""
            :: FsCall.mkpath
                (outputFolderOf specPlatform opt.m_outputDir folder.name
                  (exportFolderTwice specPlatform opt folder s).1.2)
                (specPlatform.mkpath
                  (outputFolderOf specPlatform opt.m_outputDir folder.name
                    (exportFolderTwice specPlatform opt folder s).1.2)
                  (exportFolderTwice specPlatform opt folder s).1.2.fs).1
            :: rest ∧
        ∀ call ∈ rest, ∀ p, call.produces = some p →
          Under (outputFolderOf specPlatform opt.m_outputDir folder.name
            (exportFolderTwice specPlatform opt folder s).1.2) p) ∧
      (∀ p ∈ (exportFolderTwice specPlatform opt folder s).2.1,
        Under (outputFolderOf specPlatform opt.m_outputDir folder.name
          (exportFolderTwice specPlatform opt folder s).1.2) p) ∧
      (∀ c1 ∈ newCalls s (exportFolderTwice specPlatform opt folder s).1.2,
        ∀ c2 ∈ newCalls (exportFolderTwice specPlatform opt folder s).1.2
            (exportFolderTwice specPlatform opt folder s).2.2,
          ∀ p, c1.produces = some p → c2.produces ≠ some p)) ∧
    (∀ (b : Buffer) (file : File), b.file = some file →
      (exportBufferTwice specPlatform opt b s).1.2.fs.has
          (bufferOutputFolder specPlatform opt file
            (exportBufferTwice specPlatform opt b s).1.2.fs) = false ∧
      ((exportBufferTwice specPlatform opt b s).2.1 ≠ "" →
        (exportBufferTwice specPlatform opt b s).2.1
          ≠ (exportBufferTwice specPlatform opt b s).1.1) ∧
      ((exportBufferTwice specPlatform opt b s).2.1 ≠ "" →
        (exportBufferTwice specPlatform opt b s).2.1
          = bufferOutputFolder specPlatform opt file
              (exportBufferTwice specPlatform opt b s).1.2.fs ++ "/" ++ file.name ∧
        FsCall.mkpath (bufferOutputFolder specPlatform opt file
            (exportBufferTwice specPlatform opt b s).1.2.fs) true
          ∈ newCalls (exportBufferTwice specPlatform opt b s).1.2
              (exportBufferTwice specPlatform opt b s).2.2 ∧
        FsCall.copyFile file.filePath (exportBufferTwice specPlatform opt b s).2.1 false
          ∈ newCalls (exportBufferTwice specPlatform opt b s).1.2
              (exportBufferTwice specPlatform opt b s).2.2) ∧
      (∀ call ∈ newCalls (exportBufferTwice specPlatform opt b s).1.2
          (exportBufferTwice specPlatform opt b s).2.2,
        ∀ p, call.produces = some p →
          (call = FsCall.mkpath opt.m_outputDir true ∧ p = opt.m_outputDir) ∨
          Within (bufferOutputFolder specPlatform opt file
            (exportBufferTwice specPlatform opt b s).1.2.fs) p) ∧
      (∀ c1 ∈ newCalls s (exportBufferTwice specPlatform opt b s).1.2,
        ∀ c2 ∈ newCalls (exportBufferTwice specPlatform opt b s).1.2
            (exportBufferTwice specPlatform opt b s).2.2,
          ∀ p, c1.produces = some p → c2.produces = some p →
            p = opt.m_outputDir ∧ c1 = FsCall.mkpath opt.m_outputDir true ∧
              c2 = FsCall.mkpath opt.m_outputDir true) ∧
      (∀ c1 ∈ newCalls s (exportBufferTwice specPlatform opt b s).1.2,
        ∀ c2 ∈ newCalls (exportBufferTwice specPlatform opt b s).1.2
            (exportBufferTwice specPlatform opt b s).2.2,
          ∀ p, c1.produces = some p → c2.copiesTo ≠ some p)) := by
  constructor
  · intro folder
    refine ⟨generate_fresh _ _ _ _, ?_, ?_, ?_, ?_, ?_⟩
    · intro p hp2 hp1
      obtain ⟨hu1, hmk⟩ := doExportFolderIn_under_root opt folder opt.m_outputDir s p hp1
      obtain ⟨hu2, _⟩ := doExportFolderIn_under_root opt folder opt.m_outputDir
        (doExportFolderIn specPlatform opt opt.m_outputDir folder s).2 p hp2
      exact folder_roots_apart opt folder opt.m_outputDir s hmk p hu1 hu2
    · intro src dest mv hc hp1
      obtain ⟨hu1, hmk⟩ := doExportFolderIn_under_root opt folder opt.m_outputDir s dest hp1
      have hu2 := doExportFolderIn_copies_under opt folder opt.m_outputDir
        (doExportFolderIn specPlatform opt opt.m_outputDir folder s).2 src dest mv hc
      exact folder_roots_apart opt folder opt.m_outputDir s hmk dest hu1 hu2
    · obtain ⟨rest, hcalls, htrue, hfalse⟩ := doExportFolderIn_calls specPlatform opt folder
        opt.m_outputDir (doExportFolderIn specPlatform opt opt.m_outputDir folder s).2
      refine ⟨rest, ?_, ?_⟩
      · show newCalls (doExportFolderIn specPlatform opt opt.m_outputDir folder s).2
          (doExportFolderIn specPlatform opt opt.m_outputDir folder
            (doExportFolderIn specPlatform opt opt.m_outputDir folder s).2).2 = _
        rw [newCalls, hcalls, List.drop_left]
        rfl
      · intro call hcall p hp
        by_cases hmk : (specPlatform.mkpath
            (outputFolderOf specPlatform opt.m_outputDir folder.name
              (doExportFolderIn specPlatform opt opt.m_outputDir folder s).2)
            (doExportFolderIn specPlatform opt opt.m_outputDir folder s).2.fs).1 = true
        · refine ordered_produces_under _ rest [_] ?_ (htrue hmk) call hcall p hp
          intro q hq
          exact Or.inl (List.mem_singleton.mp hq)
        · rw [hfalse (by simpa using hmk)] at hcall
          cases hcall
    · intro p hp
      exact (doExportFolderIn_under_root opt folder opt.m_outputDir
        (doExportFolderIn specPlatform opt opt.m_outputDir folder s).2 p hp).1
    · intro c1 h1 c2 h2 p hp1 hp2
      obtain ⟨w1, hmk⟩ := doExportFolderIn_produces opt folder opt.m_outputDir s c1 h1 p hp1
      obtain ⟨w2, _⟩ := doExportFolderIn_produces opt folder opt.m_outputDir
        (doExportFolderIn specPlatform opt opt.m_outputDir folder s).2 c2 h2 p hp2
      exact folder_roots_disjoint opt folder opt.m_outputDir s hmk p w1 w2
  · intro b file hb
    have hfresh : (specPlatform.mkpath opt.m_outputDir
        (doExportBuffer specPlatform opt b s).2.fs).2.has
        (bufferOutputFolder specPlatform opt file (doExportBuffer specPlatform opt b s).2.fs)
        = false := generate_fresh _ _ _ _
    have hbefore : (doExportBuffer specPlatform opt b s).2.fs.has
        (bufferOutputFolder specPlatform opt file (doExportBuffer specPlatform opt b s).2.fs)
        = false := by
      by_contra hc
      have hc' := specPlatform_keeps.mkpath opt.m_outputDir _ _ (by simpa using hc)
      rw [hfresh] at hc'
      cases hc'
    have hpair : ∀ c1 ∈ newCalls s (doExportBuffer specPlatform opt b s).2,
        ∀ c2 ∈ newCalls (doExportBuffer specPlatform opt b s).2
            (doExportBuffer specPlatform opt b (doExportBuffer specPlatform opt b s).2).2,
          ∀ p, c1.produces = some p → c2.produces = some p →
            p = opt.m_outputDir ∧ c1 = FsCall.mkpath opt.m_outputDir true ∧
              c2 = FsCall.mkpath opt.m_outputDir true := by
      intro c1 h1 c2 h2 p hp1 hp2
      rcases doExportBuffer_produces opt b file hb s c1 h1 p hp1 with ⟨e1, q1⟩ | ⟨w1, k1⟩ <;>
        rcases doExportBuffer_produces opt b file hb (doExportBuffer specPlatform opt b s).2
          c2 h2 p hp2 with ⟨e2, q2⟩ | ⟨w2, _⟩
      · exact ⟨q1, e1, e2⟩
      · exfalso
        rw [q1] at w2
        exact not_within_join _ _ w2
      · exfalso
        rw [q2] at w1
        exact not_within_join _ _ w1
      · exfalso
        exact generated_roots_disjoint _ _ opt.m_outputDir file.name p
          (specPlatform_keeps.mkpath opt.m_outputDir _ _ k1) w1 w2
    refine ⟨hbefore, ?_, ?_, ?_, hpair, ?_⟩
    · intro h2 heq
      have h1 : (doExportBuffer specPlatform opt b s).1 ≠ "" := by
        intro h1
        apply h2
        show (doExportBuffer specPlatform opt b (doExportBuffer specPlatform opt b s).2).1 = ""
        exact (show (doExportBuffer specPlatform opt b (doExportBuffer specPlatform opt b s).2).1
          = (doExportBuffer specPlatform opt b s).1 from heq).trans h1
      obtain ⟨e1, k1⟩ := doExportBuffer_output opt b file hb s h1
      obtain ⟨e2, _⟩ := doExportBuffer_output opt b file hb
        (doExportBuffer specPlatform opt b s).2 h2
      have heq' : bufferOutputFolder specPlatform opt file
          (doExportBuffer specPlatform opt b s).2.fs
          ++ "/" ++ file.name = bufferOutputFolder specPlatform opt file s.fs ++ "/" ++ file.name :=
        e2.symm.trans ((show (doExportBuffer specPlatform opt b
          (doExportBuffer specPlatform opt b s).2).1 = (doExportBuffer specPlatform opt b s).1
          from heq).trans e1)
      have hd := congrArg String.data heq'
      simp only [String.data_append] at hd
      have hsame := String.ext (List.append_cancel_right (List.append_cancel_right hd))
      rw [hsame] at hbefore
      rw [hbefore] at k1
      cases k1
    · intro h2
      exact ⟨(doExportBuffer_output opt b file hb (doExportBuffer specPlatform opt b s).2 h2).1,
        doExportBuffer_made specPlatform opt b file hb (doExportBuffer specPlatform opt b s).2 h2⟩
    · intro call hcall p hp
      rcases doExportBuffer_produces opt b file hb (doExportBuffer specPlatform opt b s).2
        call hcall p hp with h | ⟨w, _⟩
      · exact Or.inl h
      · exact Or.inr w
    · intro c1 h1 c2 h2 p hp1 hp2
      obtain ⟨_, _, e2⟩ := hpair c1 h1 c2 h2 p hp1 (copiesTo_produces c2 p hp2)
      rw [e2] at hp2
      simp [FsCall.copiesTo] at hp2

/-- Witness of C13: the folder holding the document with attachments, and the
buffer of that document, each exported twice to an empty disk with attachments
on. -/
theorem never_reuses_name_witness :
    (exportFolderTwice specPlatform attachmentOption attachmentFolderTree
        (ExportState.init emptyDisk)).1.1
      = ["/out/Notes/a.md/a.md", "/out/Notes/Sub/b.md/b.md"] ∧
    (exportFolderTwice specPlatform attachmentOption attachmentFolderTree
        (ExportState.init emptyDisk)).2.1
      = ["/out/Notes_1/a.md/a.md", "/out/Notes_1/Sub/b.md/b.md"] ∧
    newCalls (exportFolderTwice specPlatform attachmentOption attachmentFolderTree
        (ExportState.init emptyDisk)).1.2
        (exportFolderTwice specPlatform attachmentOption attachmentFolderTree
          (ExportState.init emptyDisk)).2.2
      = [FsCall.generateFileNameWithSequence "/out" "Notes" "",
         FsCall.mkpath "/out/Notes_1" true,
         FsCall.generateFileNameWithSequence "/out/Notes_1" "a.md" "",
         FsCall.mkpath "/out/Notes_1/a.md" true,
         FsCall.copyFile "/nb/a.md" "/out/Notes_1/a.md/a.md" false,
         FsCall.copyMediaFiles "/nb/a.md" "/out/Notes_1/a.md/a.md",
         FsCall.renameIfExistsCaseInsensitive "/out/Notes_1/a.md/vx_attachments/att1",
         FsCall.copyAttachment "/out/Notes_1/a.md/a.md" "/out/Notes_1/a.md/vx_attachments/att1",
         FsCall.generateFileNameWithSequence "/out/Notes_1" "Sub" "",
         FsCall.mkpath "/out/Notes_1/Sub" true,
         FsCall.generateFileNameWithSequence "/out/Notes_1/Sub" "b.md" "",
         FsCall.mkpath "/out/Notes_1/Sub/b.md" true,
         FsCall.copyFile "/nb/Notes/Sub/b.md" "/out/Notes_1/Sub/b.md/b.md" false,
         FsCall.copyMediaFiles "/nb/Notes/Sub/b.md" "/out/Notes_1/Sub/b.md/b.md"] ∧
    (∀ c1 ∈ newCalls (ExportState.init emptyDisk)
        (exportFolderTwice specPlatform attachmentOption attachmentFolderTree
          (ExportState.init emptyDisk)).1.2,
      ∀ c2 ∈ newCalls (exportFolderTwice specPlatform attachmentOption attachmentFolderTree
          (ExportState.init emptyDisk)).1.2
          (exportFolderTwice specPlatform attachmentOption attachmentFolderTree
            (ExportState.init emptyDisk)).2.2,
        ∀ p, c1.produces = some p → c2.produces ≠ some p) ∧
    attachmentBuffer.file = some fileWithAttachments ∧
    (exportBufferTwice specPlatform attachmentOption attachmentBuffer
        (ExportState.init emptyDisk)).1.1 = "/out/a.md/a.md" ∧
    (exportBufferTwice specPlatform attachmentOption attachmentBuffer
        (ExportState.init emptyDisk)).2.1 = "/out/a.md_1/a.md" ∧
    newCalls (exportBufferTwice specPlatform attachmentOption attachmentBuffer
        (ExportState.init emptyDisk)).1.2
        (exportBufferTwice specPlatform attachmentOption attachmentBuffer
          (ExportState.init emptyDisk)).2.2
      = [FsCall.mkpath "/out" true,
         FsCall.generateFileNameWithSequence "/out" "a.md" "",
         FsCall.mkpath "/out/a.md_1" true,
         FsCall.copyFile "/nb/a.md" "/out/a.md_1/a.md" false,
         FsCall.copyMediaFiles "/nb/a.md" "/out/a.md_1/a.md",
         FsCall.renameIfExistsCaseInsensitive "/out/a.md_1/vx_attachments/att1",
         FsCall.copyAttachment "/out/a.md_1/a.md" "/out/a.md_1/vx_attachments/att1"] ∧
    (∀ c1 ∈ newCalls (ExportState.init emptyDisk)
        (exportBufferTwice specPlatform attachmentOption attachmentBuffer
          (ExportState.init emptyDisk)).1.2,
      ∀ c2 ∈ newCalls (exportBufferTwice specPlatform attachmentOption attachmentBuffer
          (ExportState.init emptyDisk)).1.2
          (exportBufferTwice specPlatform attachmentOption attachmentBuffer
            (ExportState.init emptyDisk)).2.2,
        ∀ p, c1.produces = some p → c2.copiesTo ≠ some p) :=
  ⟨by decide, by decide, by decide,
   ((never_reuses_name attachmentOption (ExportState.init emptyDisk)).1
     attachmentFolderTree).2.2.2.2.2,
   rfl, by decide, by decide, by decide,
   ((never_reuses_name attachmentOption (ExportState.init emptyDisk)).2 attachmentBuffer
     fileWithAttachments rfl).2.2.2.2.2⟩

end Exporter

end Vnotex
